import Mathlib

/-!
# The asynchronous tensor interpreter channel (`interpreter_impl.cpp`)

A shallow embedding of `ChannelImpl` and of its `CommandBuffer`.

* A `TensorInfo*` is an address, a natural number.
* Iterators into the command deque are indices: `begin` is `0`, `end` is the length.
* The worker task queue is the list of commands given to `add_task`, oldest first.
-/

namespace Interpreter

/-- Address of a `TensorInfo` record; handles are these addresses. -/
abbrev TensorInfoPtr := Nat

/-- Dynamic type identity of an operator (`dyn_typeinfo`); the six named kinds are the ones
`flush_pos_for` compares against. -/
inductive OpKind where
  | RemoteRecv
  | RemoteSend
  | CollectiveComm
  | InputCallback
  | OutputCallback
  | BackwardGraph
  | Other (tag : Nat)
deriving DecidableEq, Repr

/-- An operator definition (`std::shared_ptr<OpDef>`): its dynamic type and an identity. -/
structure OpDef where
  typeinfo : OpKind
  uid : Nat
deriving DecidableEq, Repr

/-- Element type of a tensor. -/
structure DType where
  valid : Bool
  uid : Nat
deriving DecidableEq, Repr

/-- Layout of a tensor, as far as the channel looks at it. -/
structure TensorLayout where
  ndim : Nat
  dtype : DType
deriving DecidableEq, Repr

/-- Compute node of a tensor. -/
structure CompNode where
  valid : Bool
  uid : Nat
deriving DecidableEq, Repr

/-- Host tensor with a non-empty storage; `content` stands for its bytes. -/
structure HostTensorND where
  content : Nat
  layout : TensorLayout
  comp_node : CompNode
deriving DecidableEq, Repr

/-- Device tensor; `content` stands for its bytes. -/
structure DeviceTensorND where
  content : Nat
  layout : TensorLayout
  comp_node : CompNode
deriving DecidableEq, Repr

/-- The closed family of commands exchanged between the front end and the worker. -/
inductive Command where
  | Put (dest : TensorInfoPtr) (value : HostTensorND) (no_cache : Bool)
  | ApplyOp (op : OpDef) (inputs outputs dels : List TensorInfoPtr)
  | Del (dest : TensorInfoPtr)
  | GetValue (dest : TensorInfoPtr)
  | SwapIn (dest : TensorInfoPtr)
  | SwapOut (dest : TensorInfoPtr)
  | Drop (dest : TensorInfoPtr)
  | Flush (dest : Option TensorInfoPtr)
  | Move (dest src : TensorInfoPtr)
  | Nop
deriving DecidableEq, Repr

/-- The command buffer: `m_capacity` and the deque `m_commands`. -/
structure CommandBuffer where
  m_capacity : Nat
  m_commands : List Command
deriving DecidableEq, Repr

/-- Index of the first element satisfying `p`, the length when there is none
(`std::find_if` over the whole list). -/
def find_if (p : Command → Bool) : List Command → Nat
  | [] => 0
  | c :: cs => if p c then 0 else find_if p cs + 1

/-- The predicate of the `find_if` in `fuse_del`: an `ApplyOp` that counts `dest` among its
inputs. -/
def applies_to (dest : TensorInfoPtr) : Command → Bool
  | .ApplyOp _ inputs _ _ => decide (inputs.count dest > 0)
  | _ => false

/-- The body of the visitor in `find_last_usage`: does this command set `found`? -/
def is_usage (dest : TensorInfoPtr) : Command → Bool
  | .ApplyOp _ inputs _ _ => decide (inputs.count dest > 0)
  | .GetValue d => decide (d = dest)
  | .SwapIn d => decide (d = dest)
  | .SwapOut d => decide (d = dest)
  | .Drop d => decide (d = dest)
  | _ => false

/-- The loop of `find_last_usage`: `iter` walks over the remaining commands and `found` is
overwritten at every usage. -/
def find_last_usage_loop (dest : TensorInfoPtr) : List Command → Nat → Nat → Nat
  | [], _, found => found
  | c :: cs, iter, found =>
    find_last_usage_loop dest cs (iter + 1) (if is_usage dest c then iter else found)

/-- The function `find_last_usage(dest, {lo, hi})` over the deque `cmds`: the index of the last
usage of `dest` in the range, `hi` when there is none. -/
def find_last_usage (dest : TensorInfoPtr) (cmds : List Command) (lo hi : Nat) : Nat :=
  find_last_usage_loop dest ((cmds.take hi).drop lo) lo hi

/-- The predicate of the `find_if` in `find_produce`. -/
def produces (dest : TensorInfoPtr) : Command → Bool
  | .ApplyOp _ _ outputs _ => decide (outputs.count dest > 0)
  | .Put d _ _ => decide (d = dest)
  | _ => false

/-- The function `find_produce(dest, {begin, end})`. -/
def find_produce (dest : TensorInfoPtr) (cmds : List Command) : Nat :=
  find_if (produces dest) cmds

/-- The statement `std::get<ApplyOp>(*apply_iter).dels.push_back(dest)`. -/
def push_del (dest : TensorInfoPtr) : Command → Command
  | .ApplyOp op inputs outputs dels => .ApplyOp op inputs outputs (dels ++ [dest])
  | c => c

/-- The function `fuse_del`: `none` is the result `false`; `some cmds` is the result `true`
together with the deque after the fusion. -/
def fuse_del (cmds : List Command) (dest : TensorInfoPtr) : Option (List Command) :=
  let apply_iter := find_if (applies_to dest) cmds
  let «end» := cmds.length
  if apply_iter = «end» ∨ find_last_usage dest cmds (apply_iter + 1) «end» ≠ «end» then
    none
  else
    some (cmds.modify (push_del dest) apply_iter)

/-- The operator kinds that make `flush_pos_for` flush the whole buffer. -/
def is_distinguished (k : OpKind) : Bool :=
  k = .RemoteRecv || k = .RemoteSend || k = .CollectiveComm || k = .InputCallback ||
    k = .OutputCallback || k = .BackwardGraph

/-- The last two statements of `flush_pos_for`, reached by every command that did not return
earlier. -/
def default_flush_pos (buf : CommandBuffer) : Nat :=
  if buf.m_commands.length > buf.m_capacity then
    0 + (buf.m_commands.length - buf.m_capacity)
  else
    0

/-- The function `flush_pos_for`, called on the back of the deque after `push_back`. -/
def flush_pos_for (buf : CommandBuffer) (cmd : Command) : Nat :=
  match cmd with
  | .ApplyOp op _ _ _ =>
    if is_distinguished op.typeinfo then buf.m_commands.length else default_flush_pos buf
  | .GetValue _ => buf.m_commands.length
  | .Flush none => buf.m_commands.length
  | .Flush (some dest) =>
    let produce_iter := find_produce dest buf.m_commands
    if produce_iter ≠ buf.m_commands.length then produce_iter + 1 else default_flush_pos buf
  | _ => default_flush_pos buf

/-- The command buffer together with the worker task queue it feeds. -/
structure Pipeline where
  buffer : CommandBuffer
  tasks : List Command
deriving DecidableEq, Repr

/-- The function `flush(pos)`: every command before `pos` goes to `add_task`, in order, and is
erased from the deque. -/
def flush (s : Pipeline) (pos : Nat) : Pipeline :=
  { buffer := { s.buffer with m_commands := s.buffer.m_commands.drop pos }
    tasks := s.tasks ++ s.buffer.m_commands.take pos }

/-- The part of `enqueue` after the fusion attempt: `push_back`, `flush_pos_for`, `flush`. -/
def enqueue_back (s : Pipeline) (cmd : Command) : Pipeline :=
  let pushed : Pipeline :=
    { s with buffer := { s.buffer with m_commands := s.buffer.m_commands ++ [cmd] } }
  flush pushed (flush_pos_for pushed.buffer cmd)

/-- The function `CommandBuffer::enqueue`. -/
def enqueue (s : Pipeline) (cmd : Command) : Pipeline :=
  match cmd with
  | .Del dest =>
    match fuse_del s.buffer.m_commands dest with
    | some cmds => { s with buffer := { s.buffer with m_commands := cmds } }
    | none => enqueue_back s cmd
  | _ => enqueue_back s cmd

/-- Whether `enqueue` takes the early return, that is `cmd` is a `Del` and `fuse_del` is true. -/
def is_fused (s : Pipeline) (cmd : Command) : Bool :=
  match cmd with
  | .Del dest => (fuse_del s.buffer.m_commands dest).isSome
  | _ => false

/-- A sequence of `enqueue` calls. -/
def enqueue_all (s : Pipeline) : List Command → Pipeline
  | [] => s
  | c :: cs => enqueue_all (enqueue s c) cs

/-- The enqueued commands whose `enqueue` did not take the early return of a fusion. -/
def unfused (s : Pipeline) : List Command → List Command
  | [] => []
  | c :: cs => (if is_fused s c then [] else [c]) ++ unfused (enqueue s c) cs

/-- The pipeline of a fresh channel: nothing buffered, nothing given to the worker. -/
def Pipeline.fresh (capacity : Nat) : Pipeline :=
  { buffer := { m_capacity := capacity, m_commands := [] }, tasks := [] }

/-- Every command the pipeline holds, oldest first: the worker queue, then the buffer. -/
def Pipeline.all (s : Pipeline) : List Command :=
  s.tasks ++ s.buffer.m_commands

/-- Whether a command is a `Del`. -/
def is_del : Command → Bool
  | .Del _ => true
  | _ => false

/-- The targets of the `Del` commands whose `enqueue` took the early return of a fusion. -/
def fused_dests (s : Pipeline) : List Command → List TensorInfoPtr
  | [] => []
  | c :: cs =>
    (match c with
      | .Del dest => if is_fused s c then [dest] else []
      | _ => []) ++ fused_dests (enqueue s c) cs

/-- The `dels` list of a command; empty for everything but an `ApplyOp`. -/
def dels_of : Command → List TensorInfoPtr
  | .ApplyOp _ _ _ dels => dels
  | _ => []

/-- Every entry of every `dels` list of a sequence of commands. -/
def all_dels : List Command → List TensorInfoPtr
  | [] => []
  | c :: cs => dels_of c ++ all_dels cs

/-- A command after fusions: the same command, or the same `ApplyOp` with more `dels` at the
end, each of them taken from `fused`. -/
def Augments (fused : List TensorInfoPtr) (c c' : Command) : Prop :=
  c' = c ∨ ∃ op inputs outputs dels extra,
    c = .ApplyOp op inputs outputs dels ∧ c' = .ApplyOp op inputs outputs (dels ++ extra) ∧
      ∀ d ∈ extra, d ∈ fused

/-! ## The words of the specification about the buffer -/

/-- An `ApplyOp` with `dest` among its inputs. -/
def ReadsInput (dest : TensorInfoPtr) (c : Command) : Prop :=
  ∃ op inputs outputs dels, c = .ApplyOp op inputs outputs dels ∧ dest ∈ inputs

/-- A reference to `dest` that refuses a fusion: an `ApplyOp` with `dest` among its inputs, a
`GetValue` on `dest`, or a `SwapIn`, `SwapOut` or `Drop` on `dest`. -/
def LaterUse (dest : TensorInfoPtr) (c : Command) : Prop :=
  ReadsInput dest c ∨ c = .GetValue dest ∨ c = .SwapIn dest ∨ c = .SwapOut dest ∨ c = .Drop dest

/-- A producer of `dest`: a `Put` with that `dest`, or an `ApplyOp` listing `dest` among its
outputs. -/
def Producer (dest : TensorInfoPtr) (c : Command) : Prop :=
  (∃ value no_cache, c = .Put dest value no_cache) ∨
    ∃ op inputs outputs dels, c = .ApplyOp op inputs outputs dels ∧ dest ∈ outputs

/-- The distinguished operator kinds: remote receive and send, collective communication, input
and output callback, backward graph. -/
def Distinguished (k : OpKind) : Prop :=
  k = .RemoteRecv ∨ k = .RemoteSend ∨ k = .CollectiveComm ∨ k = .InputCallback ∨
    k = .OutputCallback ∨ k = .BackwardGraph

/-- The default capacity rule in the words of the specification: with `n` the size of the buffer
after appending `cmd`, the oldest `n - capacity` commands go to the worker when
`n > capacity`, and nothing moves otherwise. -/
def capacity_rule (s : Pipeline) (cmd : Command) : Pipeline :=
  let appended := s.buffer.m_commands ++ [cmd]
  let n := appended.length
  if n > s.buffer.m_capacity then
    { buffer := { s.buffer with m_commands := appended.drop (n - s.buffer.m_capacity) }
      tasks := s.tasks ++ appended.take (n - s.buffer.m_capacity) }
  else
    { buffer := { s.buffer with m_commands := appended }, tasks := s.tasks }

/-- The commands that are neither a full-flush nor a targeted-flush trigger for the buffer of
`s`: every kind but `GetValue`, `Flush` without a target, a distinguished `ApplyOp`, a `Del`
that is fused, and a `Flush` whose target has a buffered producer. -/
def DefaultRuleCommand (s : Pipeline) : Command → Prop
  | .ApplyOp op _ _ _ => ¬ Distinguished op.typeinfo
  | .Del dest => is_fused s (.Del dest) = false
  | .Flush (some dest) => ∀ c ∈ s.buffer.m_commands, ¬ Producer dest c
  | .Flush none => False
  | .GetValue _ => False
  | _ => True

/-- Modelled from the spec: `CommandBuffer::set_capacity`, called by `set_buffer_length`, is
declared in the header, which is not among the sources; the capacity is "adjustable via
`set_buffer_length`", so the call stores the new capacity and leaves the deque alone. -/
def set_capacity (s : Pipeline) (length : Nat) : Pipeline :=
  { s with buffer := { s.buffer with m_capacity := length } }

/-- The calls of a channel history that reach the command buffer. -/
inductive BufferCall where
  | enqueue (cmd : Command)
  | set_buffer_length (length : Nat)
deriving DecidableEq, Repr

/-- One call on the buffer. -/
def BufferCall.run (s : Pipeline) : BufferCall → Pipeline
  | .enqueue cmd => Interpreter.enqueue s cmd
  | .set_buffer_length length => set_capacity s length

/-- A history of calls on the buffer. -/
def run_calls (s : Pipeline) : List BufferCall → Pipeline
  | [] => s
  | c :: cs => run_calls (c.run s) cs

/-- A history in which no `set_buffer_length` sets a capacity below the number of commands the
buffer holds at that moment. -/
def NeverLowersBelowSize (s : Pipeline) : List BufferCall → Prop
  | [] => True
  | .enqueue cmd :: cs => NeverLowersBelowSize (enqueue s cmd) cs
  | .set_buffer_length length :: cs =>
    s.buffer.m_commands.length ≤ length ∧ NeverLowersBelowSize (set_capacity s length) cs

/-! ## The registry

The types `TensorInfo`, `Tensor` and the members of `ChannelImpl` are declared in headers that
are not among the sources; they are modelled from the data model of the specification and from
the way `interpreter_impl.cpp` uses them. -/

/-- The eviction state of a tensor. -/
inductive EvictType where
  | NONE
  | SWAP
  | DROP
deriving DecidableEq, Repr

/-- The object behind a `TensorPtr`: its bytes, layout, compute node, and whether a
host-readable value is realized (`value_fetched()`). -/
structure Tensor where
  content : Nat
  layout : TensorLayout
  comp_node : CompNode
  value_fetched : Bool
deriving DecidableEq, Repr

/-- The factory `Tensor::make(HostTensorND)`: same bytes, layout and node; a tensor built from a
host value holds that value. -/
def Tensor.make (hv : HostTensorND) : Tensor :=
  { content := hv.content, layout := hv.layout, comp_node := hv.comp_node, value_fetched := true }

/-- The non-caching construction `std::make_shared<Tensor>(HostTensorND)`. -/
def Tensor.make_shared (hv : HostTensorND) : Tensor :=
  { content := hv.content, layout := hv.layout, comp_node := hv.comp_node, value_fetched := true }

/-- The factory `Tensor::make(DeviceTensorND)`. -/
def Tensor.make_dev (dv : DeviceTensorND) : Tensor :=
  { content := dv.content, layout := dv.layout, comp_node := dv.comp_node,
    value_fetched := false }

/-- The accessor `dev_tensor()`. -/
def Tensor.dev_tensor (t : Tensor) : DeviceTensorND :=
  { content := t.content, layout := t.layout, comp_node := t.comp_node }

/-- The accessor `get_value()`. -/
def Tensor.get_value (t : Tensor) : HostTensorND :=
  { content := t.content, layout := t.layout, comp_node := t.comp_node }

/-- The call `fetch_value()`: realizes the host-readable value. -/
def Tensor.fetch_value (t : Tensor) : Tensor :=
  { t with value_fetched := true }

/-- The call `h_value.copy_from(dev_tensor).sync()`: a host copy of the device bytes. -/
def HostTensorND.copy_from (dv : DeviceTensorND) : HostTensorND :=
  { content := dv.content, layout := dv.layout, comp_node := dv.comp_node }

/-- The logical descriptor `{layout, comp_node, optional cached host value}`. -/
structure LogicalTensorDesc where
  layout : TensorLayout
  comp_node : CompNode
  value : Option HostTensorND
deriving DecidableEq, Repr

/-- The recomputation record of a tensor: `inputs` are strong relations, `outputs` and
`dep_outputs` are weak ones, resolved by looking the address up among the live infos. -/
structure ComputePath where
  op : Option OpDef
  inputs : List TensorInfoPtr
  outputs : List TensorInfoPtr
  dep_outputs : List TensorInfoPtr
deriving DecidableEq, Repr

/-- One record per tensor handle; `ptr` and `h_value` are `none` when absent or empty. -/
structure TensorInfo where
  ptr : Option Tensor
  desc : LogicalTensorDesc
  value_fetched : Bool
  invalid : Bool
  evict_type : EvictType
  h_value : Option HostTensorND
  recompute_times : Nat
  path : ComputePath
deriving DecidableEq, Repr

/-- A newly allocated info: every field zeroed. -/
def TensorInfo.zeroed : TensorInfo :=
  { ptr := none
    desc := { layout := { ndim := 0, dtype := { valid := false, uid := 0 } }
              comp_node := { valid := false, uid := 0 }
              value := none }
    value_fetched := false
    invalid := false
    evict_type := .NONE
    h_value := none
    recompute_times := 0
    path := { op := none, inputs := [], outputs := [], dep_outputs := [] } }

/-- What the channel throws. -/
inductive Exc where
  | invalid_handle (handle : TensorInfoPtr)
  | invalid_tensor_apply_op
  | invalid_tensor_get_value
  | waitee_not_null
  | value_not_fetched
  | shape_unknown
  | dtype_invalid
  | comp_node_invalid
  | bad_async_level
  | delete_before_ref_cnt_zero
  | invalid_input_tensor_ptr
  | invalid_tensor_ptr
  | output_size_mismatch
  | recomputation_path_not_found
  | op_failed (op : OpDef)
  | not_live (ptr : TensorInfoPtr)
  | null_tensor
  | out_of_range
  | out_of_fuel
deriving DecidableEq, Repr

/-- The external collaborators of the channel: the operator registry. An operator that throws
returns `none`. -/
structure Extern where
  apply_on_physical_tensor : OpDef → List Tensor → Option (List Tensor)
  infer_output_attrs_fallible : OpDef → List LogicalTensorDesc → List LogicalTensorDesc × Bool

/-- The pool `m_pool`: the addresses it hands out, in order, and how many it has handed out.
The allocation policy is external, so the sequence is arbitrary. -/
structure MemPool where
  addresses : Nat → TensorInfoPtr
  allocated : Nat

/-- The two bits of `m_enable_evict`. -/
structure EvictFlags where
  swap : Bool
  drop : Bool
deriving DecidableEq, Repr

/-- The state of a `ChannelImpl`: the memory of the infos, the live set `m_st`, the valid
handles, the command buffer, the worker with its queued tasks, the configuration and the
signalling state. `notify_count` counts the calls of `m_cv.notify_all()`. The switch
`fuse_dels` is not in the source: it is `true` on the channel as written, and `false` on the
reference channel whose `fuse_del` always refuses. -/
structure ChannelImpl where
  infos : TensorInfoPtr → TensorInfo
  m_st : List TensorInfoPtr
  m_valid_handle : List TensorInfoPtr
  m_pool : MemPool
  m_buffer : CommandBuffer
  m_worker : List Command
  m_async_level : Int
  m_enable_evict : EvictFlags
  m_max_recompute_time : Nat
  m_waitee : Option TensorInfoPtr
  m_worker_exc : Option Exc
  notify_count : Nat
  fuse_dels : Bool

/-- Overwrite the record at an address. -/
def ChannelImpl.set_info (s : ChannelImpl) (p : TensorInfoPtr) (info : TensorInfo) :
    ChannelImpl :=
  { s with infos := fun q => if q = p then info else s.infos q }

/-- The condition `m_enable_evict` of the worker: some eviction is enabled. -/
def ChannelImpl.evict_enabled (s : ChannelImpl) : Bool :=
  s.m_enable_evict.swap || s.m_enable_evict.drop

/-- The function `produce_tensor(dest, ptr, notice)`. -/
def produce_tensor (s : ChannelImpl) (dest : TensorInfoPtr) (ptr : Tensor) (notice : Bool) :
    ChannelImpl :=
  let info := s.infos dest
  let s' := s.set_info dest
    { info with
      value_fetched := ptr.value_fetched
      desc := { info.desc with layout := ptr.layout, comp_node := ptr.comp_node }
      ptr := some ptr }
  if notice ∧ s.m_waitee = some dest then
    { s' with notify_count := s'.notify_count + 1 }
  else
    s'

/-- The function `do_swap_out`. -/
def do_swap_out (s : ChannelImpl) (dest : TensorInfoPtr) : ChannelImpl :=
  let info := s.infos dest
  if info.evict_type = .DROP then
    s
  else
    match info.ptr with
    | none => s
    | some t =>
      s.set_info dest
        { info with
          evict_type := .SWAP
          value_fetched := false
          h_value := some (HostTensorND.copy_from t.dev_tensor)
          ptr := none }

/-- The function `do_swap_in`. -/
def do_swap_in (s : ChannelImpl) (dest : TensorInfoPtr) : ChannelImpl :=
  let info := s.infos dest
  if info.ptr.isSome then
    s
  else
    match info.h_value with
    | none => s
    | some hv =>
      let s1 := produce_tensor s dest (Tensor.make hv) false
      s1.set_info dest { s1.infos dest with evict_type := .NONE }

/-- The function `do_drop`. -/
def do_drop (s : ChannelImpl) (dest : TensorInfoPtr) : ChannelImpl :=
  let info := s.infos dest
  if info.evict_type = .SWAP then
    s
  else if info.path.op.isNone then
    s
  else if info.recompute_times ≥ s.m_max_recompute_time then
    s
  else if info.ptr.isNone then
    s
  else
    s.set_info dest { info with evict_type := .DROP, value_fetched := false, ptr := none }

/-- The loop over the outputs in `regenerate`: `i` is the index, `outputs` the tensors not yet
visited; a weak reference resolves when its address is live. -/
def publish_outputs (path : ComputePath) :
    List Tensor → Nat → ChannelImpl → ChannelImpl × Option Exc
  | [], _, s => (s, none)
  | t :: ts, i, s =>
    match path.outputs.get? i with
    | none => (s, some .out_of_range)
    | some out_ptr =>
      if out_ptr ∈ s.m_st then
        let s1 := s.set_info out_ptr
          { s.infos out_ptr with recompute_times := (s.infos out_ptr).recompute_times + 1 }
        let s2 :=
          if (s1.infos out_ptr).ptr.isNone ∧ (s1.infos out_ptr).evict_type = .DROP then
            produce_tensor s1 out_ptr t false
          else
            s1
        publish_outputs path ts (i + 1) s2
      else
        publish_outputs path ts (i + 1) s

/-- The last block of `regenerate`: sever the info from the recompute graph. -/
def sever (s : ChannelImpl) (info : TensorInfoPtr) (must_drop : Bool) : ChannelImpl :=
  if must_drop then
    if (s.infos info).path.op.isSome then
      let s1 := s.set_info info
        { s.infos info with path := { (s.infos info).path with op := none, inputs := [] } }
      if (s1.infos info).evict_type = .DROP then
        s1.set_info info { s1.infos info with evict_type := .NONE }
      else
        s1
    else
      s
  else
    s

/-- The loop over `path.inputs` in `regenerate`: an input without `ptr` is regenerated by
`regen`, then its `ptr` (possibly null) is pushed. -/
def gather_history_inputs (regen : ChannelImpl → TensorInfoPtr → ChannelImpl × Option Exc) :
    List TensorInfoPtr → ChannelImpl → List (Option Tensor) →
      ChannelImpl × List (Option Tensor) × Option Exc
  | [], s, inputs => (s, inputs, none)
  | i :: rest, s, inputs =>
    let r : ChannelImpl × Option Exc :=
      if (s.infos i).ptr.isNone then regen s i else (s, none)
    match r with
    | (s1, some e) => (s1, inputs, some e)
    | (s1, none) => gather_history_inputs regen rest s1 (inputs ++ [(s1.infos i).ptr])

/-- The DROP branch of `regenerate`: re-execute the recorded operator; `regen` is the recursive
call on an input. -/
def recompute (ext : Extern) (regen : ChannelImpl → TensorInfoPtr → ChannelImpl × Option Exc)
    (s : ChannelImpl) (info : TensorInfoPtr) : ChannelImpl × Option Exc :=
  match (s.infos info).path.op with
  | none => (s, some .recomputation_path_not_found)
  | some op =>
    let path := (s.infos info).path
    match gather_history_inputs regen path.inputs s [] with
    | (s1, _, some e) => (s1, some e)
    | (s1, inputs, none) =>
      if inputs.all Option.isSome then
        match ext.apply_on_physical_tensor op (inputs.filterMap id) with
        | none => (s1, some (.op_failed op))
        | some outputs => publish_outputs path outputs 0 s1
      else
        (s1, some .null_tensor)

/-- The function `regenerate(info, must_drop)`; `fuel` bounds the depth of the recursion
through the recorded inputs. -/
def regenerate (ext : Extern) :
    Nat → ChannelImpl → TensorInfoPtr → Bool → ChannelImpl × Option Exc
  | 0, s, _, _ => (s, some .out_of_fuel)
  | fuel + 1, s, info, must_drop =>
    let restored : ChannelImpl × Option Exc :=
      if (s.infos info).ptr.isNone ∧ (s.infos info).evict_type ≠ .NONE then
        if (s.infos info).evict_type = .SWAP then
          (do_swap_in s info, none)
        else
          recompute ext (fun s1 i => regenerate ext fuel s1 i must_drop) s info
      else
        (s, none)
    match restored with
    | (s1, some e) => (s1, some e)
    | (s1, none) => (sever s1 info must_drop, none)

/-- The loop of `remove_dep` over the dependent outputs. -/
def remove_dep_loop (ext : Extern) (fuel : Nat) :
    List TensorInfoPtr → ChannelImpl → ChannelImpl × Option Exc
  | [], s => (s, none)
  | i :: rest, s =>
    let r : ChannelImpl × Option Exc :=
      if i ∈ s.m_st then regenerate ext fuel s i true else (s, none)
    match r with
    | (s1, some e) => (s1, some e)
    | (s1, none) => remove_dep_loop ext fuel rest s1

/-- The function `remove_dep`: regenerate every live dependent output in must-drop mode. -/
def remove_dep (ext : Extern) (fuel : Nat) (s : ChannelImpl) (dest : TensorInfoPtr) :
    ChannelImpl × Option Exc :=
  remove_dep_loop ext fuel (s.infos dest).path.dep_outputs s

/-- Modelled from the spec: `allow_delete` is the "guard ensuring no live references remain at
free time"; the registry, declared in a header that is not among the sources, sets it when the
last strong relation to the record is gone. The strong relations are the registry entry and the
`path.inputs` of the live infos. -/
def allow_delete (s : ChannelImpl) (ptr : TensorInfoPtr) : Bool :=
  decide (ptr ∉ s.m_st) && s.m_st.all (fun q => decide (ptr ∉ (s.infos q).path.inputs))

/-- The function `free`. -/
def free (ext : Extern) (fuel : Nat) (s : ChannelImpl) (ptr : TensorInfoPtr) :
    ChannelImpl × Option Exc :=
  let r : ChannelImpl × Option Exc :=
    if (s.infos ptr).path.dep_outputs.length > 0 then remove_dep ext fuel s ptr else (s, none)
  match r with
  | (s1, some e) => (s1, some e)
  | (s1, none) =>
    let s2 := { s1 with m_st := s1.m_st.filter (fun q => q ≠ ptr) }
    if allow_delete s2 ptr then (s2, none) else (s2, some .delete_before_ref_cnt_zero)

/-! ## The worker -/

/-- The loop over `cmd.inputs` in the `ApplyOp` branch of `process_one_task`. -/
def gather_inputs (ext : Extern) (fuel : Nat) :
    List TensorInfoPtr → ChannelImpl → List Tensor → ChannelImpl × List Tensor × Option Exc
  | [], s, tensor_inputs => (s, tensor_inputs, none)
  | i :: rest, s, tensor_inputs =>
    let r : ChannelImpl × Option Exc :=
      if s.evict_enabled ∧ (s.infos i).evict_type ≠ .NONE then
        if (s.infos i).ptr.isNone then regenerate ext fuel s i false else (s, none)
      else
        (s, none)
    match r with
    | (s1, some e) => (s1, tensor_inputs, some e)
    | (s1, none) =>
      match (s1.infos i).ptr with
      | none => (s1, tensor_inputs, some .invalid_input_tensor_ptr)
      | some t => gather_inputs ext fuel rest s1 (tensor_inputs ++ [t])

/-- The loop over `cmd.dels` in the `ApplyOp` branch of `process_one_task`. -/
def free_dels (ext : Extern) (fuel : Nat) :
    List TensorInfoPtr → ChannelImpl → ChannelImpl × Option Exc
  | [], s => (s, none)
  | del :: rest, s =>
    match free ext fuel s del with
    | (s1, some e) => (s1, some e)
    | (s1, none) => free_dels ext fuel rest s1

/-- The loop publishing `tensor_outputs[i]` into `cmd.outputs[i]`, with notification. -/
def produce_outputs : List TensorInfoPtr → List Tensor → ChannelImpl → ChannelImpl
  | out :: outs, t :: ts, s => produce_outputs outs ts (produce_tensor s out t true)
  | _, _, s => s

/-- The `try` block of `process_one_task`: the state it leaves and the exception it throws. -/
def run_command (ext : Extern) (fuel : Nat) (s : ChannelImpl) :
    Command → ChannelImpl × Option Exc
  | .Put dest value no_cache =>
    let t := if no_cache then Tensor.make_shared value else Tensor.make value
    (produce_tensor s dest t true, none)
  | .ApplyOp op inputs outputs dels =>
    match gather_inputs ext fuel inputs s [] with
    | (s1, _, some e) => (s1, some e)
    | (s1, tensor_inputs, none) =>
      match free_dels ext fuel dels s1 with
      | (s2, some e) => (s2, some e)
      | (s2, none) =>
        match ext.apply_on_physical_tensor op tensor_inputs with
        | none => (s2, some (.op_failed op))
        | some tensor_outputs =>
          if tensor_outputs.length = outputs.length then
            (produce_outputs outputs tensor_outputs s2, none)
          else
            (s2, some .output_size_mismatch)
  | .Del dest => free ext fuel s dest
  | .GetValue dest =>
    let r : ChannelImpl × Option Exc :=
      if s.evict_enabled ∧ (s.infos dest).evict_type ≠ .NONE then
        if (s.infos dest).ptr.isNone then regenerate ext fuel s dest false else (s, none)
      else
        (s, none)
    match r with
    | (s1, some e) => (s1, some e)
    | (s1, none) =>
      match (s1.infos dest).ptr with
      | none => (s1, some .invalid_tensor_ptr)
      | some t =>
        let s2 := s1.set_info dest
          { s1.infos dest with ptr := some t.fetch_value, value_fetched := true }
        (if s2.m_waitee = some dest then { s2 with notify_count := s2.notify_count + 1 }
          else s2, none)
  | .SwapIn dest => (do_swap_in s dest, none)
  | .SwapOut dest => (do_swap_out s dest, none)
  | .Drop dest => (do_drop s dest, none)
  | .Move dest src =>
    match (s.infos src).ptr with
    | none => (s, some .null_tensor)
    | some t => free ext fuel (produce_tensor s dest t true) src
  | .Flush _ => (s, none)
  | .Nop => (s, none)

/-- The loop `for (auto oup : cmd.outputs) oup->invalid = true`. -/
def mark_invalid (s : ChannelImpl) : List TensorInfoPtr → ChannelImpl
  | [] => s
  | oup :: rest => mark_invalid (s.set_info oup { s.infos oup with invalid := true }) rest

/-- The `catch` block of `process_one_task`. -/
def catch_block (s : ChannelImpl) (cmd : Command) (e : Exc) : ChannelImpl :=
  let s1 :=
    match cmd with
    | .ApplyOp _ _ outputs _ => mark_invalid s outputs
    | .Put dest _ _ => s.set_info dest { s.infos dest with invalid := true }
    | _ => s
  { s1 with m_worker_exc := some e, notify_count := s1.notify_count + 1 }

/-- The function `process_one_task`. -/
def process_one_task (ext : Extern) (fuel : Nat) (s : ChannelImpl) (cmd : Command) :
    ChannelImpl :=
  match run_command ext fuel s cmd with
  | (s1, none) => s1
  | (s1, some e) => catch_block s1 cmd e

/-- The worker executing a stream of commands in order. -/
def process_tasks (ext : Extern) (fuel : Nat) (s : ChannelImpl) : List Command → ChannelImpl
  | [] => s
  | cmd :: rest => process_tasks ext fuel (process_one_task ext fuel s cmd) rest

/-- The function `check_worker_exc_unsafe`: swaps the stored exception out and rethrows it. -/
def check_worker_exc_unsafe (s : ChannelImpl) : ChannelImpl × Option Exc :=
  match s.m_worker_exc with
  | some exc => ({ s with m_worker_exc := none }, some exc)
  | none => (s, none)

/-! ## The public channel

The worker thread is scheduled inside the blocking calls: while a client waits on `m_cv` or in
`wait_all_task_finish`, the worker takes the queued tasks one by one. A wait whose predicate is
false when the queue is empty never returns. -/

/-- How a call of the channel ends: it returns, it throws, or it never returns. -/
inductive Status (α : Type) where
  | returned (value : α)
  | thrown (e : Exc)
  | blocked

/-- The channel after a call, and how the call ended. -/
structure Outcome (α : Type) where
  state : ChannelImpl
  status : Status α

/-- Whether the call returned. -/
def Outcome.is_returned {α : Type} (o : Outcome α) : Bool :=
  match o.status with
  | .returned _ => true
  | _ => false

/-- The exception of a call that threw. -/
def Outcome.exception {α : Type} (o : Outcome α) : Option Exc :=
  match o.status with
  | .thrown e => some e
  | _ => none

/-- The fuel the worker gives to `regenerate`: more than the number of records ever
allocated. -/
def ChannelImpl.fuel (s : ChannelImpl) : Nat :=
  s.m_pool.allocated + 1

/-- The call `m_buffer.enqueue(cmd)` on the channel: flushed commands go to the worker queue. -/
def ChannelImpl.enqueue (s : ChannelImpl) (cmd : Command) : ChannelImpl :=
  let p :=
    if s.fuse_dels then Interpreter.enqueue { buffer := s.m_buffer, tasks := s.m_worker } cmd
    else enqueue_back { buffer := s.m_buffer, tasks := s.m_worker } cmd
  { s with m_buffer := p.buffer, m_worker := p.tasks }

/-- The call `m_worker.wait_all_task_finish()`: the worker drains its queue. -/
def wait_all_task_finish (ext : Extern) (s : ChannelImpl) : ChannelImpl :=
  { process_tasks ext s.fuel { s with m_worker := [] } s.m_worker with m_worker := [] }

/-- The call `m_cv.wait(lock, pred)` where `pred` runs `check_worker_exc_unsafe` and then reads
a flag: `tasks` is the worker queue, taken one task at a time while the flag is false. -/
def cv_wait (ext : Extern) (flag : ChannelImpl → Bool) :
    List Command → ChannelImpl → Outcome Unit
  | tasks, s =>
    match check_worker_exc_unsafe { s with m_worker := tasks } with
    | (s1, some e) => { state := s1, status := .thrown e }
    | (s1, none) =>
      if flag s1 then
        { state := s1, status := .returned () }
      else
        match tasks with
        | [] => { state := s1, status := .blocked }
        | t :: rest => cv_wait ext flag rest (process_one_task ext s1.fuel s1 t)

/-- The function `alloc`: a zeroed record at the next address of the pool, inserted in `m_st`. -/
def alloc (s : ChannelImpl) : ChannelImpl × TensorInfoPtr :=
  let info := s.m_pool.addresses s.m_pool.allocated
  ({ s with
      m_pool := { s.m_pool with allocated := s.m_pool.allocated + 1 }
      infos := fun q => if q = info then TensorInfo.zeroed else s.infos q
      m_st := if info ∈ s.m_st then s.m_st else s.m_st ++ [info] }, info)

/-- The call `m_valid_handle.insert(info)`. -/
def insert_valid (s : ChannelImpl) (info : TensorInfoPtr) : ChannelImpl :=
  { s with
    m_valid_handle := if info ∈ s.m_valid_handle then s.m_valid_handle
      else s.m_valid_handle ++ [info] }

/-- The function `put(const HostTensorND&, bool)`. -/
def put (s : ChannelImpl) (value : HostTensorND) (no_cache : Bool) : Outcome TensorInfoPtr :=
  let (s1, info) := alloc s
  let s2 := s1.set_info info
    { s1.infos info with
      desc := { layout := value.layout, comp_node := value.comp_node, value := some value } }
  let s3 := insert_valid s2 info
  { state := s3.enqueue (.Put info value no_cache), status := .returned info }

/-- The function `put(const DeviceTensorND&)`. -/
def put_device (s : ChannelImpl) (data : DeviceTensorND) : Outcome TensorInfoPtr :=
  let (s1, info) := alloc s
  let s2 := s1.set_info info
    { s1.infos info with
      desc := { (s1.infos info).desc with layout := data.layout, comp_node := data.comp_node }
      ptr := some (Tensor.make_dev data) }
  { state := insert_valid s2 info, status := .returned info }

/-- The function `del`. -/
def del (s : ChannelImpl) (handle : TensorInfoPtr) : Outcome Unit :=
  if handle ∈ s.m_valid_handle then
    let s1 := { s with m_valid_handle := s.m_valid_handle.filter (fun h => h ≠ handle) }
    { state := s1.enqueue (.Del handle), status := .returned () }
  else
    { state := s, status := .thrown (.invalid_handle handle) }

/-- The function `swap_in`. -/
def swap_in (s : ChannelImpl) (handle : TensorInfoPtr) : Outcome Unit :=
  if s.m_enable_evict.swap then
    if handle ∈ s.m_valid_handle then
      { state := s.enqueue (.SwapIn handle), status := .returned () }
    else
      { state := s, status := .thrown (.invalid_handle handle) }
  else
    { state := s, status := .returned () }

/-- The function `swap_out`. -/
def swap_out (s : ChannelImpl) (handle : TensorInfoPtr) : Outcome Unit :=
  if s.m_enable_evict.swap then
    if handle ∈ s.m_valid_handle then
      { state := s.enqueue (.SwapOut handle), status := .returned () }
    else
      { state := s, status := .thrown (.invalid_handle handle) }
  else
    { state := s, status := .returned () }

/-- The function `drop`. -/
def drop (s : ChannelImpl) (handle : TensorInfoPtr) : Outcome Unit :=
  if s.m_enable_evict.drop then
    if handle ∈ s.m_valid_handle then
      { state := s.enqueue (.Drop handle), status := .returned () }
    else
      { state := s, status := .thrown (.invalid_handle handle) }
  else
    { state := s, status := .returned () }

/-- The function `sync`. -/
def sync (ext : Extern) (s : ChannelImpl) : Outcome Unit :=
  let s1 := if s.m_buffer.m_commands.isEmpty then s else s.enqueue (.Flush none)
  let s2 := wait_all_task_finish ext s1
  match check_worker_exc_unsafe s2 with
  | (s3, some e) => { state := s3, status := .thrown e }
  | (s3, none) => { state := s3, status := .returned () }

/-- The function `close`. -/
def close (ext : Extern) (s : ChannelImpl) : Outcome Unit :=
  sync ext s

/-- The function `config_async_level`. -/
def config_async_level (s : ChannelImpl) (level : Int) : Outcome Unit :=
  if level ≤ 2 ∧ level ≥ 0 then
    { state := { s with m_async_level := level }, status := .returned () }
  else
    { state := s, status := .thrown .bad_async_level }

/-- The function `get_async_level`. -/
def get_async_level (s : ChannelImpl) : Outcome Int :=
  { state := s, status := .returned s.m_async_level }

/-- The function `set_swap_flag`. -/
def set_swap_flag (s : ChannelImpl) (flag : Bool) : Outcome Unit :=
  { state := { s with m_enable_evict := { s.m_enable_evict with swap := flag } }
    status := .returned () }

/-- The function `set_drop_flag`. -/
def set_drop_flag (s : ChannelImpl) (flag : Bool) : Outcome Unit :=
  { state := { s with m_enable_evict := { s.m_enable_evict with drop := flag } }
    status := .returned () }

/-- The function `set_buffer_length`; the capacity is stored as by `set_capacity`. -/
def set_buffer_length (s : ChannelImpl) (length : Nat) : Outcome Unit :=
  { state := { s with m_buffer := { s.m_buffer with m_capacity := length } }
    status := .returned () }

/-- The loop of `apply_op` that allocates one record per inferred output descriptor. -/
def alloc_outputs :
    List LogicalTensorDesc → ChannelImpl → List TensorInfoPtr → Bool →
      ChannelImpl × List TensorInfoPtr × Bool
  | [], s, outputs, validated_bkp => (s, outputs, validated_bkp)
  | desc :: rest, s, outputs, validated_bkp =>
    let validated_bkp' := if desc.layout.ndim = 0 then false else validated_bkp
    let (s1, info) := alloc s
    let s2 := s1.set_info info { s1.infos info with desc := desc }
    let s3 := insert_valid s2 info
    alloc_outputs rest s3 (outputs ++ [info]) validated_bkp'

/-- The inner loop `out->path.outputs.push_back(m_st.at(out_))`; `m_st.at` fails on an address
that is not live. -/
def record_siblings (out : TensorInfoPtr) :
    List TensorInfoPtr → ChannelImpl → ChannelImpl × Option Exc
  | [], s => (s, none)
  | out_ :: rest, s =>
    if out_ ∈ s.m_st then
      record_siblings out rest
        (s.set_info out
          { s.infos out with
            path := { (s.infos out).path with outputs := (s.infos out).path.outputs ++ [out_] } })
    else
      (s, some (.not_live out_))

/-- The inner loop over `cmd.inputs` of the recording in `apply_op`. -/
def record_inputs (out : TensorInfoPtr) :
    List TensorInfoPtr → ChannelImpl → ChannelImpl × Option Exc
  | [], s => (s, none)
  | inp :: rest, s =>
    if inp ∈ s.m_st then
      let s1 := s.set_info out
        { s.infos out with
          path := { (s.infos out).path with inputs := (s.infos out).path.inputs ++ [inp] } }
      if out ∈ s1.m_st then
        record_inputs out rest
          (s1.set_info inp
            { s1.infos inp with
              path := { (s1.infos inp).path with
                        dep_outputs := (s1.infos inp).path.dep_outputs ++ [out] } })
      else
        (s1, some (.not_live out))
    else
      (s, some (.not_live inp))

/-- The outer loop of the recording in `apply_op`, run when DROP is enabled. -/
def record_paths (op : OpDef) (inputs outputs : List TensorInfoPtr) :
    List TensorInfoPtr → ChannelImpl → ChannelImpl × Option Exc
  | [], s => (s, none)
  | out :: rest, s =>
    let s1 := s.set_info out
      { s.infos out with path := { (s.infos out).path with op := some op } }
    match record_siblings out outputs s1 with
    | (s2, some e) => (s2, some e)
    | (s2, none) =>
      match record_inputs out inputs s2 with
      | (s3, some e) => (s3, some e)
      | (s3, none) => record_paths op inputs outputs rest s3

/-- The loop `info->ptr->comp_node().sync()` over the outputs at async level 0. -/
def sync_outputs (s : ChannelImpl) : List TensorInfoPtr → Option Exc
  | [] => none
  | oup :: rest => if (s.infos oup).ptr.isSome then sync_outputs s rest else some .null_tensor

/-- The end of `apply_op`, after the command is enqueued: `all_validated` is
`validated && validated_bkp`. -/
def apply_op_sync (ext : Extern) (s : ChannelImpl) (outputs : List TensorInfoPtr)
    (all_validated : Bool) : Outcome (List TensorInfoPtr) :=
  if ¬ all_validated ∧ s.m_async_level = 1 then
    match (sync ext s).status with
    | .returned _ => { state := (sync ext s).state, status := .returned outputs }
    | .thrown e => { state := (sync ext s).state, status := .thrown e }
    | .blocked => { state := (sync ext s).state, status := .blocked }
  else if s.m_async_level = 0 then
    match (sync ext s).status with
    | .returned _ =>
      match sync_outputs (sync ext s).state outputs with
      | some e => { state := (sync ext s).state, status := .thrown e }
      | none => { state := (sync ext s).state, status := .returned outputs }
    | .thrown e => { state := (sync ext s).state, status := .thrown e }
    | .blocked => { state := (sync ext s).state, status := .blocked }
  else
    { state := s, status := .returned outputs }

/-- The function `apply_op`. -/
def apply_op (ext : Extern) (s : ChannelImpl) (op : OpDef) (inputs : List TensorInfoPtr) :
    Outcome (List TensorInfoPtr) :=
  match inputs.find? (fun i => decide (i ∉ s.m_valid_handle)) with
  | some i => { state := s, status := .thrown (.invalid_handle i) }
  | none =>
    if inputs.any (fun i => (s.infos i).invalid) then
      { state := s, status := .thrown .invalid_tensor_apply_op }
    else
      let input_descs := inputs.map (fun i => (s.infos i).desc)
      let inferred := ext.infer_output_attrs_fallible op input_descs
      let allocated := alloc_outputs inferred.1 s [] true
      let outputs := allocated.2.1
      let recorded : ChannelImpl × Option Exc :=
        if allocated.1.m_enable_evict.drop then
          record_paths op inputs outputs outputs allocated.1
        else
          (allocated.1, none)
      match recorded with
      | (s2, some e) => { state := s2, status := .thrown e }
      | (s2, none) =>
        apply_op_sync ext (s2.enqueue (.ApplyOp op inputs outputs [])) outputs
          (inferred.2 && allocated.2.2)

/-- The block of `get_value` that waits for the value: set `m_waitee`, enqueue `GetValue`, wait
until `value_fetched`, clear `m_waitee`. A throw inside the wait leaves the block at once. -/
def wait_for_value (ext : Extern) (s : ChannelImpl) (handle : TensorInfoPtr) : Outcome Unit :=
  if (s.infos handle).invalid then
    { state := s, status := .thrown .invalid_tensor_get_value }
  else
    let s1 := { s with m_waitee := some handle }
    let s2 := s1.enqueue (.GetValue handle)
    let w := cv_wait ext (fun c => (c.infos handle).value_fetched) s2.m_worker s2
    match w.status with
    | .returned _ => { state := { w.state with m_waitee := none }, status := .returned () }
    | .thrown e => { state := w.state, status := .thrown e }
    | .blocked => { state := w.state, status := .blocked }

/-- The function `get_value`. -/
def get_value (ext : Extern) (s : ChannelImpl) (handle : TensorInfoPtr) :
    Outcome HostTensorND :=
  if handle ∉ s.m_valid_handle then
    { state := s, status := .thrown (.invalid_handle handle) }
  else if s.m_waitee.isSome then
    { state := s, status := .thrown .waitee_not_null }
  else
    let waited : Outcome Unit :=
      if ¬ (s.infos handle).value_fetched then wait_for_value ext s handle
      else { state := s, status := .returned () }
    match waited.status with
    | .thrown e => { state := waited.state, status := .thrown e }
    | .blocked => { state := waited.state, status := .blocked }
    | .returned _ =>
      match (waited.state.infos handle).ptr with
      | none => { state := waited.state, status := .thrown .null_tensor }
      | some t =>
        if t.value_fetched then { state := waited.state, status := .returned t.get_value }
        else { state := waited.state, status := .thrown .value_not_fetched }

/-- The block shared by `get_shape` and `get_dev_tensor`: set `m_waitee`, enqueue
`Flush{info}`, wait until `ptr` is there, clear `m_waitee`. A throw inside the wait leaves the
block at once. -/
def wait_for_ptr (ext : Extern) (s : ChannelImpl) (handle : TensorInfoPtr) : Outcome Unit :=
  let s1 := { s with m_waitee := some handle }
  let s2 := s1.enqueue (.Flush (some handle))
  let w := cv_wait ext (fun c => (c.infos handle).ptr.isSome) s2.m_worker s2
  match w.status with
  | .returned _ => { state := { w.state with m_waitee := none }, status := .returned () }
  | .thrown e => { state := w.state, status := .thrown e }
  | .blocked => { state := w.state, status := .blocked }

/-- The function `get_shape`; the shape is read off the layout. -/
def get_shape (ext : Extern) (s : ChannelImpl) (handle : TensorInfoPtr) :
    Outcome TensorLayout :=
  if handle ∉ s.m_valid_handle then
    { state := s, status := .thrown (.invalid_handle handle) }
  else if (s.infos handle).desc.layout.ndim ≠ 0 then
    { state := s, status := .returned (s.infos handle).desc.layout }
  else if s.m_waitee.isSome then
    { state := s, status := .thrown .waitee_not_null }
  else
    let w := wait_for_ptr ext s handle
    match w.status with
    | .thrown e => { state := w.state, status := .thrown e }
    | .blocked => { state := w.state, status := .blocked }
    | .returned _ =>
      match (w.state.infos handle).ptr with
      | none => { state := w.state, status := .thrown .null_tensor }
      | some t =>
        if t.layout.ndim ≠ 0 then { state := w.state, status := .returned t.layout }
        else { state := w.state, status := .thrown .shape_unknown }

/-- The function `get_dtype`. -/
def get_dtype (s : ChannelImpl) (handle : TensorInfoPtr) : Outcome DType :=
  if handle ∉ s.m_valid_handle then
    { state := s, status := .thrown (.invalid_handle handle) }
  else if (s.infos handle).desc.layout.dtype.valid then
    { state := s, status := .returned (s.infos handle).desc.layout.dtype }
  else
    { state := s, status := .thrown .dtype_invalid }

/-- The function `get_device`. -/
def get_device (s : ChannelImpl) (handle : TensorInfoPtr) : Outcome CompNode :=
  if handle ∉ s.m_valid_handle then
    { state := s, status := .thrown (.invalid_handle handle) }
  else if (s.infos handle).desc.comp_node.valid then
    { state := s, status := .returned (s.infos handle).desc.comp_node }
  else
    { state := s, status := .thrown .comp_node_invalid }

/-- The function `get_dev_tensor`. -/
def get_dev_tensor (ext : Extern) (s : ChannelImpl) (handle : TensorInfoPtr) :
    Outcome DeviceTensorND :=
  if handle ∉ s.m_valid_handle then
    { state := s, status := .thrown (.invalid_handle handle) }
  else if s.m_waitee.isSome then
    { state := s, status := .thrown .waitee_not_null }
  else
    let w := wait_for_ptr ext s handle
    match w.status with
    | .thrown e => { state := w.state, status := .thrown e }
    | .blocked => { state := w.state, status := .blocked }
    | .returned _ =>
      match (w.state.infos handle).ptr with
      | none => { state := w.state, status := .thrown .null_tensor }
      | some t => { state := w.state, status := .returned t.dev_tensor }

/-- Forget the value a call returned. -/
def Outcome.erase {α : Type} (o : Outcome α) : Outcome Unit :=
  { state := o.state
    status :=
      match o.status with
      | .returned _ => .returned ()
      | .thrown e => .thrown e
      | .blocked => .blocked }

/-- The public operations of the channel. -/
inductive ApiCall where
  | put (value : HostTensorND) (no_cache : Bool)
  | put_device (data : DeviceTensorND)
  | del (handle : TensorInfoPtr)
  | swap_in (handle : TensorInfoPtr)
  | swap_out (handle : TensorInfoPtr)
  | drop (handle : TensorInfoPtr)
  | apply_op (op : OpDef) (inputs : List TensorInfoPtr)
  | get_value (handle : TensorInfoPtr)
  | get_shape (handle : TensorInfoPtr)
  | get_dtype (handle : TensorInfoPtr)
  | get_device (handle : TensorInfoPtr)
  | get_dev_tensor (handle : TensorInfoPtr)
  | sync
  | close
  | config_async_level (level : Int)
  | get_async_level
  | set_swap_flag (flag : Bool)
  | set_drop_flag (flag : Bool)
  | set_buffer_length (length : Nat)
deriving DecidableEq

/-- One public operation on the channel, its result forgotten. -/
def ApiCall.run (ext : Extern) (s : ChannelImpl) : ApiCall → Outcome Unit
  | .put value no_cache => (Interpreter.put s value no_cache).erase
  | .put_device data => (Interpreter.put_device s data).erase
  | .del handle => Interpreter.del s handle
  | .swap_in handle => Interpreter.swap_in s handle
  | .swap_out handle => Interpreter.swap_out s handle
  | .drop handle => Interpreter.drop s handle
  | .apply_op op inputs => (Interpreter.apply_op ext s op inputs).erase
  | .get_value handle => (Interpreter.get_value ext s handle).erase
  | .get_shape handle => (Interpreter.get_shape ext s handle).erase
  | .get_dtype handle => (Interpreter.get_dtype s handle).erase
  | .get_device handle => (Interpreter.get_device s handle).erase
  | .get_dev_tensor handle => (Interpreter.get_dev_tensor ext s handle).erase
  | .sync => Interpreter.sync ext s
  | .close => Interpreter.close ext s
  | .config_async_level level => Interpreter.config_async_level s level
  | .get_async_level => (Interpreter.get_async_level s).erase
  | .set_swap_flag flag => Interpreter.set_swap_flag s flag
  | .set_drop_flag flag => Interpreter.set_drop_flag s flag
  | .set_buffer_length length => Interpreter.set_buffer_length s length

/-- The handles a public operation takes. -/
def ApiCall.handles : ApiCall → List TensorInfoPtr
  | .del handle => [handle]
  | .swap_in handle => [handle]
  | .swap_out handle => [handle]
  | .drop handle => [handle]
  | .apply_op _ inputs => inputs
  | .get_value handle => [handle]
  | .get_shape handle => [handle]
  | .get_dtype handle => [handle]
  | .get_device handle => [handle]
  | .get_dev_tensor handle => [handle]
  | _ => []

/-- The operations that do nothing while their eviction flag is off: `swap_in` and `swap_out`
without SWAP, `drop` without DROP. -/
def ApiCall.gated_off (s : ChannelImpl) : ApiCall → Bool
  | .swap_in _ => !s.m_enable_evict.swap
  | .swap_out _ => !s.m_enable_evict.swap
  | .drop _ => !s.m_enable_evict.drop
  | _ => false

/-- The operations that allocate a record: the two `put` and `apply_op`. -/
def ApiCall.allocates : ApiCall → Bool
  | .put _ _ => true
  | .put_device _ => true
  | .apply_op _ _ => true
  | _ => false

/-- A history of public operations; each one starts in the state the previous one left, also
when that one threw. -/
def run_api (ext : Extern) (s : ChannelImpl) : List ApiCall → ChannelImpl
  | [] => s
  | c :: cs => run_api ext (c.run ext s).state cs

/-- A channel right after construction; the defaults of the members are in a header that is not
among the sources, so they are arguments. -/
def ChannelImpl.create (pool : Nat → TensorInfoPtr) (capacity : Nat) (async_level : Int)
    (flags : EvictFlags) (max_recompute_time : Nat) : ChannelImpl :=
  { infos := fun _ => TensorInfo.zeroed
    m_st := []
    m_valid_handle := []
    m_pool := { addresses := pool, allocated := 0 }
    m_buffer := { m_capacity := capacity, m_commands := [] }
    m_worker := []
    m_async_level := async_level
    m_enable_evict := flags
    m_max_recompute_time := max_recompute_time
    m_waitee := none
    m_worker_exc := none
    notify_count := 0
    fuse_dels := true }

/-- The operations of a client program. -/
inductive ClientOp where
  | put (value : HostTensorND) (no_cache : Bool)
  | put_device (data : DeviceTensorND)
  | apply_op (op : OpDef) (inputs : List TensorInfoPtr)
  | del (handle : TensorInfoPtr)
  | get_value (handle : TensorInfoPtr)
  | swap_in (handle : TensorInfoPtr)
  | swap_out (handle : TensorInfoPtr)
  | drop (handle : TensorInfoPtr)
deriving DecidableEq

/-- An operator registry for examples: every operator returns one tensor whose bytes are the
sum of the bytes of its inputs plus the identity of the operator, and infers one output of
known shape. -/
def Extern.sum : Extern :=
  { apply_on_physical_tensor := fun op ts =>
      some [{ content := (ts.map (fun t => t.content)).sum + op.uid
              layout := { ndim := 1, dtype := { valid := true, uid := 0 } }
              comp_node := { valid := true, uid := 0 }
              value_fetched := false }]
    infer_output_attrs_fallible := fun _ _ =>
      ([{ layout := { ndim := 1, dtype := { valid := true, uid := 0 } }
          comp_node := { valid := true, uid := 0 }
          value := none }], true) }

/-- What the worker never writes: the valid handles, the pool, the buffer, the queue, the
configuration and the waiter. -/
def WorkerFrame (s s' : ChannelImpl) : Prop :=
  s'.m_valid_handle = s.m_valid_handle ∧ s'.m_pool = s.m_pool ∧ s'.m_buffer = s.m_buffer ∧
    s'.m_worker = s.m_worker ∧ s'.m_async_level = s.m_async_level ∧
    s'.m_enable_evict = s.m_enable_evict ∧
    s'.m_max_recompute_time = s.m_max_recompute_time ∧ s'.m_waitee = s.m_waitee

/-! ## Canonical values

The reference for the fusion claim: every handle has one canonical tensor, the one its producer
yields from the canonical tensors of its inputs. -/

/-- Two tensors with the same bytes, layout and node; the flag `value_fetched` may differ. -/
def same_value (t t' : Tensor) : Prop :=
  t.content = t'.content ∧ t.layout = t'.layout ∧ t.comp_node = t'.comp_node

/-- A deterministic operator registry: on inputs with the same bytes, layout and node, an
operator throws both times or returns outputs with the same bytes, layout and node. -/
def Deterministic (ext : Extern) : Prop :=
  ∀ op ts ts', List.Forall₂ same_value ts ts' →
    (ext.apply_on_physical_tensor op ts = none ∧ ext.apply_on_physical_tensor op ts' = none) ∨
    ∃ os os', ext.apply_on_physical_tensor op ts = some os ∧
      ext.apply_on_physical_tensor op ts' = some os' ∧ List.Forall₂ same_value os os'

/-- The static data of a program: the recorded path `G h` and the canonical tensor `cv h` of
every handle, the eviction flags, the allocation index `rank h` of every handle, and a bound
above the index of every handle in use. -/
structure Canon where
  G : TensorInfoPtr → ComputePath
  cv : TensorInfoPtr → Tensor
  flags : EvictFlags
  rank : TensorInfoPtr → Nat
  bound : Nat

/-- Two channels with the same live set and flags whose records agree except at `h`. -/
def SameBut (s s' : ChannelImpl) (h : TensorInfoPtr) : Prop :=
  s'.m_st = s.m_st ∧ s'.m_enable_evict = s.m_enable_evict ∧ ∀ q, q ≠ h → s'.infos q = s.infos q

/-- The allocation and recording block of `apply_op`: the channel after it, the output
handles, whether every shape is known, and the exception of a failed `m_st.at`. -/
def apply_op_record (ext : Extern) (s : ChannelImpl) (op : OpDef) (inputs : List TensorInfoPtr) :
    ChannelImpl × List TensorInfoPtr × Bool × Option Exc :=
  let input_descs := inputs.map (fun i => (s.infos i).desc)
  let inferred := ext.infer_output_attrs_fallible op input_descs
  let allocated := alloc_outputs inferred.1 s [] true
  let recorded : ChannelImpl × Option Exc :=
    if allocated.1.m_enable_evict.drop then
      record_paths op inputs allocated.2.1 allocated.2.1 allocated.1
    else
      (allocated.1, none)
  (recorded.1, allocated.2.1, inferred.2 && allocated.2.2, recorded.2)

/-- What `record_paths` appends to the dependents of `h`: every output once per occurrence of
`h` among the inputs. -/
def dep_added (inputs : List TensorInfoPtr) (h : TensorInfoPtr) :
    List TensorInfoPtr → List TensorInfoPtr
  | [] => []
  | o :: l => List.replicate (inputs.count h) o ++ dep_added inputs h l

/-- An operator registry for examples: it applies operators as `Extern.sum` does, and its
inference reports one output as validated although the shape of that output is unknown
(`ndim == 0`). -/
def Extern.unshaped : Extern :=
  { apply_on_physical_tensor := Extern.sum.apply_on_physical_tensor
    infer_output_attrs_fallible := fun _ _ =>
      ([{ layout := { ndim := 0, dtype := { valid := true, uid := 0 } }
          comp_node := { valid := true, uid := 0 }
          value := none }], true) }

/-- An operator registry for examples whose operators all throw; the inference is the one of
`Extern.sum`. -/
def Extern.failing : Extern :=
  { apply_on_physical_tensor := fun _ _ => none
    infer_output_attrs_fallible := Extern.sum.infer_output_attrs_fallible }

/-- What `regenerate` may write to one record, in steps: restore a SWAP-evicted tensor from
its host copy, count a recomputation, publish a recomputed tensor into a DROP-evicted record
without `ptr`, and, in must-drop mode only, sever the record from the recompute graph. -/
inductive RegenStep (must_drop : Bool) : TensorInfo → TensorInfo → Prop
  | same (i : TensorInfo) : RegenStep must_drop i i
  | next {a b c : TensorInfo} :
    RegenStep must_drop a b → RegenStep must_drop b c → RegenStep must_drop a c
  | swap_in (i : TensorInfo) (hv : HostTensorND) :
    i.ptr = none → i.evict_type = .SWAP → i.h_value = some hv →
    RegenStep must_drop i
      { i with
        value_fetched := (Tensor.make hv).value_fetched
        desc := { i.desc with
                  layout := (Tensor.make hv).layout, comp_node := (Tensor.make hv).comp_node }
        ptr := some (Tensor.make hv)
        evict_type := .NONE }
  | bump (i : TensorInfo) :
    RegenStep must_drop i { i with recompute_times := i.recompute_times + 1 }
  | republish (i : TensorInfo) (t : Tensor) :
    i.ptr = none → i.evict_type = .DROP →
    RegenStep must_drop i
      { i with
        value_fetched := t.value_fetched
        desc := { i.desc with layout := t.layout, comp_node := t.comp_node }
        ptr := some t }
  | sever (i : TensorInfo) :
    must_drop = true → i.path.op.isSome = true →
    RegenStep must_drop i
      { i with
        path := { i.path with op := none, inputs := [] }
        evict_type := if i.evict_type = .DROP then .NONE else i.evict_type }

/-- What the `try` block of the worker may write to one record, in steps: the writes of
`regenerate`, `produce_tensor`, the three eviction functions, and the fetch of `GetValue`;
`max` is `m_max_recompute_time`. -/
inductive InfoStep (max : Nat) : TensorInfo → TensorInfo → Prop
  | same (i : TensorInfo) : InfoStep max i i
  | next {a b c : TensorInfo} : InfoStep max a b → InfoStep max b c → InfoStep max a c
  | regen {must_drop : Bool} {a b : TensorInfo} : RegenStep must_drop a b → InfoStep max a b
  | produce (i : TensorInfo) (t : Tensor) :
    InfoStep max i
      { i with
        value_fetched := t.value_fetched
        desc := { i.desc with layout := t.layout, comp_node := t.comp_node }
        ptr := some t }
  | swap_out (i : TensorInfo) (t : Tensor) :
    i.evict_type ≠ .DROP → i.ptr = some t →
    InfoStep max i
      { i with
        evict_type := .SWAP
        value_fetched := false
        h_value := some (HostTensorND.copy_from t.dev_tensor)
        ptr := none }
  | swap_in (i : TensorInfo) (hv : HostTensorND) :
    i.ptr = none → i.h_value = some hv →
    InfoStep max i
      { i with
        value_fetched := (Tensor.make hv).value_fetched
        desc := { i.desc with
                  layout := (Tensor.make hv).layout, comp_node := (Tensor.make hv).comp_node }
        ptr := some (Tensor.make hv)
        evict_type := .NONE }
  | drop (i : TensorInfo) :
    i.evict_type ≠ .SWAP → i.path.op.isSome = true → i.recompute_times < max →
    i.ptr.isSome = true →
    InfoStep max i { i with evict_type := .DROP, value_fetched := false, ptr := none }
  | fetch (i : TensorInfo) (t : Tensor) :
    i.ptr = some t →
    InfoStep max i { i with ptr := some t.fetch_value, value_fetched := true }

/-- Every record of `s'` comes from its record in `s` by writes of `regenerate`. -/
def RegenSteps (must_drop : Bool) (s s' : ChannelImpl) : Prop :=
  ∀ q, RegenStep must_drop (s.infos q) (s'.infos q)

/-- Every record of `s'` comes from its record in `s` by writes of the worker. -/
def InfoSteps (max : Nat) (s s' : ChannelImpl) : Prop :=
  ∀ q, InfoStep max (s.infos q) (s'.infos q)

/-- What a call of the public channel may write to one record, in steps: the writes of the
worker, the `invalid` mark of its `catch` block, and the writes of the client thread: a fresh
zeroed record, a descriptor, the tensor of `put(DeviceTensorND)` into the fresh record, and the
recording of `apply_op`. -/
inductive ApiStep (max : Nat) : TensorInfo → TensorInfo → Prop
  | same (i : TensorInfo) : ApiStep max i i
  | next {a b c : TensorInfo} : ApiStep max a b → ApiStep max b c → ApiStep max a c
  | worker {a b : TensorInfo} : InfoStep max a b → ApiStep max a b
  | mark (i : TensorInfo) : ApiStep max i { i with invalid := true }
  | fresh (i : TensorInfo) : ApiStep max i TensorInfo.zeroed
  | describe (i : TensorInfo) (d : LogicalTensorDesc) : ApiStep max i { i with desc := d }
  | device (d : LogicalTensorDesc) (t : Tensor) :
    ApiStep max TensorInfo.zeroed { TensorInfo.zeroed with desc := d, ptr := some t }
  | record_op (i : TensorInfo) (op : OpDef) :
    ApiStep max i { i with path := { i.path with op := some op } }
  | record_output (i : TensorInfo) (o : TensorInfoPtr) :
    ApiStep max i { i with path := { i.path with outputs := i.path.outputs ++ [o] } }
  | record_input (i : TensorInfo) (x : TensorInfoPtr) :
    ApiStep max i { i with path := { i.path with inputs := i.path.inputs ++ [x] } }
  | record_dep (i : TensorInfo) (o : TensorInfoPtr) :
    ApiStep max i { i with path := { i.path with dep_outputs := i.path.dep_outputs ++ [o] } }

/-- Every record of `s'` comes from its record in `s` by writes of the channel. -/
def ApiSteps (s s' : ChannelImpl) : Prop :=
  s'.m_max_recompute_time = s.m_max_recompute_time ∧
    ∀ q, ApiStep s.m_max_recompute_time (s.infos q) (s'.infos q)

/-- The eviction state of a record is backed by what restores it: a SWAP-evicted record has a
non-empty `h_value`, a DROP-evicted record has a non-null `path.op`. -/
def EvictBacked (i : TensorInfo) : Prop :=
  (i.evict_type = .SWAP → i.h_value.isSome = true) ∧
    (i.evict_type = .DROP → i.path.op.isSome = true)

instance EvictBacked.decidable (i : TensorInfo) : Decidable (EvictBacked i) :=
  inferInstanceAs (Decidable (_ ∧ _))

/-- One visit of the loop over the outputs in `regenerate`: the record of a live output after
its counter went up and, if it is DROP-evicted without `ptr`, the recomputed tensor went in. -/
def publish_one (info : TensorInfo) (t : Tensor) : TensorInfo :=
  if info.ptr.isNone ∧ info.evict_type = .DROP then
    { info with
      recompute_times := info.recompute_times + 1
      value_fetched := t.value_fetched
      desc := { info.desc with layout := t.layout, comp_node := t.comp_node }
      ptr := some t }
  else
    { info with recompute_times := info.recompute_times + 1 }

/-- The record `c` is an output of its own recorded operator, at a position that the operator
fills whenever it returns. -/
def OwnOutput (ext : Extern) (path : ComputePath) (c : TensorInfoPtr) : Prop :=
  ∀ op, path.op = some op →
    ∃ k, path.outputs.get? k = some c ∧
      ∀ ts os, ext.apply_on_physical_tensor op ts = some os → k < os.length

/-- The tensor of the live record `c` is there or can be recomputed: `ptr` is present, or the
record is DROP-evicted with its operator recorded. -/
def Restorable (ext : Extern) (c : TensorInfoPtr) (s : ChannelImpl) : Prop :=
  c ∈ s.m_st ∧ OwnOutput ext (s.infos c).path c ∧
    ((s.infos c).ptr.isSome = true ∨
      ((s.infos c).evict_type = .DROP ∧ (s.infos c).path.op.isSome = true))

/-- A record severed from the recompute graph. -/
def Severed (i : TensorInfo) : Prop :=
  i.path.op = none ∧ i.path.inputs = [] ∧ i.evict_type ≠ .DROP

/-- An operator registry for examples: inference announces two outputs of known shape; applied
to inputs of which exactly one holds its host value, an operator returns one tensor, otherwise
two. -/
def Extern.fickle : Extern :=
  { apply_on_physical_tensor := fun op ts =>
      if (ts.filter (fun t => t.value_fetched)).length = 1 then
        some [{ content := op.uid
                layout := { ndim := 1, dtype := { valid := true, uid := 0 } }
                comp_node := { valid := true, uid := 0 }
                value_fetched := false }]
      else
        some [{ content := op.uid
                layout := { ndim := 1, dtype := { valid := true, uid := 0 } }
                comp_node := { valid := true, uid := 0 }
                value_fetched := false },
              { content := op.uid + 1
                layout := { ndim := 1, dtype := { valid := true, uid := 0 } }
                comp_node := { valid := true, uid := 0 }
                value_fetched := false }]
    infer_output_attrs_fallible := fun _ _ =>
      ([{ layout := { ndim := 1, dtype := { valid := true, uid := 0 } }
          comp_node := { valid := true, uid := 0 }
          value := none },
        { layout := { ndim := 1, dtype := { valid := true, uid := 0 } }
          comp_node := { valid := true, uid := 0 }
          value := none }], true) }

/-- An operator registry for examples: every operator returns two tensors, the sum of the bytes
of its inputs plus the identity of the operator and that sum plus one, and infers two outputs of
known shape. -/
def Extern.pair : Extern :=
  { apply_on_physical_tensor := fun op ts =>
      some [{ content := (ts.map (fun t => t.content)).sum + op.uid
              layout := { ndim := 1, dtype := { valid := true, uid := 0 } }
              comp_node := { valid := true, uid := 0 }
              value_fetched := false },
            { content := (ts.map (fun t => t.content)).sum + op.uid + 1
              layout := { ndim := 1, dtype := { valid := true, uid := 0 } }
              comp_node := { valid := true, uid := 0 }
              value_fetched := false }]
    infer_output_attrs_fallible := fun _ _ =>
      ([{ layout := { ndim := 1, dtype := { valid := true, uid := 0 } }
          comp_node := { valid := true, uid := 0 }
          value := none },
        { layout := { ndim := 1, dtype := { valid := true, uid := 0 } }
          comp_node := { valid := true, uid := 0 }
          value := none }], true) }

/-- A history for `Extern.pair`: two device tensors 0 and 1, one operator with the outputs 2 and
3, and the output 2 dropped. -/
def pair_calls : List ApiCall :=
  [.put_device ⟨1, ⟨1, ⟨true, 0⟩⟩, ⟨true, 0⟩⟩, .put_device ⟨2, ⟨1, ⟨true, 0⟩⟩, ⟨true, 0⟩⟩,
   .apply_op ⟨.Other 0, 10⟩ [0, 1], .drop 2, .sync]

/-- A history for `Extern.fickle`: two device tensors 0 and 1, one operator with the outputs 2
and 3; the value of 0 is fetched and the output 3 is dropped. -/
def short_calls : List ApiCall :=
  [.put_device ⟨1, ⟨1, ⟨true, 0⟩⟩, ⟨true, 0⟩⟩, .put_device ⟨2, ⟨1, ⟨true, 0⟩⟩, ⟨true, 0⟩⟩,
   .apply_op ⟨.Other 0, 10⟩ [0, 1], .sync, .get_value 0, .drop 3, .sync]

/-- The static data after one more handle `a` was allocated, with the canonical tensor `t`
and no recorded path. -/
def Canon.fresh (c : Canon) (a : TensorInfoPtr) (t : Tensor) : Canon :=
  { c with
    G := fun q => if q = a then TensorInfo.zeroed.path else c.G q
    cv := fun q => if q = a then t else c.cv q
    bound := c.bound + 1 }

/-- The static data after `apply_op` recorded the operator `op` with the inputs `inputs` on
the fresh outputs `outs`, as `record_paths` does on the records. -/
def Canon.record (c : Canon) (op : OpDef) (inputs outs : List TensorInfoPtr) : Canon :=
  { c with
    G := fun x =>
      { op := if x ∈ outs then some op else (c.G x).op
        inputs := if x ∈ outs then (c.G x).inputs ++ inputs else (c.G x).inputs
        outputs := if x ∈ outs then (c.G x).outputs ++ outs else (c.G x).outputs
        dep_outputs := (c.G x).dep_outputs ++ dep_added inputs x outs } }

/-- The client's view of a channel, kept by the eager reference: the static data of the
handles allocated so far and the valid handles. -/
structure Model where
  c : Canon
  valid : List TensorInfoPtr

/-- The reference allocates the next address of the pool for the tensor `t`. -/
def Model.alloc (pool : Nat → TensorInfoPtr) (m : Model) (t : Tensor) : Model :=
  { c := m.c.fresh (pool m.c.bound) t
    valid := if pool m.c.bound ∈ m.valid then m.valid else m.valid ++ [pool m.c.bound] }

/-- The reference for `apply_op`: on valid inputs, the operator is applied at once to the
canonical tensors of the inputs, its results become the canonical tensors of fresh handles,
and the path is recorded when DROP is enabled. -/
def Model.apply_op (ext : Extern) (pool : Nat → TensorInfoPtr) (m : Model) (op : OpDef)
    (inputs : List TensorInfoPtr) : Model :=
  if inputs.all (fun i => decide (i ∈ m.valid)) then
    match ext.apply_on_physical_tensor op (inputs.map m.c.cv) with
    | none => m
    | some os =>
      if m.c.flags.drop then
        { c := (os.foldl (Model.alloc pool) m).c.record op inputs
            ((List.range' m.c.bound os.length).map pool)
          valid := (os.foldl (Model.alloc pool) m).valid }
      else os.foldl (Model.alloc pool) m
  else m

/-- The reference for one operation of a client program. -/
def Model.step (ext : Extern) (pool : Nat → TensorInfoPtr) (m : Model) : ClientOp → Model
  | .put value no_cache =>
    m.alloc pool (if no_cache then Tensor.make_shared value else Tensor.make value)
  | .put_device data => m.alloc pool (Tensor.make_dev data)
  | .apply_op op inputs => m.apply_op ext pool op inputs
  | .del handle => { m with valid := m.valid.filter (fun h => h ≠ handle) }
  | _ => m

/-- The reference for `get_value`: the canonical value of a valid handle. -/
def Model.get_value (m : Model) (handle : TensorInfoPtr) : Status HostTensorND :=
  if handle ∈ m.valid then .returned (m.c.cv handle).get_value
  else .thrown (.invalid_handle handle)

/-- The reference run of a client program: the final view and how each `get_value` ends. -/
def Model.run (ext : Extern) (pool : Nat → TensorInfoPtr) :
    Model → List ClientOp → Model × List (Status HostTensorND)
  | m, [] => (m, [])
  | m, .get_value handle :: rest =>
    ((Model.run ext pool m rest).1, m.get_value handle :: (Model.run ext pool m rest).2)
  | m, op :: rest => Model.run ext pool (m.step ext pool op) rest

instance NeverLowersBelowSize.decidable :
    ∀ (s : Pipeline) (calls : List BufferCall), Decidable (NeverLowersBelowSize s calls)
  | _, [] => isTrue trivial
  | s, .enqueue cmd :: cs => NeverLowersBelowSize.decidable (enqueue s cmd) cs
  | s, .set_buffer_length length :: cs =>
    have := NeverLowersBelowSize.decidable (set_capacity s length) cs
    inferInstanceAs (Decidable (_ ∧ _))

/-! ## Searching the deque -/

theorem find_if_le (p : Command → Bool) (l : List Command) : find_if p l ≤ l.length := by
  induction l with
  | nil => simp [find_if]
  | cons c cs ih =>
    simp only [find_if, List.length_cons]
    split <;> omega

theorem find_if_eq_length_iff (p : Command → Bool) (l : List Command) :
    find_if p l = l.length ↔ ∀ c ∈ l, p c = false := by
  induction l with
  | nil => simp [find_if]
  | cons c cs ih =>
    simp only [find_if, List.length_cons, List.mem_cons, forall_eq_or_imp]
    by_cases h : p c = true
    · simp [h]
    · simp only [h, Bool.false_eq_true, if_false, Nat.add_right_cancel_iff, ih]
      simp at h
      simp [h]

theorem find_if_append_cons (p : Command → Bool) (pre post : List Command) (c : Command)
    (hpre : ∀ x ∈ pre, p x = false) (hc : p c = true) :
    find_if p (pre ++ c :: post) = pre.length := by
  induction pre with
  | nil => simp [find_if, hc]
  | cons x xs ih =>
    have hx : p x = false := hpre x (List.mem_cons_self _ _)
    have := ih (fun y hy => hpre y (List.mem_cons_of_mem _ hy))
    simpa [find_if, hx] using this

theorem find_if_split (p : Command → Bool) (l : List Command) (h : find_if p l ≠ l.length) :
    ∃ pre c post, l = pre ++ c :: post ∧ pre.length = find_if p l ∧
      (∀ x ∈ pre, p x = false) ∧ p c = true := by
  induction l with
  | nil => simp [find_if] at h
  | cons c cs ih =>
    by_cases hc : p c = true
    · exact ⟨[], c, cs, by simp, by simp [find_if, hc], by simp, hc⟩
    · simp only [find_if, hc, Bool.false_eq_true, if_false, List.length_cons, ne_eq,
        Nat.add_right_cancel_iff] at h
      obtain ⟨pre, d, post, hl, hlen, hpre, hd⟩ := ih h
      refine ⟨c :: pre, d, post, by simp [hl], by simp [find_if, hc, hlen], ?_, hd⟩
      intro x hx
      rcases List.mem_cons.1 hx with rfl | hx
      · simpa using hc
      · exact hpre x hx

theorem find_last_usage_loop_none (dest : TensorInfoPtr) (l : List Command) (iter found : Nat)
    (h : ∀ c ∈ l, is_usage dest c = false) : find_last_usage_loop dest l iter found = found := by
  induction l generalizing iter found with
  | nil => rfl
  | cons c cs ih =>
    have hc : is_usage dest c = false := h c (List.mem_cons_self _ _)
    simp only [find_last_usage_loop, hc, Bool.false_eq_true, if_false]
    exact ih _ _ (fun x hx => h x (List.mem_cons_of_mem _ hx))

theorem find_last_usage_loop_range (dest : TensorInfoPtr) (l : List Command) (iter found : Nat) :
    find_last_usage_loop dest l iter found = found ∨
      (iter ≤ find_last_usage_loop dest l iter found ∧
        find_last_usage_loop dest l iter found < iter + l.length) := by
  induction l generalizing iter found with
  | nil => left; rfl
  | cons c cs ih =>
    simp only [find_last_usage_loop, List.length_cons]
    by_cases hc : is_usage dest c = true
    · simp only [hc, if_true]
      rcases ih (iter + 1) iter with h | h
      · right; rw [h]; omega
      · right; omega
    · simp only [hc, Bool.false_eq_true, if_false]
      rcases ih (iter + 1) found with h | h
      · left; exact h
      · right; omega

theorem find_last_usage_loop_some (dest : TensorInfoPtr) (l : List Command) (iter found : Nat)
    (h : ∃ c ∈ l, is_usage dest c = true) :
    iter ≤ find_last_usage_loop dest l iter found ∧
      find_last_usage_loop dest l iter found < iter + l.length := by
  induction l generalizing iter found with
  | nil => simp at h
  | cons c cs ih =>
    simp only [find_last_usage_loop, List.length_cons]
    by_cases hc : is_usage dest c = true
    · simp only [hc, if_true]
      rcases find_last_usage_loop_range dest cs (iter + 1) iter with h' | h'
      · rw [h']; omega
      · omega
    · simp only [hc, Bool.false_eq_true, if_false]
      obtain ⟨x, hx, hux⟩ := h
      rcases List.mem_cons.1 hx with rfl | hx
      · exact absurd hux hc
      · have := ih (iter + 1) found ⟨x, hx, hux⟩
        omega

/-- The search `find_last_usage` over the tail after `lo` returns `end` exactly when the tail
holds no usage of `dest`. -/
theorem find_last_usage_eq_end_iff (dest : TensorInfoPtr) (cmds : List Command) (lo : Nat) :
    find_last_usage dest cmds lo cmds.length = cmds.length ↔
      ∀ c ∈ cmds.drop lo, is_usage dest c = false := by
  unfold find_last_usage
  rw [List.take_length]
  constructor
  · intro h c hc
    by_contra hu
    simp only [Bool.not_eq_false] at hu
    have := find_last_usage_loop_some dest (cmds.drop lo) lo cmds.length ⟨c, hc, hu⟩
    simp only [List.length_drop] at this
    have hlo : lo < cmds.length := by
      by_contra hge
      rw [List.drop_eq_nil_of_le (by omega)] at hc
      simp at hc
    omega
  · intro h
    exact find_last_usage_loop_none dest _ _ _ h

/-! ## Order of the commands through the buffer -/

theorem flush_all (s : Pipeline) (pos : Nat) : (flush s pos).all = s.all := by
  simp [flush, Pipeline.all, List.append_assoc]

theorem enqueue_back_all (s : Pipeline) (cmd : Command) :
    (enqueue_back s cmd).all = s.all ++ [cmd] := by
  simp [enqueue_back, flush_all]
  simp [Pipeline.all]

theorem Augments.aug_refl (F : List TensorInfoPtr) (c : Command) : Augments F c c := Or.inl rfl

theorem Augments.mono {F G : List TensorInfoPtr} {c c' : Command} (h : Augments F c c')
    (hFG : ∀ d ∈ F, d ∈ G) : Augments G c c' := by
  rcases h with h | ⟨op, i, o, d, e, h1, h2, h3⟩
  · exact Or.inl h
  · exact Or.inr ⟨op, i, o, d, e, h1, h2, fun x hx => hFG x (h3 x hx)⟩

theorem Augments.aug_trans {F : List TensorInfoPtr} {a b c : Command} (h1 : Augments F a b)
    (h2 : Augments F b c) : Augments F a c := by
  rcases h1 with rfl | ⟨op, i, o, d, e, ha, hb, he⟩
  · exact h2
  · rcases h2 with rfl | ⟨op', i', o', d', e', hb', hc, he'⟩
    · exact Or.inr ⟨op, i, o, d, e, ha, hb, he⟩
    · rw [hb] at hb'
      cases hb'
      refine Or.inr ⟨op, i, o, d, e ++ e', ha, by rw [hc, List.append_assoc], ?_⟩
      intro x hx
      rcases List.mem_append.1 hx with hx | hx
      · exact he x hx
      · exact he' x hx

theorem forall₂_augments_refl (F : List TensorInfoPtr) (l : List Command) :
    List.Forall₂ (Augments F) l l := by
  induction l with
  | nil => exact List.Forall₂.nil
  | cons c cs ih => exact List.Forall₂.cons (Augments.aug_refl F c) ih

theorem forall₂_augments_trans {F : List TensorInfoPtr} {a b c : List Command}
    (h1 : List.Forall₂ (Augments F) a b) (h2 : List.Forall₂ (Augments F) b c) :
    List.Forall₂ (Augments F) a c := by
  induction h1 generalizing c with
  | nil => cases h2; exact List.Forall₂.nil
  | cons hab _ ih =>
    cases h2 with
    | cons hbc htl => exact List.Forall₂.cons (hab.aug_trans hbc) (ih htl)

theorem forall₂_augments_mono {F G : List TensorInfoPtr} {a b : List Command}
    (h : List.Forall₂ (Augments F) a b) (hFG : ∀ d ∈ F, d ∈ G) :
    List.Forall₂ (Augments G) a b := by
  induction h with
  | nil => exact List.Forall₂.nil
  | cons hab _ ih => exact List.Forall₂.cons (hab.mono hFG) ih

theorem augments_push_del (dest : TensorInfoPtr) (c : Command) :
    Augments [dest] c (push_del dest c) := by
  cases c <;> first
    | exact Or.inl rfl
    | exact Or.inr ⟨_, _, _, _, [dest], rfl, rfl, by simp⟩

theorem forall₂_augments_modify (dest : TensorInfoPtr) (l : List Command) (i : Nat) :
    List.Forall₂ (Augments [dest]) l (l.modify (push_del dest) i) := by
  induction l generalizing i with
  | nil => cases i <;> exact List.Forall₂.nil
  | cons c cs ih =>
    cases i with
    | zero => exact List.Forall₂.cons (augments_push_del dest c) (forall₂_augments_refl _ cs)
    | succ n => exact List.Forall₂.cons (Augments.aug_refl _ c) (ih n)

theorem modify_append_cons (f : Command → Command) (pre post : List Command) (c : Command) :
    (pre ++ c :: post).modify f pre.length = pre ++ f c :: post := by
  induction pre with
  | nil => rfl
  | cons x xs ih => simpa [List.modify] using ih

theorem all_dels_append (a b : List Command) : all_dels (a ++ b) = all_dels a ++ all_dels b := by
  induction a with
  | nil => rfl
  | cons c cs ih => simp [all_dels, ih, List.append_assoc]

theorem applies_to_is_apply {dest : TensorInfoPtr} {c : Command} (h : applies_to dest c = true) :
    ∃ op inputs outputs dels, c = .ApplyOp op inputs outputs dels ∧ dest ∈ inputs := by
  cases c <;> simp [applies_to] at h
  case ApplyOp op i o d => exact ⟨op, i, o, d, rfl, h⟩

/-- What a successful `fuse_del` did: the deque splits at the first `ApplyOp` reading `dest`,
nothing after it uses `dest`, and that `ApplyOp` got `dest` at the end of its `dels`. -/
theorem fuse_del_some {cmds r : List Command} {dest : TensorInfoPtr}
    (h : fuse_del cmds dest = some r) :
    ∃ pre op inputs outputs dels post,
      cmds = pre ++ .ApplyOp op inputs outputs dels :: post ∧ dest ∈ inputs ∧
      (∀ x ∈ pre, applies_to dest x = false) ∧ (∀ x ∈ post, is_usage dest x = false) ∧
      r = pre ++ .ApplyOp op inputs outputs (dels ++ [dest]) :: post := by
  unfold fuse_del at h
  simp only at h
  split at h
  · cases h
  · rename_i hcond
    simp only [not_or, ne_eq, not_not] at hcond
    obtain ⟨hne, hlast⟩ := hcond
    obtain ⟨pre, c, post, hl, hlen, hpre, hc⟩ := find_if_split _ _ hne
    obtain ⟨op, i, o, d, rfl, hmem⟩ := applies_to_is_apply hc
    refine ⟨pre, op, i, o, d, post, hl, hmem, hpre, ?_, ?_⟩
    · have := (find_last_usage_eq_end_iff dest cmds _).1 hlast
      rw [← hlen, hl] at this
      simpa using this
    · cases h
      rw [← hlen]
      conv_lhs => rw [hl]
      rw [modify_append_cons]
      rfl

theorem enqueue_step (s : Pipeline) (c : Command) :
    List.Forall₂ (Augments (fused_dests s [c])) (s.all ++ unfused s [c]) (enqueue s c).all ∧
      (all_dels (enqueue s c).all).Perm (all_dels (s.all ++ unfused s [c]) ++ fused_dests s [c]) := by
  have hback : ∀ F, (unfused s [c] = [c]) → enqueue s c = enqueue_back s c →
      fused_dests s [c] = [] →
      List.Forall₂ (Augments F) (s.all ++ unfused s [c]) (enqueue s c).all ∧
      (all_dels (enqueue s c).all).Perm (all_dels (s.all ++ unfused s [c]) ++ fused_dests s [c]) := by
    intro F h1 h2 h3
    rw [h1, h2, h3, enqueue_back_all]
    exact ⟨forall₂_augments_refl _ _, by simp⟩
  cases c
  case Del dest =>
    cases hf : fuse_del s.buffer.m_commands dest with
    | none =>
      apply hback
      · simp [unfused, is_fused, hf]
      · simp [enqueue, hf]
      · simp [fused_dests, is_fused, hf]
    | some r =>
      obtain ⟨pre, op, i, o, d, post, hl, _, _, _, hr⟩ := fuse_del_some hf
      have hu : unfused s [Command.Del dest] = [] := by simp [unfused, is_fused, hf]
      have hF : fused_dests s [Command.Del dest] = [dest] := by
        simp [fused_dests, is_fused, hf]
      have he : (enqueue s (Command.Del dest)).all = s.tasks ++ r := by
        simp [enqueue, hf, Pipeline.all]
      rw [hu, hF, he, List.append_nil]
      constructor
      · unfold Pipeline.all
        apply List.rel_append (forall₂_augments_refl _ _)
        rw [hr, hl]
        apply List.rel_append (forall₂_augments_refl _ _)
        exact List.Forall₂.cons (Or.inr ⟨op, i, o, d, [dest], rfl, rfl, by simp⟩)
          (forall₂_augments_refl _ _)
      · unfold Pipeline.all
        rw [hr, hl]
        simp only [all_dels_append, all_dels, dels_of, List.append_assoc]
        apply List.Perm.append_left
        apply List.Perm.append_left
        apply List.Perm.append_left
        exact List.perm_append_comm
  all_goals
    apply hback
    · simp [unfused, is_fused]
    · simp [enqueue]
    · simp [fused_dests]

theorem unfused_cons (s : Pipeline) (c : Command) (cs : List Command) :
    unfused s (c :: cs) = unfused s [c] ++ unfused (enqueue s c) cs := by
  simp [unfused]

theorem fused_dests_cons (s : Pipeline) (c : Command) (cs : List Command) :
    fused_dests s (c :: cs) = fused_dests s [c] ++ fused_dests (enqueue s c) cs := by
  simp [fused_dests]

theorem enqueue_all_augments (s : Pipeline) (cmds : List Command) :
    List.Forall₂ (Augments (fused_dests s cmds)) (s.all ++ unfused s cmds)
        (enqueue_all s cmds).all ∧
      (all_dels (enqueue_all s cmds).all).Perm
        (all_dels (s.all ++ unfused s cmds) ++ fused_dests s cmds) := by
  induction cmds generalizing s with
  | nil =>
    simp only [unfused, enqueue_all, fused_dests, List.append_nil]
    exact ⟨forall₂_augments_refl _ _, List.Perm.refl _⟩
  | cons c cs ih =>
    obtain ⟨h1, p1⟩ := enqueue_step s c
    obtain ⟨h2, p2⟩ := ih (enqueue s c)
    rw [unfused_cons, fused_dests_cons]
    simp only [enqueue_all]
    constructor
    · have h1' : List.Forall₂ (Augments (fused_dests s [c]))
          (s.all ++ unfused s [c] ++ unfused (enqueue s c) cs)
          ((enqueue s c).all ++ unfused (enqueue s c) cs) :=
        List.rel_append h1 (forall₂_augments_refl _ _)
      rw [← List.append_assoc]
      exact forall₂_augments_trans
        (forall₂_augments_mono h1' (fun d hd => List.mem_append_left _ hd))
        (forall₂_augments_mono h2 (fun d hd => List.mem_append_right _ hd))
    · refine p2.trans ?_
      simp only [all_dels_append, List.append_assoc] at p1 ⊢
      have h3 := p1.append_right
        (all_dels (unfused (enqueue s c) cs) ++ fused_dests (enqueue s c) cs)
      simp only [List.append_assoc] at h3
      refine h3.trans ?_
      apply List.Perm.append_left
      apply List.Perm.append_left
      rw [← List.append_assoc, ← List.append_assoc]
      exact List.Perm.append_right _ List.perm_append_comm

theorem unfused_sublist (s : Pipeline) (cmds : List Command) :
    (unfused s cmds).Sublist cmds ∧
      (unfused s cmds).filter (fun c => !is_del c) = cmds.filter (fun c => !is_del c) ∧
      (unfused s cmds).length + (fused_dests s cmds).length = cmds.length := by
  induction cmds generalizing s with
  | nil => simp [unfused, fused_dests]
  | cons c cs ih =>
    obtain ⟨h1, h2, h3⟩ := ih (enqueue s c)
    by_cases hf : is_fused s c = true
    · have hd : ∃ d, c = .Del d := by
        cases c <;> simp [is_fused] at hf
        exact ⟨_, rfl⟩
      obtain ⟨d, rfl⟩ := hd
      simp only [unfused, fused_dests, hf, if_true, List.nil_append, List.length_append,
        List.length_cons, List.length_nil]
      refine ⟨h1.cons _, ?_, by omega⟩
      rw [List.filter_cons_of_neg (by simp [is_del])]
      exact h2
    · simp only [Bool.not_eq_true] at hf
      have hF : fused_dests s (c :: cs) = fused_dests (enqueue s c) cs := by
        cases c <;> simp [fused_dests, hf]
      rw [hF]
      simp only [unfused, hf, Bool.false_eq_true, if_false, List.singleton_append,
        List.length_cons]
      refine ⟨h1.cons₂ _, ?_, by omega⟩
      simp [List.filter_cons, h2]

/-! ## The code's predicates against the words of the specification -/

theorem applies_to_iff (dest : TensorInfoPtr) (c : Command) :
    applies_to dest c = true ↔ ReadsInput dest c := by
  constructor
  · intro h
    exact applies_to_is_apply h
  · rintro ⟨op, i, o, d, rfl, hmem⟩
    simpa [applies_to] using hmem

theorem is_usage_iff (dest : TensorInfoPtr) (c : Command) :
    is_usage dest c = true ↔ LaterUse dest c := by
  cases c <;> simp [is_usage, LaterUse, ReadsInput, eq_comm]
  case ApplyOp op i o d =>
    exact ⟨fun h => ⟨op, i, ⟨rfl, rfl⟩, h⟩, fun ⟨_, _, ⟨_, h2⟩, h3⟩ => h2 ▸ h3⟩

theorem produces_iff (dest : TensorInfoPtr) (c : Command) :
    produces dest c = true ↔ Producer dest c := by
  cases c <;> simp [produces, Producer, eq_comm]
  case ApplyOp op i o d =>
    exact ⟨fun h => ⟨op, i, o, ⟨rfl, rfl, rfl⟩, h⟩, fun ⟨_, _, _, ⟨_, _, h2⟩, h3⟩ => h2 ▸ h3⟩

theorem is_distinguished_iff (k : OpKind) : is_distinguished k = true ↔ Distinguished k := by
  simp [is_distinguished, Distinguished, or_assoc]

/-- The converse of `fuse_del_some`. -/
theorem fuse_del_of_split (dest : TensorInfoPtr) (pre post : List Command) (op : OpDef)
    (inputs outputs dels : List TensorInfoPtr) (hmem : dest ∈ inputs)
    (hpre : ∀ x ∈ pre, applies_to dest x = false) (hpost : ∀ x ∈ post, is_usage dest x = false) :
    fuse_del (pre ++ .ApplyOp op inputs outputs dels :: post) dest =
      some (pre ++ .ApplyOp op inputs outputs (dels ++ [dest]) :: post) := by
  have hA : applies_to dest (.ApplyOp op inputs outputs dels) = true := by
    simpa [applies_to] using hmem
  have hfind := find_if_append_cons (applies_to dest) pre post _ hpre hA
  have hlast : find_last_usage dest (pre ++ .ApplyOp op inputs outputs dels :: post)
      (pre.length + 1) (pre ++ .ApplyOp op inputs outputs dels :: post).length =
      (pre ++ .ApplyOp op inputs outputs dels :: post).length := by
    rw [find_last_usage_eq_end_iff]
    simpa using hpost
  unfold fuse_del
  simp only [hfind, hlast]
  rw [if_neg (by simp), modify_append_cons]
  rfl

/-! ## Flush positions -/

/-- The deque after `push_back`. -/
theorem enqueue_back_eq (s : Pipeline) (cmd : Command) :
    enqueue_back s cmd =
      flush { s with buffer := { s.buffer with m_commands := s.buffer.m_commands ++ [cmd] } }
        (flush_pos_for { s.buffer with m_commands := s.buffer.m_commands ++ [cmd] } cmd) := rfl

theorem flush_default (s : Pipeline) (cmd : Command) :
    flush { s with buffer := { s.buffer with m_commands := s.buffer.m_commands ++ [cmd] } }
        (default_flush_pos { s.buffer with m_commands := s.buffer.m_commands ++ [cmd] }) =
      capacity_rule s cmd := by
  unfold default_flush_pos capacity_rule flush
  simp only [Nat.zero_add]
  split <;> simp

theorem flush_end (s : Pipeline) (cmd : Command) :
    flush { s with buffer := { s.buffer with m_commands := s.buffer.m_commands ++ [cmd] } }
        (s.buffer.m_commands ++ [cmd]).length =
      { buffer := { s.buffer with m_commands := [] }
        tasks := s.tasks ++ s.buffer.m_commands ++ [cmd] } := by
  simp [flush, List.append_assoc]

theorem capacity_rule_length (s : Pipeline) (cmd : Command) :
    (s.buffer.m_commands.length + 1 > s.buffer.m_capacity →
      (capacity_rule s cmd).buffer.m_commands.length = s.buffer.m_capacity ∧
      (capacity_rule s cmd).tasks = s.tasks ++
        (s.buffer.m_commands ++ [cmd]).take
          (s.buffer.m_commands.length + 1 - s.buffer.m_capacity) ∧
      (capacity_rule s cmd).buffer.m_commands =
        (s.buffer.m_commands ++ [cmd]).drop
          (s.buffer.m_commands.length + 1 - s.buffer.m_capacity)) ∧
    (s.buffer.m_commands.length + 1 ≤ s.buffer.m_capacity →
      (capacity_rule s cmd).tasks = s.tasks ∧
      (capacity_rule s cmd).buffer.m_commands = s.buffer.m_commands ++ [cmd]) ∧
    (capacity_rule s cmd).buffer.m_capacity = s.buffer.m_capacity := by
  unfold capacity_rule
  simp only [List.length_append, List.length_singleton]
  refine ⟨fun h => ?_, fun h => ?_, ?_⟩
  · rw [if_pos h]
    simp only [List.length_drop, List.length_append, List.length_singleton, and_self, and_true]
    omega
  · rw [if_neg (by omega)]
    simp
  · split <;> rfl

theorem enqueue_default (s : Pipeline) (cmd : Command) (h : DefaultRuleCommand s cmd) :
    enqueue s cmd = capacity_rule s cmd := by
  cases cmd
  case ApplyOp op i o d =>
    have hd : is_distinguished op.typeinfo = false := by
      rw [← Bool.not_eq_true, is_distinguished_iff]
      exact h
    simp only [enqueue, enqueue_back_eq, flush_pos_for, hd, Bool.false_eq_true, if_false]
    exact flush_default s _
  case Del dest =>
    have hf : fuse_del s.buffer.m_commands dest = none := by
      simpa [DefaultRuleCommand, is_fused] using h
    simp only [enqueue, hf, enqueue_back_eq, flush_pos_for]
    exact flush_default s _
  case Flush dest =>
    cases dest with
    | none => exact absurd h (by simp [DefaultRuleCommand])
    | some dest =>
      have hnone : find_produce dest (s.buffer.m_commands ++ [Command.Flush (some dest)]) =
          (s.buffer.m_commands ++ [Command.Flush (some dest)]).length := by
        unfold find_produce
        rw [find_if_eq_length_iff]
        intro c hc
        rcases List.mem_append.1 hc with hc | hc
        · rw [← Bool.not_eq_true, produces_iff]
          exact h c hc
        · simp only [List.mem_singleton] at hc
          subst hc
          rfl
      simp only [enqueue, enqueue_back_eq, flush_pos_for, hnone, ne_eq, not_true_eq_false,
        if_false]
      exact flush_default s _
  case GetValue d => exact absurd h (by simp [DefaultRuleCommand])
  all_goals
    simp only [enqueue, enqueue_back_eq, flush_pos_for]
    exact flush_default s _

theorem enqueue_full_flush (s : Pipeline) (cmd : Command)
    (h : (∃ dest, cmd = .GetValue dest) ∨ cmd = .Flush none ∨
      ∃ op inputs outputs dels, cmd = .ApplyOp op inputs outputs dels ∧
        Distinguished op.typeinfo) :
    enqueue s cmd =
      { buffer := { s.buffer with m_commands := [] }
        tasks := s.tasks ++ s.buffer.m_commands ++ [cmd] } := by
  rcases h with ⟨d, rfl⟩ | rfl | ⟨op, i, o, d, rfl, hd⟩
  · simp only [enqueue, enqueue_back_eq, flush_pos_for]
    exact flush_end s _
  · simp only [enqueue, enqueue_back_eq, flush_pos_for]
    exact flush_end s _
  · have hd' : is_distinguished op.typeinfo = true := (is_distinguished_iff _).2 hd
    simp only [enqueue, enqueue_back_eq, flush_pos_for, hd', if_true]
    exact flush_end s _

theorem enqueue_targeted_flush (s : Pipeline) (dest : TensorInfoPtr) (pre post : List Command)
    (p : Command) (hbuf : s.buffer.m_commands = pre ++ p :: post)
    (hpre : ∀ x ∈ pre, ¬ Producer dest x) (hp : Producer dest p) :
    enqueue s (.Flush (some dest)) =
      { buffer := { s.buffer with m_commands := post ++ [.Flush (some dest)] }
        tasks := s.tasks ++ pre ++ [p] } := by
  have hfind : find_produce dest (s.buffer.m_commands ++ [Command.Flush (some dest)]) =
      pre.length := by
    rw [hbuf]
    unfold find_produce
    have : pre ++ p :: post ++ [Command.Flush (some dest)] =
        pre ++ p :: (post ++ [Command.Flush (some dest)]) := by simp
    rw [this]
    apply find_if_append_cons
    · intro x hx
      rw [← Bool.not_eq_true, produces_iff]
      exact hpre x hx
    · exact (produces_iff _ _).2 hp
  simp only [enqueue, enqueue_back_eq, flush_pos_for, hfind]
  rw [if_pos (by rw [hbuf]; simp)]
  simp only [flush, hbuf]
  have h1 : (pre ++ p :: post ++ [Command.Flush (some dest)]) =
      (pre ++ [p]) ++ (post ++ [Command.Flush (some dest)]) := by simp
  have h2 : pre.length + 1 = (pre ++ [p]).length := by simp
  rw [h1, h2, List.drop_left, List.take_left, List.append_assoc]

/-! ## The capacity bound -/

theorem flush_length (s : Pipeline) (pos : Nat) :
    (flush s pos).buffer.m_commands.length = s.buffer.m_commands.length - pos ∧
      (flush s pos).buffer.m_capacity = s.buffer.m_capacity := by
  simp [flush]

theorem default_le_flush_pos_for (buf : CommandBuffer) (cmd : Command)
    (h : buf.m_commands.length ≤ buf.m_capacity + 1) (hpos : 1 ≤ buf.m_commands.length) :
    default_flush_pos buf ≤ flush_pos_for buf cmd := by
  have hd : default_flush_pos buf ≤ 1 := by
    unfold default_flush_pos
    split <;> omega
  cases cmd
  case ApplyOp op i o d =>
    simp only [flush_pos_for]
    split
    · omega
    · exact Nat.le_refl _
  case Flush dest =>
    cases dest with
    | none => simp only [flush_pos_for]; omega
    | some dest =>
      simp only [flush_pos_for]
      split
      · omega
      · exact Nat.le_refl _
  case GetValue d => simp only [flush_pos_for]; omega
  all_goals exact Nat.le_refl _

theorem enqueue_capacity (s : Pipeline) (cmd : Command) :
    (enqueue s cmd).buffer.m_capacity = s.buffer.m_capacity := by
  have hb : (enqueue_back s cmd).buffer.m_capacity = s.buffer.m_capacity := by
    simp [enqueue_back, flush]
  cases cmd
  case Del dest =>
    simp only [enqueue]
    split
    · rfl
    · exact hb
  all_goals exact hb

theorem enqueue_length_le (s : Pipeline) (cmd : Command)
    (h : s.buffer.m_commands.length ≤ s.buffer.m_capacity) :
    (enqueue s cmd).buffer.m_commands.length ≤ (enqueue s cmd).buffer.m_capacity := by
  rw [enqueue_capacity]
  have hb : (enqueue_back s cmd).buffer.m_commands.length ≤ s.buffer.m_capacity := by
    rw [enqueue_back_eq, (flush_length _ _).1]
    have := default_le_flush_pos_for
      { s.buffer with m_commands := s.buffer.m_commands ++ [cmd] } cmd (by simp; omega)
      (by simp)
    unfold default_flush_pos at this
    simp only [List.length_append, List.length_singleton] at this ⊢
    split at this <;> omega
  cases cmd
  case Del dest =>
    cases hf : fuse_del s.buffer.m_commands dest with
    | none =>
      simp only [enqueue, hf]
      exact hb
    | some r =>
      obtain ⟨pre, op, i, o, d, post, hl, _, _, _, hr⟩ := fuse_del_some hf
      simp only [enqueue, hf]
      rw [hl] at h
      rw [hr]
      simpa using h
  all_goals exact hb

theorem run_calls_within_capacity (s : Pipeline) (calls : List BufferCall)
    (h : s.buffer.m_commands.length ≤ s.buffer.m_capacity)
    (hcalls : NeverLowersBelowSize s calls) :
    (run_calls s calls).buffer.m_commands.length ≤ (run_calls s calls).buffer.m_capacity := by
  induction calls generalizing s with
  | nil => exact h
  | cons c cs ih =>
    cases c with
    | enqueue cmd => exact ih _ (enqueue_length_le s cmd h) hcalls
    | set_buffer_length length => exact ih _ hcalls.1 hcalls.2

theorem run_calls_append (s : Pipeline) (a b : List BufferCall) :
    run_calls s (a ++ b) = run_calls (run_calls s a) b := by
  induction a generalizing s with
  | nil => rfl
  | cons c cs ih => exact ih _

/-! ## The command buffer: the claims -/

/-- C1: for every sequence of `enqueue` calls on an empty buffer, the commands given to the
worker followed by the commands still buffered are the enqueued commands in their order without
the fused `Del`s: nothing but `Del`s is removed, every fused `Del` is counted, every surviving
command is itself or the same `ApplyOp` with fused targets appended to its `dels`, and the
`dels` entries at the end are the ones enqueued plus one per fused `Del`. -/
theorem enqueue_keeps_commands_in_order (capacity : Nat) (cmds : List Command) :
    (unfused (Pipeline.fresh capacity) cmds).Sublist cmds ∧
    (unfused (Pipeline.fresh capacity) cmds).filter (fun c => !is_del c) =
      cmds.filter (fun c => !is_del c) ∧
    (unfused (Pipeline.fresh capacity) cmds).length +
      (fused_dests (Pipeline.fresh capacity) cmds).length = cmds.length ∧
    List.Forall₂ (Augments (fused_dests (Pipeline.fresh capacity) cmds))
      (unfused (Pipeline.fresh capacity) cmds)
      ((enqueue_all (Pipeline.fresh capacity) cmds).tasks ++
        (enqueue_all (Pipeline.fresh capacity) cmds).buffer.m_commands) ∧
    (all_dels ((enqueue_all (Pipeline.fresh capacity) cmds).tasks ++
        (enqueue_all (Pipeline.fresh capacity) cmds).buffer.m_commands)).Perm
      (all_dels (unfused (Pipeline.fresh capacity) cmds) ++
        fused_dests (Pipeline.fresh capacity) cmds) := by
  obtain ⟨h1, h2, h3⟩ := unfused_sublist (Pipeline.fresh capacity) cmds
  obtain ⟨h4, h5⟩ := enqueue_all_augments (Pipeline.fresh capacity) cmds
  refine ⟨h1, h2, h3, ?_, ?_⟩
  · simpa [Pipeline.all, Pipeline.fresh] using h4
  · simpa [Pipeline.all, Pipeline.fresh] using h5

/-- C2: `enqueue` fuses `Del{dest}` exactly when the buffer holds an `ApplyOp` reading `dest`
and nothing after the first such `ApplyOp` uses `dest`; a fusion appends `dest` to the `dels` of
that first `ApplyOp`, keeps the length of the buffer and gives nothing to the worker; without a
fusion the `Del` is appended like any command; a buffer holding `ApplyOp(f,[x])` ends with that
one `ApplyOp` and `dels == [x]`, also when both commands are enqueued on an empty buffer of
capacity at least one with `f` not distinguished. -/
theorem del_fusion_rule (s : Pipeline) (dest : TensorInfoPtr) :
    (is_fused s (.Del dest) = true ↔
      ∃ pre op inputs outputs dels post,
        s.buffer.m_commands = pre ++ .ApplyOp op inputs outputs dels :: post ∧ dest ∈ inputs ∧
        (∀ c ∈ pre, ¬ ReadsInput dest c) ∧ (∀ c ∈ post, ¬ LaterUse dest c)) ∧
    (∀ pre op inputs outputs dels post,
        s.buffer.m_commands = pre ++ .ApplyOp op inputs outputs dels :: post → dest ∈ inputs →
        (∀ c ∈ pre, ¬ ReadsInput dest c) → (∀ c ∈ post, ¬ LaterUse dest c) →
        enqueue s (.Del dest) =
          { buffer := { m_capacity := s.buffer.m_capacity
                        m_commands := pre ++ .ApplyOp op inputs outputs (dels ++ [dest]) :: post }
            tasks := s.tasks } ∧
        (enqueue s (.Del dest)).buffer.m_commands.length = s.buffer.m_commands.length) ∧
    (is_fused s (.Del dest) = false →
      enqueue s (.Del dest) = capacity_rule s (.Del dest)) ∧
    (∀ (f : OpDef) (outputs : List TensorInfoPtr),
      s.buffer.m_commands = [.ApplyOp f [dest] outputs []] →
      (enqueue s (.Del dest)).buffer.m_commands = [.ApplyOp f [dest] outputs [dest]] ∧
      (enqueue s (.Del dest)).tasks = s.tasks) ∧
    (∀ (f : OpDef) (outputs : List TensorInfoPtr) (capacity : Nat),
      1 ≤ capacity → ¬ Distinguished f.typeinfo →
      enqueue_all (Pipeline.fresh capacity) [.ApplyOp f [dest] outputs [], .Del dest] =
        { buffer := { m_capacity := capacity
                      m_commands := [.ApplyOp f [dest] outputs [dest]] }
          tasks := [] }) := by
  have hfuse : ∀ pre op inputs outputs dels post,
      s.buffer.m_commands = pre ++ .ApplyOp op inputs outputs dels :: post → dest ∈ inputs →
      (∀ c ∈ pre, ¬ ReadsInput dest c) → (∀ c ∈ post, ¬ LaterUse dest c) →
      fuse_del s.buffer.m_commands dest =
        some (pre ++ .ApplyOp op inputs outputs (dels ++ [dest]) :: post) := by
    intro pre op inputs outputs dels post hbuf hmem hpre hpost
    rw [hbuf]
    apply fuse_del_of_split dest pre post op inputs outputs dels hmem
    · intro x hx
      rw [← Bool.not_eq_true, applies_to_iff]
      exact hpre x hx
    · intro x hx
      rw [← Bool.not_eq_true, is_usage_iff]
      exact hpost x hx
  refine ⟨⟨?_, ?_⟩, ?_, ?_, ?_, ?_⟩
  · intro h
    simp only [is_fused, Option.isSome_iff_exists] at h
    obtain ⟨r, hr⟩ := h
    obtain ⟨pre, op, i, o, d, post, hl, hmem, hpre, hpost, _⟩ := fuse_del_some hr
    refine ⟨pre, op, i, o, d, post, hl, hmem, ?_, ?_⟩
    · intro c hc hread
      have := hpre c hc
      rw [(applies_to_iff dest c).2 hread] at this
      cases this
    · intro c hc huse
      have := hpost c hc
      rw [(is_usage_iff dest c).2 huse] at this
      cases this
  · rintro ⟨pre, op, i, o, d, post, hl, hmem, hpre, hpost⟩
    simp [is_fused, hfuse pre op i o d post hl hmem hpre hpost]
  · intro pre op i o d post hl hmem hpre hpost
    have hf := hfuse pre op i o d post hl hmem hpre hpost
    have he : enqueue s (.Del dest) =
        { buffer := { m_capacity := s.buffer.m_capacity
                      m_commands := pre ++ .ApplyOp op i o (d ++ [dest]) :: post }
          tasks := s.tasks } := by
      simp only [enqueue, hf]
    rw [he, hl]
    simp
  · intro h
    exact enqueue_default s _ h
  · intro f outputs hbuf
    have hf := hfuse [] f [dest] outputs [] [] (by simpa using hbuf) (by simp) (by simp)
      (by simp)
    simp [enqueue, hf]
  · intro f outputs capacity hcap hdist
    have h1 : enqueue (Pipeline.fresh capacity) (.ApplyOp f [dest] outputs []) =
        { buffer := { m_capacity := capacity, m_commands := [.ApplyOp f [dest] outputs []] }
          tasks := [] } := by
      rw [enqueue_default _ _ (by simpa [DefaultRuleCommand] using hdist)]
      unfold capacity_rule
      simp only [Pipeline.fresh, List.nil_append, List.length_singleton]
      rw [if_neg (by omega)]
    simp only [enqueue_all, h1]
    have hf := fuse_del_of_split dest [] [] f [dest] outputs [] (by simp) (by simp) (by simp)
    simp only [List.nil_append] at hf
    simp only [enqueue, hf]

/-- Witness of C2: a buffer `[ApplyOp(f,[7]), Nop]` and `Del{7}`. -/
theorem del_fusion_rule_witness :
    is_fused { buffer := { m_capacity := 3
                           m_commands := [.ApplyOp ⟨.Other 0, 0⟩ [7] [8] [], .Nop] }
               tasks := [] } (.Del 7) = true ∧
    enqueue { buffer := { m_capacity := 3
                          m_commands := [.ApplyOp ⟨.Other 0, 0⟩ [7] [8] [], .Nop] }
              tasks := [] } (.Del 7) =
      { buffer := { m_capacity := 3
                    m_commands := [.ApplyOp ⟨.Other 0, 0⟩ [7] [8] [7], .Nop] }
        tasks := [] } :=
  ⟨by decide,
   ((del_fusion_rule { buffer := { m_capacity := 3
                                   m_commands := [.ApplyOp ⟨.Other 0, 0⟩ [7] [8] [], .Nop] }
                       tasks := [] } 7).2.1 [] ⟨.Other 0, 0⟩ [7] [8] [] [.Nop] rfl (by simp)
      (by simp) (by simp [LaterUse, ReadsInput])).1⟩

/-- C3, as stated, fails: with capacity 3, `ApplyOp(f,[1])`, `Nop`, `Nop` are buffered; after
`set_buffer_length(1)` the call `enqueue(Del{1})` is fused and returns with three commands
buffered under a capacity of one. -/
theorem lowered_capacity_exceeded :
    ¬ ∀ (capacity : Nat) (calls : List BufferCall) (cmd : Command),
      (run_calls (Pipeline.fresh capacity)
          (calls ++ [.enqueue cmd])).buffer.m_commands.length ≤
        (run_calls (Pipeline.fresh capacity) (calls ++ [.enqueue cmd])).buffer.m_capacity := by
  intro h
  have h3 := h 3
    [.enqueue (.ApplyOp ⟨.Other 0, 0⟩ [1] [2] []), .enqueue .Nop, .enqueue .Nop,
      .set_buffer_length 1] (.Del 1)
  revert h3
  decide

/-- C3, amended: after every return of `enqueue`, for every command and every history from an
empty buffer in which no `set_buffer_length` sets a capacity below the number of commands
buffered at that moment, the buffer holds at most `m_capacity` commands. -/
theorem buffer_within_capacity (capacity : Nat) (calls : List BufferCall) (cmd : Command)
    (h : NeverLowersBelowSize (Pipeline.fresh capacity) calls) :
    (run_calls (Pipeline.fresh capacity) (calls ++ [.enqueue cmd])).buffer.m_commands.length ≤
      (run_calls (Pipeline.fresh capacity) (calls ++ [.enqueue cmd])).buffer.m_capacity := by
  rw [run_calls_append]
  exact enqueue_length_le _ cmd
    (run_calls_within_capacity _ calls (Nat.zero_le _) h)

/-- Witness of C3: capacity 2 raised to 3 with two commands buffered, then two more commands. -/
theorem buffer_within_capacity_witness :
    NeverLowersBelowSize (Pipeline.fresh 2)
      [.enqueue .Nop, .enqueue .Nop, .set_buffer_length 3, .enqueue .Nop] ∧
    (run_calls (Pipeline.fresh 2)
        ([.enqueue .Nop, .enqueue .Nop, .set_buffer_length 3, .enqueue .Nop] ++
          [.enqueue .Nop])).buffer.m_commands.length ≤
      (run_calls (Pipeline.fresh 2)
        ([.enqueue .Nop, .enqueue .Nop, .set_buffer_length 3, .enqueue .Nop] ++
          [.enqueue .Nop])).buffer.m_capacity :=
  ⟨by decide, buffer_within_capacity 2 _ .Nop (by decide)⟩

/-- C4: after `enqueue` of a `GetValue`, of a `Flush` without target, or of an `ApplyOp` of a
distinguished kind, the buffer is empty and the worker got every buffered command and then the
new one, in buffer order. -/
theorem full_flush_triggers (s : Pipeline) (cmd : Command)
    (h : (∃ dest, cmd = .GetValue dest) ∨ cmd = .Flush none ∨
      ∃ op inputs outputs dels, cmd = .ApplyOp op inputs outputs dels ∧
        (op.typeinfo = .RemoteRecv ∨ op.typeinfo = .RemoteSend ∨
          op.typeinfo = .CollectiveComm ∨ op.typeinfo = .InputCallback ∨
          op.typeinfo = .OutputCallback ∨ op.typeinfo = .BackwardGraph)) :
    (enqueue s cmd).buffer.m_commands = [] ∧
      (enqueue s cmd).tasks = s.tasks ++ s.buffer.m_commands ++ [cmd] ∧
      (enqueue s cmd).buffer.m_capacity = s.buffer.m_capacity := by
  rw [enqueue_full_flush s cmd h]
  exact ⟨rfl, rfl, rfl⟩

/-- Witness of C4: a remote send after two buffered commands. -/
theorem full_flush_triggers_witness :
    (enqueue { buffer := { m_capacity := 5, m_commands := [.Nop, .Drop 4] }, tasks := [.Nop] }
        (.ApplyOp ⟨.RemoteSend, 1⟩ [4] [] [])).buffer.m_commands = [] ∧
    (enqueue { buffer := { m_capacity := 5, m_commands := [.Nop, .Drop 4] }, tasks := [.Nop] }
        (.ApplyOp ⟨.RemoteSend, 1⟩ [4] [] [])).tasks =
      [.Nop] ++ [.Nop, .Drop 4] ++ [.ApplyOp ⟨.RemoteSend, 1⟩ [4] [] []] ∧
    (enqueue { buffer := { m_capacity := 5, m_commands := [.Nop, .Drop 4] }, tasks := [.Nop] }
        (.ApplyOp ⟨.RemoteSend, 1⟩ [4] [] [])).buffer.m_capacity = 5 :=
  full_flush_triggers
    { buffer := { m_capacity := 5, m_commands := [.Nop, .Drop 4] }, tasks := [.Nop] }
    (.ApplyOp ⟨.RemoteSend, 1⟩ [4] [] [])
    (Or.inr (Or.inr ⟨_, _, _, _, rfl, Or.inr (Or.inl rfl)⟩))

/-- C5: for a `Flush` with a target, when the buffer holds a producer of the target the worker
gets exactly the buffered prefix up to and including the first producer, in order, and every
later command and the `Flush` itself stay buffered; without a buffered producer the call follows
the default capacity rule. -/
theorem targeted_flush (s : Pipeline) (dest : TensorInfoPtr) :
    (∀ pre p post, s.buffer.m_commands = pre ++ p :: post →
      (∀ c ∈ pre, ¬ Producer dest c) → Producer dest p →
      (enqueue s (.Flush (some dest))).tasks = s.tasks ++ (pre ++ [p]) ∧
      (enqueue s (.Flush (some dest))).buffer.m_commands = post ++ [.Flush (some dest)] ∧
      (enqueue s (.Flush (some dest))).buffer.m_capacity = s.buffer.m_capacity) ∧
    ((∀ c ∈ s.buffer.m_commands, ¬ Producer dest c) →
      enqueue s (.Flush (some dest)) = capacity_rule s (.Flush (some dest))) := by
  constructor
  · intro pre p post hbuf hpre hp
    rw [enqueue_targeted_flush s dest pre post p hbuf hpre hp]
    exact ⟨by simp, rfl, rfl⟩
  · intro h
    exact enqueue_default s _ h

/-- Witness of C5: the producer `Put{9}` sits second in a buffer of four commands. -/
theorem targeted_flush_witness :
    (enqueue { buffer := { m_capacity := 8
                           m_commands := [.Nop, .Put 9 ⟨0, ⟨1, ⟨true, 0⟩⟩, ⟨true, 0⟩⟩ false,
                             .ApplyOp ⟨.Other 0, 0⟩ [9] [9] [], .Drop 9] }
               tasks := [] } (.Flush (some 9))).tasks =
      [] ++ ([.Nop] ++ [.Put 9 ⟨0, ⟨1, ⟨true, 0⟩⟩, ⟨true, 0⟩⟩ false]) ∧
    (enqueue { buffer := { m_capacity := 8
                           m_commands := [.Nop, .Put 9 ⟨0, ⟨1, ⟨true, 0⟩⟩, ⟨true, 0⟩⟩ false,
                             .ApplyOp ⟨.Other 0, 0⟩ [9] [9] [], .Drop 9] }
               tasks := [] } (.Flush (some 9))).buffer.m_commands =
      [.ApplyOp ⟨.Other 0, 0⟩ [9] [9] [], .Drop 9] ++ [.Flush (some 9)] ∧
    (enqueue { buffer := { m_capacity := 8
                           m_commands := [.Nop, .Put 9 ⟨0, ⟨1, ⟨true, 0⟩⟩, ⟨true, 0⟩⟩ false,
                             .ApplyOp ⟨.Other 0, 0⟩ [9] [9] [], .Drop 9] }
               tasks := [] } (.Flush (some 9))).buffer.m_capacity = 8 :=
  (targeted_flush _ 9).1 [.Nop] (.Put 9 ⟨0, ⟨1, ⟨true, 0⟩⟩, ⟨true, 0⟩⟩ false)
    [.ApplyOp ⟨.Other 0, 0⟩ [9] [9] [], .Drop 9] rfl (by simp [Producer])
    (Or.inl ⟨_, _, rfl⟩)

/-- C6: for a command that is neither a full-flush nor a targeted-flush trigger, with `n` the
size of the buffer after appending it: when `n > capacity` the worker gets exactly the oldest
`n - capacity` commands and exactly `capacity` commands stay buffered; when `n <= capacity` the
worker gets nothing and the buffer keeps all `n` commands. -/
theorem default_capacity_rule (s : Pipeline) (cmd : Command) (h : DefaultRuleCommand s cmd) :
    (s.buffer.m_commands.length + 1 > s.buffer.m_capacity →
      (enqueue s cmd).tasks = s.tasks ++
        (s.buffer.m_commands ++ [cmd]).take
          (s.buffer.m_commands.length + 1 - s.buffer.m_capacity) ∧
      (enqueue s cmd).buffer.m_commands =
        (s.buffer.m_commands ++ [cmd]).drop
          (s.buffer.m_commands.length + 1 - s.buffer.m_capacity) ∧
      (enqueue s cmd).buffer.m_commands.length = s.buffer.m_capacity) ∧
    (s.buffer.m_commands.length + 1 ≤ s.buffer.m_capacity →
      (enqueue s cmd).tasks = s.tasks ∧
      (enqueue s cmd).buffer.m_commands = s.buffer.m_commands ++ [cmd]) := by
  rw [enqueue_default s cmd h]
  obtain ⟨h1, h2, _⟩ := capacity_rule_length s cmd
  exact ⟨fun hn => ⟨(h1 hn).2.1, (h1 hn).2.2, (h1 hn).1⟩, h2⟩

/-- Witness of C6: a `Del` that cannot be fused arrives at a full buffer of capacity 2. -/
theorem default_capacity_rule_witness :
    DefaultRuleCommand
      { buffer := { m_capacity := 2, m_commands := [.Nop, .SwapOut 3] }, tasks := [] }
      (.Del 3) ∧
    (enqueue { buffer := { m_capacity := 2, m_commands := [.Nop, .SwapOut 3] }, tasks := [] }
        (.Del 3)).tasks = [.Nop] ∧
    (enqueue { buffer := { m_capacity := 2, m_commands := [.Nop, .SwapOut 3] }, tasks := [] }
        (.Del 3)).buffer.m_commands = [.SwapOut 3, .Del 3] :=
  ⟨by show is_fused _ (.Del 3) = false; decide,
   ((default_capacity_rule
      { buffer := { m_capacity := 2, m_commands := [.Nop, .SwapOut 3] }, tasks := [] }
      (.Del 3) (by show is_fused _ (.Del 3) = false; decide)).1 (by decide)).1,
   by decide⟩

/-! ## What the worker leaves alone -/

theorem WorkerFrame.frame_refl (s : ChannelImpl) : WorkerFrame s s :=
  ⟨rfl, rfl, rfl, rfl, rfl, rfl, rfl, rfl⟩

theorem WorkerFrame.frame_trans {a b c : ChannelImpl} (h1 : WorkerFrame a b) (h2 : WorkerFrame b c) :
    WorkerFrame a c := by
  obtain ⟨a1, a2, a3, a4, a5, a6, a7, a8⟩ := h1
  obtain ⟨b1, b2, b3, b4, b5, b6, b7, b8⟩ := h2
  exact ⟨b1.trans a1, b2.trans a2, b3.trans a3, b4.trans a4, b5.trans a5, b6.trans a6,
    b7.trans a7, b8.trans a8⟩

theorem frame_set_info (s : ChannelImpl) (p : TensorInfoPtr) (info : TensorInfo) :
    WorkerFrame s (s.set_info p info) :=
  ⟨rfl, rfl, rfl, rfl, rfl, rfl, rfl, rfl⟩

theorem frame_produce_tensor (s : ChannelImpl) (dest : TensorInfoPtr) (t : Tensor)
    (notice : Bool) : WorkerFrame s (produce_tensor s dest t notice) := by
  unfold produce_tensor
  simp only
  split <;> exact ⟨rfl, rfl, rfl, rfl, rfl, rfl, rfl, rfl⟩

theorem frame_do_swap_out (s : ChannelImpl) (dest : TensorInfoPtr) :
    WorkerFrame s (do_swap_out s dest) := by
  unfold do_swap_out
  simp only
  split
  · exact WorkerFrame.frame_refl s
  · split
    · exact WorkerFrame.frame_refl s
    · exact frame_set_info _ _ _

theorem frame_do_swap_in (s : ChannelImpl) (dest : TensorInfoPtr) :
    WorkerFrame s (do_swap_in s dest) := by
  unfold do_swap_in
  simp only
  split
  · exact WorkerFrame.frame_refl s
  · split
    · exact WorkerFrame.frame_refl s
    · exact (frame_produce_tensor _ _ _ _).frame_trans (frame_set_info _ _ _)

theorem frame_do_drop (s : ChannelImpl) (dest : TensorInfoPtr) :
    WorkerFrame s (do_drop s dest) := by
  unfold do_drop
  dsimp only
  split_ifs <;> exact WorkerFrame.frame_refl s

theorem frame_sever (s : ChannelImpl) (info : TensorInfoPtr) (must_drop : Bool) :
    WorkerFrame s (sever s info must_drop) := by
  unfold sever
  dsimp only
  split_ifs <;> exact WorkerFrame.frame_refl s

theorem frame_publish_outputs (path : ComputePath) (ts : List Tensor) (i : Nat)
    (s : ChannelImpl) : WorkerFrame s (publish_outputs path ts i s).1 := by
  induction ts generalizing i s with
  | nil => exact WorkerFrame.frame_refl s
  | cons t ts ih =>
    unfold publish_outputs
    split
    · exact WorkerFrame.frame_refl s
    · split
      · refine WorkerFrame.frame_trans ?_ (ih _ _)
        simp only
        split
        · exact (frame_set_info _ _ _).frame_trans (frame_produce_tensor _ _ _ _)
        · exact frame_set_info _ _ _
      · exact ih _ _

theorem frame_gather_history_inputs
    (regen : ChannelImpl → TensorInfoPtr → ChannelImpl × Option Exc)
    (hregen : ∀ s i, WorkerFrame s (regen s i).1) (l : List TensorInfoPtr) (s : ChannelImpl)
    (inputs : List (Option Tensor)) :
    WorkerFrame s (gather_history_inputs regen l s inputs).1 := by
  induction l generalizing s inputs with
  | nil => exact WorkerFrame.frame_refl s
  | cons i rest ih =>
    unfold gather_history_inputs
    dsimp only
    split
    · rename_i s1 e heq
      have : WorkerFrame s (if (s.infos i).ptr.isNone = true then regen s i else (s, none)).1 := by
        split
        · exact hregen s i
        · exact WorkerFrame.frame_refl s
      rw [heq] at this
      exact this
    · rename_i s1 heq
      have : WorkerFrame s (if (s.infos i).ptr.isNone = true then regen s i else (s, none)).1 := by
        split
        · exact hregen s i
        · exact WorkerFrame.frame_refl s
      rw [heq] at this
      exact this.frame_trans (ih _ _)

theorem frame_recompute (ext : Extern)
    (regen : ChannelImpl → TensorInfoPtr → ChannelImpl × Option Exc)
    (hregen : ∀ s i, WorkerFrame s (regen s i).1) (s : ChannelImpl) (info : TensorInfoPtr) :
    WorkerFrame s (recompute ext regen s info).1 := by
  unfold recompute
  split
  · exact WorkerFrame.frame_refl s
  · dsimp only
    have hg := frame_gather_history_inputs regen hregen (s.infos info).path.inputs s []
    split
    · rename_i heq
      rw [heq] at hg
      exact hg
    · rename_i heq
      rw [heq] at hg
      split
      · split
        · exact hg
        · exact hg.frame_trans (frame_publish_outputs _ _ _ _)
      · exact hg

theorem frame_regenerate (ext : Extern) (fuel : Nat) (s : ChannelImpl) (info : TensorInfoPtr)
    (must_drop : Bool) : WorkerFrame s (regenerate ext fuel s info must_drop).1 := by
  induction fuel generalizing s info must_drop with
  | zero => exact WorkerFrame.frame_refl s
  | succ fuel ih =>
    unfold regenerate
    dsimp only
    have hr : WorkerFrame s
        (if (s.infos info).ptr.isNone = true ∧ (s.infos info).evict_type ≠ .NONE then
          if (s.infos info).evict_type = .SWAP then (do_swap_in s info, none)
          else recompute ext (fun s1 i => regenerate ext fuel s1 i must_drop) s info
        else (s, none)).1 := by
      split
      · split
        · exact frame_do_swap_in s info
        · exact frame_recompute ext _ (fun s1 i => ih s1 i must_drop) s info
      · exact WorkerFrame.frame_refl s
    split
    · rename_i heq
      rw [heq] at hr
      exact hr
    · rename_i heq
      rw [heq] at hr
      exact hr.frame_trans (frame_sever _ _ _)

theorem frame_remove_dep_loop (ext : Extern) (fuel : Nat) (l : List TensorInfoPtr)
    (s : ChannelImpl) : WorkerFrame s (remove_dep_loop ext fuel l s).1 := by
  induction l generalizing s with
  | nil => exact WorkerFrame.frame_refl s
  | cons i rest ih =>
    unfold remove_dep_loop
    dsimp only
    have hr : WorkerFrame s (if i ∈ s.m_st then regenerate ext fuel s i true else (s, none)).1 := by
      split
      · exact frame_regenerate ext fuel s i true
      · exact WorkerFrame.frame_refl s
    split
    · rename_i heq
      rw [heq] at hr
      exact hr
    · rename_i heq
      rw [heq] at hr
      exact hr.frame_trans (ih _)

theorem frame_free (ext : Extern) (fuel : Nat) (s : ChannelImpl) (ptr : TensorInfoPtr) :
    WorkerFrame s (free ext fuel s ptr).1 := by
  unfold free
  dsimp only
  have hr : WorkerFrame s
      (if (s.infos ptr).path.dep_outputs.length > 0 then remove_dep ext fuel s ptr
        else (s, none)).1 := by
    split
    · exact frame_remove_dep_loop ext fuel _ s
    · exact WorkerFrame.frame_refl s
  split
  · rename_i heq
    rw [heq] at hr
    exact hr
  · rename_i s1 heq
    rw [heq] at hr
    have h2 : WorkerFrame s1 { s1 with m_st := s1.m_st.filter (fun q => q ≠ ptr) } :=
      ⟨rfl, rfl, rfl, rfl, rfl, rfl, rfl, rfl⟩
    split <;> exact hr.frame_trans h2

theorem frame_gather_inputs (ext : Extern) (fuel : Nat) (l : List TensorInfoPtr)
    (s : ChannelImpl) (acc : List Tensor) :
    WorkerFrame s (gather_inputs ext fuel l s acc).1 := by
  induction l generalizing s acc with
  | nil => exact WorkerFrame.frame_refl s
  | cons i rest ih =>
    unfold gather_inputs
    dsimp only
    have hr : WorkerFrame s
        (if s.evict_enabled = true ∧ (s.infos i).evict_type ≠ .NONE then
          if (s.infos i).ptr.isNone = true then regenerate ext fuel s i false else (s, none)
        else (s, none)).1 := by
      split
      · split
        · exact frame_regenerate ext fuel s i false
        · exact WorkerFrame.frame_refl s
      · exact WorkerFrame.frame_refl s
    split
    · rename_i heq
      rw [heq] at hr
      exact hr
    · rename_i heq
      rw [heq] at hr
      split
      · exact hr
      · exact hr.frame_trans (ih _ _)

theorem frame_free_dels (ext : Extern) (fuel : Nat) (l : List TensorInfoPtr) (s : ChannelImpl) :
    WorkerFrame s (free_dels ext fuel l s).1 := by
  induction l generalizing s with
  | nil => exact WorkerFrame.frame_refl s
  | cons d rest ih =>
    unfold free_dels
    have hr := frame_free ext fuel s d
    split
    · rename_i heq
      rw [heq] at hr
      exact hr
    · rename_i heq
      rw [heq] at hr
      exact hr.frame_trans (ih _)

theorem frame_produce_outputs (outs : List TensorInfoPtr) (ts : List Tensor) (s : ChannelImpl) :
    WorkerFrame s (produce_outputs outs ts s) := by
  induction outs generalizing ts s with
  | nil => unfold produce_outputs; exact WorkerFrame.frame_refl s
  | cons o outs ih =>
    cases ts with
    | nil => unfold produce_outputs; exact WorkerFrame.frame_refl s
    | cons t ts =>
      unfold produce_outputs
      exact (frame_produce_tensor _ _ _ _).frame_trans (ih _ _)

theorem frame_run_command (ext : Extern) (fuel : Nat) (s : ChannelImpl) (cmd : Command) :
    WorkerFrame s (run_command ext fuel s cmd).1 := by
  cases cmd
  case Put dest value no_cache => exact frame_produce_tensor _ _ _ _
  case ApplyOp op inputs outputs dels =>
    simp only [run_command]
    have hg := frame_gather_inputs ext fuel inputs s []
    split
    · rename_i heq
      rw [heq] at hg
      exact hg
    · rename_i s1 tensor_inputs heq
      rw [heq] at hg
      have hf := frame_free_dels ext fuel dels s1
      split
      · rename_i heq2
        rw [heq2] at hf
        exact hg.frame_trans hf
      · rename_i heq2
        rw [heq2] at hf
        split
        · exact hg.frame_trans hf
        · split
          · exact (hg.frame_trans hf).frame_trans (frame_produce_outputs _ _ _)
          · exact hg.frame_trans hf
  case Del dest => exact frame_free ext fuel s dest
  case GetValue dest =>
    simp only [run_command]
    have hr : WorkerFrame s
        (if s.evict_enabled = true ∧ (s.infos dest).evict_type ≠ .NONE then
          if (s.infos dest).ptr.isNone = true then regenerate ext fuel s dest false
          else (s, none)
        else (s, none)).1 := by
      split
      · split
        · exact frame_regenerate ext fuel s dest false
        · exact WorkerFrame.frame_refl s
      · exact WorkerFrame.frame_refl s
    split
    · rename_i heq
      rw [heq] at hr
      exact hr
    · rename_i heq
      rw [heq] at hr
      split
      · exact hr
      · refine hr.frame_trans ?_
        dsimp only
        split <;> exact ⟨rfl, rfl, rfl, rfl, rfl, rfl, rfl, rfl⟩
  case SwapIn dest => exact frame_do_swap_in s dest
  case SwapOut dest => exact frame_do_swap_out s dest
  case Drop dest => exact frame_do_drop s dest
  case Move dest src =>
    simp only [run_command]
    split
    · exact WorkerFrame.frame_refl s
    · exact (frame_produce_tensor _ _ _ _).frame_trans (frame_free _ _ _ _)
  case Flush dest => exact WorkerFrame.frame_refl s
  case Nop => exact WorkerFrame.frame_refl s

theorem frame_mark_invalid (s : ChannelImpl) (l : List TensorInfoPtr) :
    WorkerFrame s (mark_invalid s l) := by
  induction l generalizing s with
  | nil => exact WorkerFrame.frame_refl s
  | cons o rest ih =>
    unfold mark_invalid
    exact (frame_set_info _ _ _).frame_trans (ih _)

theorem frame_catch_block (s : ChannelImpl) (cmd : Command) (e : Exc) :
    WorkerFrame s (catch_block s cmd e) := by
  have h : ∀ s1 : ChannelImpl, WorkerFrame s s1 →
      WorkerFrame s { s1 with m_worker_exc := some e, notify_count := s1.notify_count + 1 } :=
    fun s1 h1 => h1
  unfold catch_block
  apply h
  split
  · exact frame_mark_invalid _ _
  · exact frame_set_info _ _ _
  · exact WorkerFrame.frame_refl s

theorem frame_process_one_task (ext : Extern) (fuel : Nat) (s : ChannelImpl) (cmd : Command) :
    WorkerFrame s (process_one_task ext fuel s cmd) := by
  unfold process_one_task
  have hr := frame_run_command ext fuel s cmd
  split
  · rename_i heq
    rw [heq] at hr
    exact hr
  · rename_i heq
    rw [heq] at hr
    exact hr.frame_trans (frame_catch_block _ _ _)

theorem frame_process_tasks (ext : Extern) (fuel : Nat) (s : ChannelImpl) (l : List Command) :
    WorkerFrame s (process_tasks ext fuel s l) := by
  induction l generalizing s with
  | nil => exact WorkerFrame.frame_refl s
  | cons c rest ih =>
    unfold process_tasks
    exact (frame_process_one_task ext fuel s c).frame_trans (ih _)

/-! ## The valid handles -/

theorem valid_check_worker_exc (s : ChannelImpl) :
    ( check_worker_exc_unsafe s).1.m_valid_handle = s.m_valid_handle := by
  unfold check_worker_exc_unsafe
  split <;> rfl

theorem valid_cv_wait (ext : Extern) (flag : ChannelImpl → Bool) (tasks : List Command)
    (s : ChannelImpl) : (cv_wait ext flag tasks s).state.m_valid_handle = s.m_valid_handle := by
  induction tasks generalizing s with
  | nil =>
    unfold cv_wait
    have h := valid_check_worker_exc { s with m_worker := [] }
    split
    · rename_i heq
      rw [heq] at h
      exact h
    · rename_i heq
      rw [heq] at h
      split <;> exact h
  | cons t rest ih =>
    unfold cv_wait
    have h := valid_check_worker_exc { s with m_worker := t :: rest }
    split
    · rename_i heq
      rw [heq] at h
      exact h
    · rename_i s1 heq
      rw [heq] at h
      split
      · exact h
      · dsimp only
        rw [ih]
        exact (frame_process_one_task ext s1.fuel s1 t).1.trans h

theorem valid_wait_all_task_finish (ext : Extern) (s : ChannelImpl) :
    (wait_all_task_finish ext s).m_valid_handle = s.m_valid_handle := by
  unfold wait_all_task_finish
  exact (frame_process_tasks ext s.fuel { s with m_worker := [] } s.m_worker).1

theorem valid_sync (ext : Extern) (s : ChannelImpl) :
    (sync ext s).state.m_valid_handle = s.m_valid_handle := by
  unfold sync
  dsimp only
  have h1 : (wait_all_task_finish ext
      (if s.m_buffer.m_commands.isEmpty = true then s
        else s.enqueue (.Flush none))).m_valid_handle = s.m_valid_handle := by
    rw [valid_wait_all_task_finish]
    split <;> rfl
  have h2 := valid_check_worker_exc (wait_all_task_finish ext
      (if s.m_buffer.m_commands.isEmpty = true then s else s.enqueue (.Flush none)))
  split
  · rename_i heq
    rw [heq] at h2
    exact h2.trans h1
  · rename_i heq
    rw [heq] at h2
    exact h2.trans h1

theorem mem_insert_valid (s : ChannelImpl) (info h : TensorInfoPtr) :
    h ∈ (insert_valid s info).m_valid_handle ↔ h ∈ s.m_valid_handle ∨ h = info := by
  unfold insert_valid
  dsimp only
  split
  · constructor
    · exact Or.inl
    · rintro (h1 | rfl)
      · exact h1
      · assumption
  · simp

theorem valid_alloc_outputs (descs : List LogicalTensorDesc) (s : ChannelImpl)
    (outputs : List TensorInfoPtr) (validated_bkp : Bool) :
    (∀ h ∈ s.m_valid_handle, h ∈ (alloc_outputs descs s outputs validated_bkp).1.m_valid_handle) ∧
    ((∀ o ∈ outputs, o ∈ s.m_valid_handle) →
      ∀ o ∈ (alloc_outputs descs s outputs validated_bkp).2.1,
        o ∈ (alloc_outputs descs s outputs validated_bkp).1.m_valid_handle) := by
  induction descs generalizing s outputs validated_bkp with
  | nil => exact ⟨fun h hh => hh, fun h => h⟩
  | cons d rest ih =>
    unfold alloc_outputs
    dsimp only
    obtain ⟨ih1, ih2⟩ := ih
      (insert_valid ((alloc s).1.set_info (alloc s).2
        { (alloc s).1.infos (alloc s).2 with desc := d }) (alloc s).2)
      (outputs ++ [(alloc s).2]) (if d.layout.ndim = 0 then false else validated_bkp)
    have hsub : ∀ h ∈ s.m_valid_handle,
        h ∈ (insert_valid ((alloc s).1.set_info (alloc s).2
          { (alloc s).1.infos (alloc s).2 with desc := d }) (alloc s).2).m_valid_handle := by
      intro h hh
      rw [mem_insert_valid]
      exact Or.inl hh
    refine ⟨fun h hh => ih1 h (hsub h hh), fun hout => ih2 ?_⟩
    intro o ho
    rcases List.mem_append.1 ho with ho | ho
    · exact hsub o (hout o ho)
    · rw [mem_insert_valid]
      exact Or.inr (by simpa using ho)

theorem frame_record_siblings (out : TensorInfoPtr) (l : List TensorInfoPtr) (s : ChannelImpl) :
    WorkerFrame s (record_siblings out l s).1 := by
  induction l generalizing s with
  | nil => exact WorkerFrame.frame_refl s
  | cons o rest ih =>
    unfold record_siblings
    split
    · exact (frame_set_info _ _ _).frame_trans (ih _)
    · exact WorkerFrame.frame_refl s

theorem frame_record_inputs (out : TensorInfoPtr) (l : List TensorInfoPtr) (s : ChannelImpl) :
    WorkerFrame s (record_inputs out l s).1 := by
  induction l generalizing s with
  | nil => exact WorkerFrame.frame_refl s
  | cons o rest ih =>
    unfold record_inputs
    dsimp only
    split
    · split
      · exact ((frame_set_info _ _ _).frame_trans (frame_set_info _ _ _)).frame_trans (ih _)
      · exact frame_set_info _ _ _
    · exact WorkerFrame.frame_refl s

theorem frame_record_paths (op : OpDef) (inputs outputs l : List TensorInfoPtr)
    (s : ChannelImpl) : WorkerFrame s (record_paths op inputs outputs l s).1 := by
  induction l generalizing s with
  | nil => exact WorkerFrame.frame_refl s
  | cons o rest ih =>
    unfold record_paths
    dsimp only
    have h1 := frame_record_siblings o outputs (s.set_info o
      { s.infos o with path := { (s.infos o).path with op := some op } })
    split
    · rename_i heq
      rw [heq] at h1
      exact h1
    · rename_i s2 heq
      rw [heq] at h1
      have h2 := frame_record_inputs o inputs s2
      split
      · rename_i heq2
        rw [heq2] at h2
        exact h1.frame_trans h2
      · rename_i heq2
        rw [heq2] at h2
        exact (h1.frame_trans h2).frame_trans (ih _)

theorem apply_op_sync_spec (ext : Extern) (s : ChannelImpl) (outputs : List TensorInfoPtr)
    (v : Bool) :
    (apply_op_sync ext s outputs v).state.m_valid_handle = s.m_valid_handle ∧
    ∀ outs, (apply_op_sync ext s outputs v).status = .returned outs → outs = outputs := by
  unfold apply_op_sync
  split
  · split
    · exact ⟨valid_sync ext s, fun outs h => by cases h; rfl⟩
    · exact ⟨valid_sync ext s, fun outs h => by cases h⟩
    · exact ⟨valid_sync ext s, fun outs h => by cases h⟩
  · split
    · split
      · split
        · exact ⟨valid_sync ext s, fun outs h => by cases h⟩
        · exact ⟨valid_sync ext s, fun outs h => by cases h; rfl⟩
      · exact ⟨valid_sync ext s, fun outs h => by cases h⟩
      · exact ⟨valid_sync ext s, fun outs h => by cases h⟩
    · exact ⟨rfl, fun outs h => by cases h; rfl⟩

theorem valid_apply_op (ext : Extern) (s : ChannelImpl) (op : OpDef)
    (inputs : List TensorInfoPtr) :
    (∀ h ∈ s.m_valid_handle, h ∈ (apply_op ext s op inputs).state.m_valid_handle) ∧
    (∀ outs, (apply_op ext s op inputs).status = .returned outs →
      ∀ h ∈ outs, h ∈ (apply_op ext s op inputs).state.m_valid_handle) := by
  unfold apply_op
  split
  · exact ⟨fun h hh => hh, fun outs h => by cases h⟩
  · split
    · exact ⟨fun h hh => hh, fun outs h => by cases h⟩
    · dsimp only
      obtain ⟨ha1, ha2⟩ := valid_alloc_outputs
        (ext.infer_output_attrs_fallible op (inputs.map (fun i => (s.infos i).desc))).1 s [] true
      have ha2' := ha2 (by simp)
      generalize alloc_outputs
        (ext.infer_output_attrs_fallible op (inputs.map (fun i => (s.infos i).desc))).1 s []
        true = A at ha1 ha2' ⊢
      have hrec : WorkerFrame A.1
          (if A.1.m_enable_evict.drop = true then record_paths op inputs A.2.1 A.2.1 A.1
            else (A.1, none)).1 := by
        split
        · exact frame_record_paths _ _ _ _ _
        · exact WorkerFrame.frame_refl _
      split
      · rename_i heq
        rw [heq] at hrec
        refine ⟨fun h hh => ?_, fun outs h => by cases h⟩
        rw [hrec.1]
        exact ha1 h hh
      · rename_i s2 heq
        rw [heq] at hrec
        obtain ⟨hs1, hs2⟩ := apply_op_sync_spec ext
          (s2.enqueue (.ApplyOp op inputs A.2.1 [])) A.2.1
          ((ext.infer_output_attrs_fallible op
            (inputs.map (fun i => (s.infos i).desc))).2 && A.2.2)
        have hv : (s2.enqueue (.ApplyOp op inputs A.2.1 [])).m_valid_handle =
            A.1.m_valid_handle := hrec.1
        refine ⟨fun h hh => ?_, fun outs hout h hh => ?_⟩
        · rw [hs1, hv]
          exact ha1 h hh
        · rw [hs1, hv]
          rw [hs2 outs hout] at hh
          exact ha2' h hh

theorem valid_wait_for_value (ext : Extern) (s : ChannelImpl) (handle : TensorInfoPtr) :
    (wait_for_value ext s handle).state.m_valid_handle = s.m_valid_handle := by
  unfold wait_for_value
  split
  · rfl
  · dsimp only
    have := valid_cv_wait ext (fun c => (c.infos handle).value_fetched)
      (({ s with m_waitee := some handle } : ChannelImpl).enqueue (.GetValue handle)).m_worker
      (({ s with m_waitee := some handle } : ChannelImpl).enqueue (.GetValue handle))
    split <;> exact this

theorem valid_wait_for_ptr (ext : Extern) (s : ChannelImpl) (handle : TensorInfoPtr) :
    (wait_for_ptr ext s handle).state.m_valid_handle = s.m_valid_handle := by
  unfold wait_for_ptr
  dsimp only
  have := valid_cv_wait ext (fun c => (c.infos handle).ptr.isSome)
    (({ s with m_waitee := some handle } : ChannelImpl).enqueue
      (.Flush (some handle))).m_worker
    (({ s with m_waitee := some handle } : ChannelImpl).enqueue (.Flush (some handle)))
  split <;> exact this

theorem valid_get_value (ext : Extern) (s : ChannelImpl) (handle : TensorInfoPtr) :
    (get_value ext s handle).state.m_valid_handle = s.m_valid_handle := by
  unfold get_value
  split
  · rfl
  · split
    · rfl
    · dsimp only
      have hw : (if ¬ (s.infos handle).value_fetched = true then wait_for_value ext s handle
          else ({ state := s, status := .returned () } : Outcome Unit)).state.m_valid_handle =
          s.m_valid_handle := by
        split
        · exact valid_wait_for_value ext s handle
        · rfl
      split
      · exact hw
      · exact hw
      · split
        · exact hw
        · split <;> exact hw

theorem valid_get_shape (ext : Extern) (s : ChannelImpl) (handle : TensorInfoPtr) :
    (get_shape ext s handle).state.m_valid_handle = s.m_valid_handle := by
  unfold get_shape
  have hw := valid_wait_for_ptr ext s handle
  split_ifs
  all_goals first
    | rfl
    | (dsimp only
       split
       · exact hw
       · exact hw
       · split
         · exact hw
         · split <;> exact hw)

theorem valid_get_dev_tensor (ext : Extern) (s : ChannelImpl) (handle : TensorInfoPtr) :
    (get_dev_tensor ext s handle).state.m_valid_handle = s.m_valid_handle := by
  unfold get_dev_tensor
  have hw := valid_wait_for_ptr ext s handle
  split_ifs
  all_goals first
    | rfl
    | (dsimp only
       split
       · exact hw
       · exact hw
       · split <;> exact hw)

theorem valid_put (s : ChannelImpl) (value : HostTensorND) (no_cache : Bool) (h : TensorInfoPtr) :
    h ∈ (put s value no_cache).state.m_valid_handle ↔
      h ∈ s.m_valid_handle ∨ h = s.m_pool.addresses s.m_pool.allocated := by
  unfold put
  exact mem_insert_valid _ _ _

theorem valid_put_device (s : ChannelImpl) (data : DeviceTensorND) (h : TensorInfoPtr) :
    h ∈ (put_device s data).state.m_valid_handle ↔
      h ∈ s.m_valid_handle ∨ h = s.m_pool.addresses s.m_pool.allocated := by
  unfold put_device
  exact mem_insert_valid _ _ _

theorem valid_del (s : ChannelImpl) (handle h : TensorInfoPtr) :
    h ∈ (del s handle).state.m_valid_handle ↔ h ∈ s.m_valid_handle ∧ h ≠ handle := by
  unfold del
  split
  · show h ∈ s.m_valid_handle.filter (fun h => h ≠ handle) ↔ _
    simp
  · rename_i hn
    constructor
    · intro hh
      exact ⟨hh, fun heq => hn (heq ▸ hh)⟩
    · exact fun hh => hh.1

theorem run_keeps_valid (ext : Extern) (s : ChannelImpl) (call : ApiCall) (h : TensorInfoPtr)
    (hne : call ≠ .del h) (hh : h ∈ s.m_valid_handle) :
    h ∈ (call.run ext s).state.m_valid_handle := by
  cases call
  case put value no_cache => exact (valid_put s value no_cache h).2 (Or.inl hh)
  case put_device data => exact (valid_put_device s data h).2 (Or.inl hh)
  case del handle =>
    refine (valid_del s handle h).2 ⟨hh, ?_⟩
    rintro rfl
    exact hne rfl
  case swap_in handle => simp only [ApiCall.run, swap_in]; split_ifs <;> exact hh
  case swap_out handle => simp only [ApiCall.run, swap_out]; split_ifs <;> exact hh
  case drop handle => simp only [ApiCall.run, drop]; split_ifs <;> exact hh
  case apply_op op inputs => exact (valid_apply_op ext s op inputs).1 h hh
  case get_value handle =>
    show h ∈ (get_value ext s handle).state.m_valid_handle
    rw [valid_get_value]; exact hh
  case get_shape handle =>
    show h ∈ (get_shape ext s handle).state.m_valid_handle
    rw [valid_get_shape]; exact hh
  case get_dtype handle => simp only [ApiCall.run, get_dtype, Outcome.erase]; split_ifs <;> exact hh
  case get_device handle =>
    simp only [ApiCall.run, get_device, Outcome.erase]; split_ifs <;> exact hh
  case get_dev_tensor handle =>
    show h ∈ (get_dev_tensor ext s handle).state.m_valid_handle
    rw [valid_get_dev_tensor]; exact hh
  case sync => show h ∈ (sync ext s).state.m_valid_handle; rw [valid_sync]; exact hh
  case close => show h ∈ (sync ext s).state.m_valid_handle; rw [valid_sync]; exact hh
  case config_async_level level =>
    simp only [ApiCall.run, config_async_level]; split_ifs <;> exact hh
  case get_async_level => exact hh
  case set_swap_flag flag => exact hh
  case set_drop_flag flag => exact hh
  case set_buffer_length length => exact hh

theorem run_no_new_valid (ext : Extern) (s : ChannelImpl) (call : ApiCall) (h : TensorInfoPtr)
    (hna : call.allocates = false) (hh : h ∈ (call.run ext s).state.m_valid_handle) :
    h ∈ s.m_valid_handle := by
  cases call
  case put value no_cache => simp [ApiCall.allocates] at hna
  case put_device data => simp [ApiCall.allocates] at hna
  case apply_op op inputs => simp [ApiCall.allocates] at hna
  case del handle => exact ((valid_del s handle h).1 hh).1
  case swap_in handle => simp only [ApiCall.run, swap_in] at hh; split_ifs at hh <;> exact hh
  case swap_out handle => simp only [ApiCall.run, swap_out] at hh; split_ifs at hh <;> exact hh
  case drop handle => simp only [ApiCall.run, drop] at hh; split_ifs at hh <;> exact hh
  case get_value handle =>
    change h ∈ (get_value ext s handle).state.m_valid_handle at hh
    rw [valid_get_value] at hh; exact hh
  case get_shape handle =>
    change h ∈ (get_shape ext s handle).state.m_valid_handle at hh
    rw [valid_get_shape] at hh; exact hh
  case get_dtype handle =>
    simp only [ApiCall.run, get_dtype, Outcome.erase] at hh; split_ifs at hh <;> exact hh
  case get_device handle =>
    simp only [ApiCall.run, get_device, Outcome.erase] at hh; split_ifs at hh <;> exact hh
  case get_dev_tensor handle =>
    change h ∈ (get_dev_tensor ext s handle).state.m_valid_handle at hh
    rw [valid_get_dev_tensor] at hh; exact hh
  case sync =>
    change h ∈ (sync ext s).state.m_valid_handle at hh
    rw [valid_sync] at hh; exact hh
  case close =>
    change h ∈ (sync ext s).state.m_valid_handle at hh
    rw [valid_sync] at hh; exact hh
  case config_async_level level =>
    simp only [ApiCall.run, config_async_level] at hh; split_ifs at hh <;> exact hh
  case get_async_level => exact hh
  case set_swap_flag flag => exact hh
  case set_drop_flag flag => exact hh
  case set_buffer_length length => exact hh

theorem run_api_keeps_valid (ext : Extern) (s : ChannelImpl) (calls : List ApiCall)
    (h : TensorInfoPtr) (hne : ∀ c ∈ calls, c ≠ .del h) (hh : h ∈ s.m_valid_handle) :
    h ∈ (run_api ext s calls).m_valid_handle := by
  induction calls generalizing s with
  | nil => exact hh
  | cons c cs ih =>
    exact ih _ (fun c' hc' => hne c' (List.mem_cons_of_mem _ hc'))
      (run_keeps_valid ext s c h (hne c (List.mem_cons_self _ _)) hh)

theorem run_api_no_new_valid (ext : Extern) (s : ChannelImpl) (calls : List ApiCall)
    (h : TensorInfoPtr) (hna : ∀ c ∈ calls, c.allocates = false) (hh : h ∉ s.m_valid_handle) :
    h ∉ (run_api ext s calls).m_valid_handle := by
  induction calls generalizing s with
  | nil => exact hh
  | cons c cs ih =>
    exact ih _ (fun c' hc' => hna c' (List.mem_cons_of_mem _ hc'))
      (fun hin => hh (run_no_new_valid ext s c h (hna c (List.mem_cons_self _ _)) hin))

/-- C8, as stated, fails: with the swap flag off, `swap_in` on a handle that is not valid
returns normally. -/
theorem gated_call_accepts_invalid_handle :
    ¬ ∀ (ext : Extern) (s : ChannelImpl) (call : ApiCall) (h : TensorInfoPtr),
      h ∈ call.handles → h ∉ s.m_valid_handle →
      ∃ h', (call.run ext s).status = .thrown (.invalid_handle h') := by
  intro H
  obtain ⟨h', hh⟩ := H Extern.sum
    (ChannelImpl.create id 3 2 ⟨false, false⟩ 1) (.swap_in 5) 5
    (by simp [ApiCall.handles]) (by simp [ChannelImpl.create])
  simp [ApiCall.run, swap_in, ChannelImpl.create] at hh

/-- C8, amended: an operation that takes a handle absent from the valid-handle set throws an
invalid-handle error for such a handle and leaves the channel as it was, nothing enqueued: `del`,
`apply_op`, `get_value`, `get_shape`, `get_dtype`, `get_device` and `get_dev_tensor` in every
configuration, `swap_in` and `swap_out` when SWAP is enabled, `drop` when DROP is enabled. With
its flag off, `swap_in`, `swap_out` or `drop` returns normally, the handle unchecked and nothing
enqueued. -/
theorem invalid_handle_rejected (ext : Extern) (s : ChannelImpl) (call : ApiCall)
    (h : TensorInfoPtr) (hmem : h ∈ call.handles) (hinv : h ∉ s.m_valid_handle) :
    (call.gated_off s = false →
      (∃ h' ∈ call.handles, h' ∉ s.m_valid_handle ∧
        (call.run ext s).status = .thrown (.invalid_handle h')) ∧
      (call.run ext s).state = s) ∧
    (call.gated_off s = true →
      (call.run ext s).status = .returned () ∧ (call.run ext s).state = s) := by
  cases call
  case apply_op op inputs =>
    refine ⟨fun _ => ?_, fun hg => by simp [ApiCall.gated_off] at hg⟩
    cases hf : inputs.find? (fun i => decide (i ∉ s.m_valid_handle)) with
    | none =>
      rw [List.find?_eq_none] at hf
      have := hf h hmem
      simp at this
      exact absurd this hinv
    | some i =>
      have hi1 : i ∈ inputs := List.mem_of_find?_eq_some hf
      have hi2 : i ∉ s.m_valid_handle := by
        have := List.find?_some hf
        simpa using this
      simp only [ApiCall.run, apply_op, hf, Outcome.erase]
      exact ⟨⟨i, hi1, hi2, rfl⟩, trivial⟩
  case del handle =>
    obtain rfl : h = handle := by simpa [ApiCall.handles] using hmem
    refine ⟨fun _ => ?_, fun hg => by simp [ApiCall.gated_off] at hg⟩
    simp only [ApiCall.run, del, hinv, if_false]
    exact ⟨⟨h, hmem, hinv, rfl⟩, trivial⟩
  case swap_in handle =>
    obtain rfl : h = handle := by simpa [ApiCall.handles] using hmem
    constructor
    · intro hg
      have hs : s.m_enable_evict.swap = true := by simpa [ApiCall.gated_off] using hg
      simp only [ApiCall.run, swap_in, hs, hinv, if_true, if_false]
      exact ⟨⟨h, hmem, hinv, rfl⟩, trivial⟩
    · intro hg
      have hs : s.m_enable_evict.swap = false := by simpa [ApiCall.gated_off] using hg
      simp [ApiCall.run, swap_in, hs]
  case swap_out handle =>
    obtain rfl : h = handle := by simpa [ApiCall.handles] using hmem
    constructor
    · intro hg
      have hs : s.m_enable_evict.swap = true := by simpa [ApiCall.gated_off] using hg
      simp only [ApiCall.run, swap_out, hs, hinv, if_true, if_false]
      exact ⟨⟨h, hmem, hinv, rfl⟩, trivial⟩
    · intro hg
      have hs : s.m_enable_evict.swap = false := by simpa [ApiCall.gated_off] using hg
      simp [ApiCall.run, swap_out, hs]
  case drop handle =>
    obtain rfl : h = handle := by simpa [ApiCall.handles] using hmem
    constructor
    · intro hg
      have hs : s.m_enable_evict.drop = true := by simpa [ApiCall.gated_off] using hg
      simp only [ApiCall.run, drop, hs, hinv, if_true, if_false]
      exact ⟨⟨h, hmem, hinv, rfl⟩, trivial⟩
    · intro hg
      have hs : s.m_enable_evict.drop = false := by simpa [ApiCall.gated_off] using hg
      simp [ApiCall.run, drop, hs]
  case get_value handle =>
    obtain rfl : h = handle := by simpa [ApiCall.handles] using hmem
    refine ⟨fun _ => ?_, fun hg => by simp [ApiCall.gated_off] at hg⟩
    simp only [ApiCall.run, get_value, hinv, not_false_eq_true, if_true, Outcome.erase]
    exact ⟨⟨h, hmem, hinv, rfl⟩, trivial⟩
  case get_shape handle =>
    obtain rfl : h = handle := by simpa [ApiCall.handles] using hmem
    refine ⟨fun _ => ?_, fun hg => by simp [ApiCall.gated_off] at hg⟩
    simp only [ApiCall.run, get_shape, hinv, not_false_eq_true, if_true, Outcome.erase]
    exact ⟨⟨h, hmem, hinv, rfl⟩, trivial⟩
  case get_dtype handle =>
    obtain rfl : h = handle := by simpa [ApiCall.handles] using hmem
    refine ⟨fun _ => ?_, fun hg => by simp [ApiCall.gated_off] at hg⟩
    simp only [ApiCall.run, get_dtype, hinv, not_false_eq_true, if_true, Outcome.erase]
    exact ⟨⟨h, hmem, hinv, rfl⟩, trivial⟩
  case get_device handle =>
    obtain rfl : h = handle := by simpa [ApiCall.handles] using hmem
    refine ⟨fun _ => ?_, fun hg => by simp [ApiCall.gated_off] at hg⟩
    simp only [ApiCall.run, get_device, hinv, not_false_eq_true, if_true, Outcome.erase]
    exact ⟨⟨h, hmem, hinv, rfl⟩, trivial⟩
  case get_dev_tensor handle =>
    obtain rfl : h = handle := by simpa [ApiCall.handles] using hmem
    refine ⟨fun _ => ?_, fun hg => by simp [ApiCall.gated_off] at hg⟩
    simp only [ApiCall.run, get_dev_tensor, hinv, not_false_eq_true, if_true, Outcome.erase]
    exact ⟨⟨h, hmem, hinv, rfl⟩, trivial⟩
  all_goals simp [ApiCall.handles] at hmem

/-- Witness of C8: `del` of the handle 5 on a new channel. -/
theorem invalid_handle_rejected_witness :
    ((ApiCall.del 5).gated_off (ChannelImpl.create id 3 2 ⟨false, false⟩ 1) = false →
      (∃ h' ∈ (ApiCall.del 5).handles,
        h' ∉ (ChannelImpl.create id 3 2 ⟨false, false⟩ 1).m_valid_handle ∧
        ((ApiCall.del 5).run Extern.sum (ChannelImpl.create id 3 2 ⟨false, false⟩ 1)).status =
          .thrown (.invalid_handle h')) ∧
      ((ApiCall.del 5).run Extern.sum (ChannelImpl.create id 3 2 ⟨false, false⟩ 1)).state =
        ChannelImpl.create id 3 2 ⟨false, false⟩ 1) ∧
    ((ApiCall.del 5).gated_off (ChannelImpl.create id 3 2 ⟨false, false⟩ 1) = true →
      ((ApiCall.del 5).run Extern.sum (ChannelImpl.create id 3 2 ⟨false, false⟩ 1)).status =
        .returned () ∧
      ((ApiCall.del 5).run Extern.sum (ChannelImpl.create id 3 2 ⟨false, false⟩ 1)).state =
        ChannelImpl.create id 3 2 ⟨false, false⟩ 1) :=
  invalid_handle_rejected Extern.sum (ChannelImpl.create id 3 2 ⟨false, false⟩ 1) (.del 5) 5
    (by simp [ApiCall.handles]) (by simp [ChannelImpl.create])

theorem del_of_not_valid (s : ChannelImpl) (h : TensorInfoPtr) (hn : h ∉ s.m_valid_handle) :
    del s h = { state := s, status := .thrown (.invalid_handle h) } := by
  simp only [del, hn, if_false]

/-- C9: every handle returned by `put` (host or device value) or by `apply_op` is valid on
return; a valid handle stays valid across every history of operations without a `del` on it;
`del(h)` on a valid handle returns, removes exactly `h` from the set and calls
`enqueue(Del{h})`; and after it, across every history without an allocating operation, another
`del(h)` throws the invalid-handle error and changes nothing. -/
theorem valid_handle_lifecycle (ext : Extern) (s : ChannelImpl) :
    (∀ value no_cache, ∃ h, (put s value no_cache).status = .returned h ∧
      h ∈ (put s value no_cache).state.m_valid_handle) ∧
    (∀ data, ∃ h, (put_device s data).status = .returned h ∧
      h ∈ (put_device s data).state.m_valid_handle) ∧
    (∀ op inputs outputs, (apply_op ext s op inputs).status = .returned outputs →
      ∀ h ∈ outputs, h ∈ (apply_op ext s op inputs).state.m_valid_handle) ∧
    (∀ h calls, h ∈ s.m_valid_handle → (∀ c ∈ calls, c ≠ .del h) →
      h ∈ (run_api ext s calls).m_valid_handle) ∧
    (∀ h, h ∈ s.m_valid_handle →
      (del s h).status = .returned () ∧
      h ∉ (del s h).state.m_valid_handle ∧
      (∀ h', h' ≠ h → (h' ∈ (del s h).state.m_valid_handle ↔ h' ∈ s.m_valid_handle)) ∧
      (del s h).state =
        ({ s with m_valid_handle := s.m_valid_handle.filter (fun x => x ≠ h) } :
          ChannelImpl).enqueue (.Del h)) ∧
    (∀ h calls, h ∈ s.m_valid_handle → (∀ c ∈ calls, c.allocates = false) →
      (del (run_api ext (del s h).state calls) h).status = .thrown (.invalid_handle h) ∧
      (del (run_api ext (del s h).state calls) h).state = run_api ext (del s h).state calls) := by
  refine ⟨?_, ?_, ?_, ?_, ?_, ?_⟩
  · intro value no_cache
    exact ⟨s.m_pool.addresses s.m_pool.allocated, rfl,
      (valid_put s value no_cache _).2 (Or.inr rfl)⟩
  · intro data
    exact ⟨s.m_pool.addresses s.m_pool.allocated, rfl,
      (valid_put_device s data _).2 (Or.inr rfl)⟩
  · intro op inputs outputs hret h hh
    exact (valid_apply_op ext s op inputs).2 outputs hret h hh
  · intro h calls hh hne
    exact run_api_keeps_valid ext s calls h hne hh
  · intro h hh
    refine ⟨?_, ?_, ?_, ?_⟩
    · simp only [del, hh, if_true]
    · intro hin
      exact ((valid_del s h h).1 hin).2 rfl
    · intro h' hne
      rw [valid_del]
      exact ⟨fun hx => hx.1, fun hx => ⟨hx, hne⟩⟩
    · simp only [del, hh, if_true]
  · intro h calls hh hna
    have hnot : h ∉ (run_api ext (del s h).state calls).m_valid_handle :=
      run_api_no_new_valid ext _ calls h hna (fun hin => ((valid_del s h h).1 hin).2 rfl)
    rw [del_of_not_valid _ _ hnot]
    exact ⟨rfl, rfl⟩

/-- Witness of C9: on a channel where `put` returned the handle 0, a `sync` and a `get_dtype`
later the handle is still valid. -/
theorem valid_handle_lifecycle_witness :
    0 ∈ (run_api Extern.sum
      (put (ChannelImpl.create id 3 2 ⟨false, false⟩ 1)
        ⟨7, ⟨1, ⟨true, 0⟩⟩, ⟨true, 0⟩⟩ false).state
      [.sync, .get_dtype 0]).m_valid_handle :=
  (valid_handle_lifecycle Extern.sum
    (put (ChannelImpl.create id 3 2 ⟨false, false⟩ 1)
      ⟨7, ⟨1, ⟨true, 0⟩⟩, ⟨true, 0⟩⟩ false).state).2.2.2.1 0 [.sync, .get_dtype 0]
    (by decide) (by decide)

/-! ## Eviction round trips -/

theorem do_swap_out_info (s : ChannelImpl) (dest : TensorInfoPtr) (t : Tensor)
    (hptr : (s.infos dest).ptr = some t) (hev : (s.infos dest).evict_type ≠ .DROP) :
    (do_swap_out s dest).infos dest =
      { s.infos dest with
        evict_type := .SWAP
        value_fetched := false
        h_value := some (HostTensorND.copy_from t.dev_tensor)
        ptr := none } := by
  unfold do_swap_out
  simp only [hev, if_false, hptr, ChannelImpl.set_info, if_true]

theorem do_swap_in_info (s : ChannelImpl) (dest : TensorInfoPtr) (hv : HostTensorND)
    (hptr : (s.infos dest).ptr = none) (hh : (s.infos dest).h_value = some hv) :
    (do_swap_in s dest).infos dest =
      { s.infos dest with
        value_fetched := (Tensor.make hv).value_fetched
        desc := { (s.infos dest).desc with
                  layout := (Tensor.make hv).layout, comp_node := (Tensor.make hv).comp_node }
        ptr := some (Tensor.make hv)
        evict_type := .NONE } := by
  unfold do_swap_in
  simp only [hptr, Option.isSome_none, Bool.false_eq_true, if_false, hh, produce_tensor,
    ChannelImpl.set_info, if_true]
  split <;> simp

theorem sever_keeps_ptr (s : ChannelImpl) (info : TensorInfoPtr) (must_drop : Bool) :
    ((sever s info must_drop).infos info).ptr = (s.infos info).ptr ∧
    ((s.infos info).evict_type = .NONE →
      ((sever s info must_drop).infos info).evict_type = .NONE) := by
  unfold sever
  dsimp only [ChannelImpl.set_info]
  split_ifs <;> simp_all

/-- C10: for an info with `ptr` present and not DROP-evicted, `do_swap_out` leaves `ptr`
absent, `evict_type == SWAP`, `value_fetched == false` and `h_value` holding the bytes of the
former `ptr`; a following `do_swap_in`, or a following `regenerate` (which does not throw),
restores a `ptr` with the bytes, layout and node of the original tensor and resets `evict_type`
to NONE. -/
theorem swap_round_trip (ext : Extern) (s : ChannelImpl) (dest : TensorInfoPtr) (t : Tensor)
    (hptr : (s.infos dest).ptr = some t) (hev : (s.infos dest).evict_type ≠ .DROP) :
    ((do_swap_out s dest).infos dest).ptr = none ∧
    ((do_swap_out s dest).infos dest).evict_type = .SWAP ∧
    ((do_swap_out s dest).infos dest).value_fetched = false ∧
    (∃ hv, ((do_swap_out s dest).infos dest).h_value = some hv ∧ hv.content = t.content) ∧
    (∃ t', ((do_swap_in (do_swap_out s dest) dest).infos dest).ptr = some t' ∧
      t'.content = t.content ∧ t'.layout = t.layout ∧ t'.comp_node = t.comp_node) ∧
    ((do_swap_in (do_swap_out s dest) dest).infos dest).evict_type = .NONE ∧
    (∀ fuel must_drop,
      (regenerate ext (fuel + 1) (do_swap_out s dest) dest must_drop).2 = none ∧
      (∃ t', ((regenerate ext (fuel + 1) (do_swap_out s dest) dest must_drop).1.infos dest).ptr =
          some t' ∧
        t'.content = t.content ∧ t'.layout = t.layout ∧ t'.comp_node = t.comp_node) ∧
      ((regenerate ext (fuel + 1) (do_swap_out s dest) dest must_drop).1.infos dest).evict_type =
        .NONE) := by
  have hout := do_swap_out_info s dest t hptr hev
  have hin := do_swap_in_info (do_swap_out s dest) dest (HostTensorND.copy_from t.dev_tensor)
    (by rw [hout]) (by rw [hout])
  refine ⟨by rw [hout], by rw [hout], by rw [hout],
    ⟨HostTensorND.copy_from t.dev_tensor, by rw [hout], rfl⟩,
    ⟨Tensor.make (HostTensorND.copy_from t.dev_tensor), by rw [hin], rfl, rfl, rfl⟩,
    by rw [hin], ?_⟩
  intro fuel must_drop
  have hreg : regenerate ext (fuel + 1) (do_swap_out s dest) dest must_drop =
      (sever (do_swap_in (do_swap_out s dest) dest) dest must_drop, none) := by
    unfold regenerate
    simp [hout]
  rw [hreg]
  obtain ⟨hs1, hs2⟩ := sever_keeps_ptr (do_swap_in (do_swap_out s dest) dest) dest must_drop
  refine ⟨rfl, ⟨Tensor.make (HostTensorND.copy_from t.dev_tensor), ?_, rfl, rfl, rfl⟩, ?_⟩
  · dsimp only
    rw [hs1, hin]
  · exact hs2 (by rw [hin])

/-- Witness of C10: a device tensor with bytes 42 behind the handle 0. -/
theorem swap_round_trip_witness :
    ((do_swap_out (put_device (ChannelImpl.create id 3 2 ⟨true, false⟩ 1)
        ⟨42, ⟨1, ⟨true, 0⟩⟩, ⟨true, 0⟩⟩).state 0).infos 0).ptr = none ∧
    ((do_swap_in (do_swap_out (put_device (ChannelImpl.create id 3 2 ⟨true, false⟩ 1)
        ⟨42, ⟨1, ⟨true, 0⟩⟩, ⟨true, 0⟩⟩).state 0) 0).infos 0).evict_type = .NONE :=
  ⟨(swap_round_trip Extern.sum
      (put_device (ChannelImpl.create id 3 2 ⟨true, false⟩ 1)
        ⟨42, ⟨1, ⟨true, 0⟩⟩, ⟨true, 0⟩⟩).state 0
      (Tensor.make_dev ⟨42, ⟨1, ⟨true, 0⟩⟩, ⟨true, 0⟩⟩) (by decide) (by decide)).1,
   by decide⟩

/-! ## Canonical values: the worker keeps its invariant -/

theorem set_info_at (s : ChannelImpl) (h : TensorInfoPtr) (info : TensorInfo) :
    (s.set_info h info).infos h = info := by
  simp [ChannelImpl.set_info]

theorem same_but_refl (s : ChannelImpl) (h : TensorInfoPtr) : SameBut s s h :=
  ⟨rfl, rfl, fun _ _ => rfl⟩

theorem sever_spec (s : ChannelImpl) (h : TensorInfoPtr) (must_drop : Bool) :
    SameBut s (sever s h must_drop) h ∧
    (sever s h must_drop).infos h =
      if must_drop = true ∧ (s.infos h).path.op.isSome = true then
        { s.infos h with
          path := { (s.infos h).path with op := none, inputs := [] }
          evict_type :=
            if (s.infos h).evict_type = .DROP then .NONE else (s.infos h).evict_type }
      else s.infos h := by
  unfold sever
  by_cases hmd : must_drop = true
  · by_cases hop : (s.infos h).path.op.isSome = true
    · by_cases hev : (s.infos h).evict_type = .DROP
      · simp only [hmd, hop, if_true, ChannelImpl.set_info, hev, and_self]
        exact ⟨⟨rfl, rfl, fun q hq => by simp [hq]⟩, trivial⟩
      · simp only [hmd, hop, if_true, ChannelImpl.set_info, hev, and_self, if_false]
        refine ⟨⟨rfl, rfl, fun q hq => by simp [hq]⟩, ?_⟩
        simp
    · simp only [hmd, hop, if_true, Bool.false_eq_true, if_false, and_false]
      exact ⟨same_but_refl s h, trivial⟩
  · simp only [hmd, Bool.false_eq_true, if_false, false_and]
    exact ⟨same_but_refl s h, trivial⟩

theorem all_isSome_map_some (ts : List Tensor) :
    (ts.map some).all Option.isSome = true := by
  induction ts with
  | nil => rfl
  | cons t ts ih => simp

theorem filterMap_id_map_some (ts : List Tensor) : (ts.map some).filterMap id = ts := by
  induction ts with
  | nil => rfl
  | cons t ts ih => simp

theorem alloc_outputs_level (descs : List LogicalTensorDesc) :
    ∀ (x : ChannelImpl) (outs : List TensorInfoPtr) (v : Bool),
      (alloc_outputs descs x outs v).1.m_async_level = x.m_async_level ∧
      (alloc_outputs descs x outs v).1.m_enable_evict = x.m_enable_evict ∧
      (alloc_outputs descs x outs v).1.m_waitee = x.m_waitee := by
  induction descs with
  | nil => intro x outs v; exact ⟨rfl, rfl, rfl⟩
  | cons d rest ih =>
    intro x outs v
    simp only [alloc_outputs]
    exact ih (insert_valid ((alloc x).1.set_info (alloc x).2
      { (alloc x).1.infos (alloc x).2 with desc := d }) (alloc x).2)
      (outs ++ [(alloc x).2]) (if d.layout.ndim = 0 then false else v)

theorem apply_op_record_level (ext : Extern) (x : ChannelImpl) (op : OpDef)
    (inputs : List TensorInfoPtr) :
    (apply_op_record ext x op inputs).1.m_async_level = x.m_async_level ∧
    (apply_op_record ext x op inputs).1.m_enable_evict = x.m_enable_evict ∧
    (apply_op_record ext x op inputs).1.m_waitee = x.m_waitee := by
  unfold apply_op_record
  dsimp only
  obtain ⟨a1, a2, a3⟩ := alloc_outputs_level
    (ext.infer_output_attrs_fallible op (inputs.map (fun i => (x.infos i).desc))).1 x [] true
  split
  · obtain ⟨_, _, _, _, f5, f6, _, f8⟩ := frame_record_paths op inputs
      (alloc_outputs (ext.infer_output_attrs_fallible op
        (inputs.map (fun i => (x.infos i).desc))).1 x [] true).2.1
      (alloc_outputs (ext.infer_output_attrs_fallible op
        (inputs.map (fun i => (x.infos i).desc))).1 x [] true).2.1
      (alloc_outputs (ext.infer_output_attrs_fallible op
        (inputs.map (fun i => (x.infos i).desc))).1 x [] true).1
    exact ⟨f5.trans a1, f6.trans a2, f8.trans a3⟩
  · exact ⟨a1, a2, a3⟩

/-! ## The invariant of the worker on another registry -/

/-- C18: `check_worker_exc_unsafe` raises exactly when `m_worker_exc` is set, it raises the
stored exception and leaves `m_worker_exc` empty and every other member as it was, so a check
that follows at once does not raise; with `m_worker_exc` empty the check changes nothing. -/
theorem worker_exception_observed_once (s : ChannelImpl) :
    (( check_worker_exc_unsafe s).2.isSome ↔ s.m_worker_exc.isSome) ∧
    ( check_worker_exc_unsafe s).2 = s.m_worker_exc ∧
    ( check_worker_exc_unsafe s).1 = { s with m_worker_exc := none } ∧
    ( check_worker_exc_unsafe ( check_worker_exc_unsafe s).1).2 = none ∧
    ( check_worker_exc_unsafe ( check_worker_exc_unsafe s).1).1 = ( check_worker_exc_unsafe s).1 ∧
    (s.m_worker_exc = none → check_worker_exc_unsafe s = (s, none)) := by
  unfold check_worker_exc_unsafe
  cases h : s.m_worker_exc with
  | none =>
    cases s
    simp_all
  | some e => simp

/-- Witness of C18: a channel whose worker has stored nothing. -/
theorem worker_exception_observed_once_witness :
    check_worker_exc_unsafe (ChannelImpl.create id 3 2 ⟨true, true⟩ 1) =
      (ChannelImpl.create id 3 2 ⟨true, true⟩ 1, none) :=
  (worker_exception_observed_once (ChannelImpl.create id 3 2 ⟨true, true⟩ 1)).2.2.2.2.2 rfl

/-! ## Eviction requests that are skipped -/

/-- C20: `do_swap_out` on a DROP-evicted info, `do_drop` on a SWAP-evicted info, `do_swap_in`
on an info without `ptr` and with empty `h_value`, `do_drop` on an info whose
`recompute_times` has reached `m_max_recompute_time` and `do_drop` on an info with null
`path.op` leave the whole channel, hence every field of every `TensorInfo`, as it was; the
worker executing the command stores no exception. -/
theorem eviction_conflicts_skipped (ext : Extern) (fuel : Nat) (s : ChannelImpl)
    (dest : TensorInfoPtr) :
    ((s.infos dest).evict_type = .DROP →
      do_swap_out s dest = s ∧ process_one_task ext fuel s (.SwapOut dest) = s) ∧
    ((s.infos dest).evict_type = .SWAP →
      do_drop s dest = s ∧ process_one_task ext fuel s (.Drop dest) = s) ∧
    ((s.infos dest).ptr = none → (s.infos dest).h_value = none →
      do_swap_in s dest = s ∧ process_one_task ext fuel s (.SwapIn dest) = s) ∧
    ((s.infos dest).recompute_times ≥ s.m_max_recompute_time →
      do_drop s dest = s ∧ process_one_task ext fuel s (.Drop dest) = s) ∧
    ((s.infos dest).path.op = none →
      do_drop s dest = s ∧ process_one_task ext fuel s (.Drop dest) = s) := by
  refine ⟨fun h => ?_, fun h => ?_, fun h1 h2 => ?_, fun h => ?_, fun h => ?_⟩
  · have : do_swap_out s dest = s := by unfold do_swap_out; simp [h]
    exact ⟨this, by simp [process_one_task, run_command, this]⟩
  · have : do_drop s dest = s := by unfold do_drop; simp [h]
    exact ⟨this, by simp [process_one_task, run_command, this]⟩
  · have : do_swap_in s dest = s := by unfold do_swap_in; simp [h1, h2]
    exact ⟨this, by simp [process_one_task, run_command, this]⟩
  · have : do_drop s dest = s := by
      unfold do_drop
      dsimp only
      split_ifs <;> rfl
    exact ⟨this, by simp [process_one_task, run_command, this]⟩
  · have : do_drop s dest = s := by unfold do_drop; simp [h]
    exact ⟨this, by simp [process_one_task, run_command, this]⟩

/-- Witness of C20: a fresh record has no `ptr`, an empty `h_value` and a null `path.op`; the
same record marked DROP or SWAP refuses the other eviction. -/
theorem eviction_conflicts_skipped_witness :
    do_swap_in (ChannelImpl.create id 3 2 ⟨true, true⟩ 1) 0 =
      ChannelImpl.create id 3 2 ⟨true, true⟩ 1 ∧
    do_drop (ChannelImpl.create id 3 2 ⟨true, true⟩ 1) 0 =
      ChannelImpl.create id 3 2 ⟨true, true⟩ 1 ∧
    do_swap_out ((ChannelImpl.create id 3 2 ⟨true, true⟩ 1).set_info 0
        { TensorInfo.zeroed with evict_type := .DROP }) 0 =
      (ChannelImpl.create id 3 2 ⟨true, true⟩ 1).set_info 0
        { TensorInfo.zeroed with evict_type := .DROP } ∧
    do_drop ((ChannelImpl.create id 3 2 ⟨true, true⟩ 1).set_info 0
        { TensorInfo.zeroed with evict_type := .SWAP }) 0 =
      (ChannelImpl.create id 3 2 ⟨true, true⟩ 1).set_info 0
        { TensorInfo.zeroed with evict_type := .SWAP } ∧
    do_drop (ChannelImpl.create id 3 2 ⟨true, true⟩ 0) 0 =
      ChannelImpl.create id 3 2 ⟨true, true⟩ 0 :=
  ⟨((eviction_conflicts_skipped Extern.sum 1 (ChannelImpl.create id 3 2 ⟨true, true⟩ 1)
      0).2.2.1 (by decide) (by decide)).1,
   ((eviction_conflicts_skipped Extern.sum 1 (ChannelImpl.create id 3 2 ⟨true, true⟩ 1)
      0).2.2.2.2 (by decide)).1,
   ((eviction_conflicts_skipped Extern.sum 1
      ((ChannelImpl.create id 3 2 ⟨true, true⟩ 1).set_info 0
        { TensorInfo.zeroed with evict_type := .DROP }) 0).1 (by decide)).1,
   ((eviction_conflicts_skipped Extern.sum 1
      ((ChannelImpl.create id 3 2 ⟨true, true⟩ 1).set_info 0
        { TensorInfo.zeroed with evict_type := .SWAP }) 0).2.1 (by decide)).1,
   ((eviction_conflicts_skipped Extern.sum 1 (ChannelImpl.create id 3 2 ⟨true, true⟩ 0)
      0).2.2.2.1 (by decide)).1⟩

/-! ## The async level -/

theorem alloc_outputs_validated (descs : List LogicalTensorDesc) (s : ChannelImpl)
    (outs : List TensorInfoPtr) (v : Bool) :
    (alloc_outputs descs s outs v).2.2 =
      (v && descs.all (fun d => decide (d.layout.ndim ≠ 0))) := by
  induction descs generalizing s outs v with
  | nil => simp [alloc_outputs]
  | cons d rest ih =>
    unfold alloc_outputs
    dsimp only
    rw [ih]
    by_cases hd : d.layout.ndim = 0
    · simp [hd]
    · simp [hd]

theorem apply_op_checked (ext : Extern) (s : ChannelImpl) (op : OpDef)
    (inputs : List TensorInfoPtr) (hv : ∀ i ∈ inputs, i ∈ s.m_valid_handle)
    (hinv : inputs.any (fun i => (s.infos i).invalid) = false) :
    apply_op ext s op inputs =
      match (apply_op_record ext s op inputs).2.2.2 with
      | some e => { state := (apply_op_record ext s op inputs).1, status := .thrown e }
      | none =>
        apply_op_sync ext
          ((apply_op_record ext s op inputs).1.enqueue
            (.ApplyOp op inputs (apply_op_record ext s op inputs).2.1 []))
          (apply_op_record ext s op inputs).2.1 (apply_op_record ext s op inputs).2.2.1 := by
  unfold apply_op
  have hf : inputs.find? (fun i => decide (i ∉ s.m_valid_handle)) = none := by
    rw [List.find?_eq_none]
    intro i hi
    simpa using hv i hi
  rw [hf]
  dsimp only
  rw [if_neg (by rw [hinv]; simp)]
  unfold apply_op_record
  dsimp only
  generalize (if (alloc_outputs (ext.infer_output_attrs_fallible op
      (inputs.map (fun i => (s.infos i).desc))).1 s [] true).1.m_enable_evict.drop = true
    then record_paths op inputs
      (alloc_outputs (ext.infer_output_attrs_fallible op
        (inputs.map (fun i => (s.infos i).desc))).1 s [] true).2.1
      (alloc_outputs (ext.infer_output_attrs_fallible op
        (inputs.map (fun i => (s.infos i).desc))).1 s [] true).2.1
      (alloc_outputs (ext.infer_output_attrs_fallible op
        (inputs.map (fun i => (s.infos i).desc))).1 s [] true).1
    else ((alloc_outputs (ext.infer_output_attrs_fallible op
        (inputs.map (fun i => (s.infos i).desc))).1 s [] true).1, none)) = r
  obtain ⟨s2, e⟩ := r
  cases e <;> rfl

/-- C19, counterexample: at async level 1 an `apply_op` whose inference reported validated
attributes with an unknown shape calls `sync`: the buffer is empty and the output is produced
when it returns. The same call with a known shape leaves its command in the buffer. -/
theorem validated_apply_op_syncs_at_level_one :
    (Extern.unshaped.infer_output_attrs_fallible ⟨.Other 0, 7⟩
      [((put_device (ChannelImpl.create id 3 1 ⟨false, false⟩ 1)
          ⟨42, ⟨1, ⟨true, 0⟩⟩, ⟨true, 0⟩⟩).state.infos 0).desc]).2 = true ∧
    (put_device (ChannelImpl.create id 3 1 ⟨false, false⟩ 1)
      ⟨42, ⟨1, ⟨true, 0⟩⟩, ⟨true, 0⟩⟩).state.m_async_level = 1 ∧
    (apply_op Extern.unshaped (put_device (ChannelImpl.create id 3 1 ⟨false, false⟩ 1)
      ⟨42, ⟨1, ⟨true, 0⟩⟩, ⟨true, 0⟩⟩).state ⟨.Other 0, 7⟩ [0]).state.m_buffer.m_commands = [] ∧
    ((apply_op Extern.unshaped (put_device (ChannelImpl.create id 3 1 ⟨false, false⟩ 1)
      ⟨42, ⟨1, ⟨true, 0⟩⟩, ⟨true, 0⟩⟩).state ⟨.Other 0, 7⟩ [0]).state.infos 1).ptr.isSome
      = true ∧
    (apply_op Extern.sum (put_device (ChannelImpl.create id 3 1 ⟨false, false⟩ 1)
      ⟨42, ⟨1, ⟨true, 0⟩⟩, ⟨true, 0⟩⟩).state ⟨.Other 0, 7⟩ [0]).state.m_buffer.m_commands =
      [.ApplyOp ⟨.Other 0, 7⟩ [0] [1] []] ∧
    ((apply_op Extern.sum (put_device (ChannelImpl.create id 3 1 ⟨false, false⟩ 1)
      ⟨42, ⟨1, ⟨true, 0⟩⟩, ⟨true, 0⟩⟩).state ⟨.Other 0, 7⟩ [0]).state.infos 1).ptr = none := by
  decide

/-- C19, amended: `config_async_level` accepts exactly the levels 0, 1 and 2, and any other
value fails and leaves the channel as it was. After enqueuing its command, `apply_op` calls
`sync` at level 0 always, at level 1 exactly when the inference reported not validated or some
inferred output has an unknown shape (`ndim == 0`), and at level 2 never. -/
theorem async_level_rule (ext : Extern) (s : ChannelImpl) (level : Int) (op : OpDef)
    (inputs : List TensorInfoPtr) :
    ((level = 0 ∨ level = 1 ∨ level = 2) →
      (config_async_level s level).is_returned = true ∧
      (config_async_level s level).state = { s with m_async_level := level }) ∧
    (¬ (level = 0 ∨ level = 1 ∨ level = 2) →
      (config_async_level s level).exception = some .bad_async_level ∧
      (config_async_level s level).state = s) ∧
    ((∀ i ∈ inputs, i ∈ s.m_valid_handle) →
      inputs.any (fun i => (s.infos i).invalid) = false →
      (apply_op_record ext s op inputs).2.2.2 = none →
      ((apply_op_record ext s op inputs).2.2.1 = true ↔
        ((ext.infer_output_attrs_fallible op (inputs.map (fun i => (s.infos i).desc))).2 = true ∧
          ∀ d ∈ (ext.infer_output_attrs_fallible op
            (inputs.map (fun i => (s.infos i).desc))).1, d.layout.ndim ≠ 0)) ∧
      (s.m_async_level = 0 →
        (apply_op ext s op inputs).state =
          (sync ext ((apply_op_record ext s op inputs).1.enqueue
            (.ApplyOp op inputs (apply_op_record ext s op inputs).2.1 []))).state) ∧
      (s.m_async_level = 1 → (apply_op_record ext s op inputs).2.2.1 = false →
        (apply_op ext s op inputs).state =
          (sync ext ((apply_op_record ext s op inputs).1.enqueue
            (.ApplyOp op inputs (apply_op_record ext s op inputs).2.1 []))).state) ∧
      (s.m_async_level = 1 → (apply_op_record ext s op inputs).2.2.1 = true →
        (apply_op ext s op inputs).state =
          (apply_op_record ext s op inputs).1.enqueue
            (.ApplyOp op inputs (apply_op_record ext s op inputs).2.1 []) ∧
        (apply_op ext s op inputs).is_returned = true) ∧
      (s.m_async_level = 2 →
        (apply_op ext s op inputs).state =
          (apply_op_record ext s op inputs).1.enqueue
            (.ApplyOp op inputs (apply_op_record ext s op inputs).2.1 []) ∧
        (apply_op ext s op inputs).is_returned = true)) := by
  refine ⟨fun h => ?_, fun h => ?_, fun hv hinv hrec => ?_⟩
  · have : level ≤ 2 ∧ level ≥ 0 := by omega
    unfold config_async_level
    rw [if_pos this]
    exact ⟨rfl, rfl⟩
  · have : ¬ (level ≤ 2 ∧ level ≥ 0) := by omega
    unfold config_async_level
    rw [if_neg this]
    exact ⟨rfl, rfl⟩
  · have hlev : ((apply_op_record ext s op inputs).1.enqueue
        (.ApplyOp op inputs (apply_op_record ext s op inputs).2.1 [])).m_async_level =
        s.m_async_level := (apply_op_record_level ext s op inputs).1
    rw [apply_op_checked ext s op inputs hv hinv, hrec]
    dsimp only
    refine ⟨?_, fun h0 => ?_, fun h1 hf => ?_, fun h1 ht => ?_, fun h2 => ?_⟩
    · unfold apply_op_record
      dsimp only
      rw [alloc_outputs_validated]
      simp
    · unfold apply_op_sync
      rw [if_neg (by rw [hlev, h0]; simp), if_pos (by rw [hlev, h0])]
      split
      · split <;> rfl
      · rfl
      · rfl
    · unfold apply_op_sync
      rw [if_pos (by rw [hlev, h1, hf]; simp)]
      split <;> rfl
    · unfold apply_op_sync
      rw [if_neg (by rw [ht]; simp), if_neg (by rw [hlev, h1]; simp)]
      exact ⟨rfl, rfl⟩
    · unfold apply_op_sync
      rw [if_neg (by rw [hlev, h2]; simp), if_neg (by rw [hlev, h2]; simp)]
      exact ⟨rfl, rfl⟩

/-- Witness of C19: level 1 is accepted and level 3 refused; at level 1 the call whose
inference reported validated attributes with an unknown shape is followed by `sync`. -/
theorem async_level_rule_witness :
    (config_async_level (ChannelImpl.create id 3 2 ⟨false, false⟩ 1) 1).is_returned = true ∧
    (config_async_level (ChannelImpl.create id 3 2 ⟨false, false⟩ 1) 3).exception =
      some .bad_async_level ∧
    (apply_op Extern.unshaped (put_device (ChannelImpl.create id 3 1 ⟨false, false⟩ 1)
      ⟨42, ⟨1, ⟨true, 0⟩⟩, ⟨true, 0⟩⟩).state ⟨.Other 0, 7⟩ [0]).state =
      (sync Extern.unshaped ((apply_op_record Extern.unshaped
        (put_device (ChannelImpl.create id 3 1 ⟨false, false⟩ 1)
          ⟨42, ⟨1, ⟨true, 0⟩⟩, ⟨true, 0⟩⟩).state ⟨.Other 0, 7⟩ [0]).1.enqueue
        (.ApplyOp ⟨.Other 0, 7⟩ [0] (apply_op_record Extern.unshaped
          (put_device (ChannelImpl.create id 3 1 ⟨false, false⟩ 1)
            ⟨42, ⟨1, ⟨true, 0⟩⟩, ⟨true, 0⟩⟩).state ⟨.Other 0, 7⟩ [0]).2.1 []))).state :=
  ⟨((async_level_rule Extern.sum (ChannelImpl.create id 3 2 ⟨false, false⟩ 1) 1
      ⟨.Other 0, 7⟩ []).1 (by decide)).1,
   ((async_level_rule Extern.sum (ChannelImpl.create id 3 2 ⟨false, false⟩ 1) 3
      ⟨.Other 0, 7⟩ []).2.1 (by decide)).1,
   ((async_level_rule Extern.unshaped (put_device (ChannelImpl.create id 3 1 ⟨false, false⟩ 1)
      ⟨42, ⟨1, ⟨true, 0⟩⟩, ⟨true, 0⟩⟩).state 1 ⟨.Other 0, 7⟩ [0]).2.2
      (by decide) (by decide) (by decide)).2.2.1 (by decide) (by decide)⟩

/-! ## The waiter after a blocking query -/

theorem waitee_cv_wait (ext : Extern) (flag : ChannelImpl → Bool) (tasks : List Command)
    (s : ChannelImpl) : (cv_wait ext flag tasks s).state.m_waitee = s.m_waitee := by
  induction tasks generalizing s with
  | nil =>
    unfold cv_wait check_worker_exc_unsafe
    cases s.m_worker_exc with
    | none => dsimp only; split <;> rfl
    | some e => rfl
  | cons t rest ih =>
    unfold cv_wait check_worker_exc_unsafe
    cases s.m_worker_exc with
    | none =>
      dsimp only
      split
      · rfl
      · rw [ih]
        exact (frame_process_one_task ext _ _ t).2.2.2.2.2.2.2
    | some e => rfl

theorem waitee_wait_for_value (ext : Extern) (s : ChannelImpl) (handle : TensorInfoPtr) :
    ((wait_for_value ext s handle).is_returned = true →
      (wait_for_value ext s handle).state.m_waitee = none) ∧
    (∀ e, (wait_for_value ext s handle).exception = some e → (s.infos handle).invalid = false →
      (wait_for_value ext s handle).state.m_waitee = some handle) := by
  unfold wait_for_value
  by_cases hinv : (s.infos handle).invalid = true
  · rw [if_pos hinv]
    exact ⟨(fun h => by cases h), (fun e _ h => by rw [hinv] at h; cases h)⟩
  · rw [if_neg hinv]
    dsimp only
    have hw := waitee_cv_wait ext (fun c => (c.infos handle).value_fetched)
      (({ s with m_waitee := some handle } : ChannelImpl).enqueue (.GetValue handle)).m_worker
      (({ s with m_waitee := some handle } : ChannelImpl).enqueue (.GetValue handle))
    split
    · exact ⟨fun _ => rfl, (fun e h => by cases h)⟩
    · exact ⟨(fun h => by cases h), fun e _ _ => hw⟩
    · exact ⟨(fun h => by cases h), (fun e h => by cases h)⟩

theorem waitee_wait_for_ptr (ext : Extern) (s : ChannelImpl) (handle : TensorInfoPtr) :
    ((wait_for_ptr ext s handle).is_returned = true →
      (wait_for_ptr ext s handle).state.m_waitee = none) ∧
    (∀ e, (wait_for_ptr ext s handle).exception = some e →
      (wait_for_ptr ext s handle).state.m_waitee = some handle) := by
  unfold wait_for_ptr
  dsimp only
  have hw := waitee_cv_wait ext (fun c => (c.infos handle).ptr.isSome)
    (({ s with m_waitee := some handle } : ChannelImpl).enqueue (.Flush (some handle))).m_worker
    (({ s with m_waitee := some handle } : ChannelImpl).enqueue (.Flush (some handle)))
  split
  · exact ⟨fun _ => rfl, (fun e h => by cases h)⟩
  · exact ⟨(fun h => by cases h), fun e _ => hw⟩
  · exact ⟨(fun h => by cases h), (fun e h => by cases h)⟩

/-- C16, the code at a failing input: the operator of handle 1 throws on the worker;
`get_value` of handle 1 raises the stored exception from inside its wait, so the statement
`m_waitee = nullptr` after the wait is not reached and `m_waitee` stays at handle 1; the next
`get_value`, of the valid handle 0, fails its own assertion `m_waitee == null` instead of
proceeding. -/
theorem waitee_left_set_by_worker_exception :
    (get_value Extern.failing
      (apply_op Extern.failing (put_device (ChannelImpl.create id 3 2 ⟨false, false⟩ 1)
        ⟨42, ⟨1, ⟨true, 0⟩⟩, ⟨true, 0⟩⟩).state ⟨.Other 0, 7⟩ [0]).state 1).exception =
      some (.op_failed ⟨.Other 0, 7⟩) ∧
    (get_value Extern.failing
      (apply_op Extern.failing (put_device (ChannelImpl.create id 3 2 ⟨false, false⟩ 1)
        ⟨42, ⟨1, ⟨true, 0⟩⟩, ⟨true, 0⟩⟩).state ⟨.Other 0, 7⟩ [0]).state 1).state.m_waitee =
      some 1 ∧
    0 ∈ (get_value Extern.failing
      (apply_op Extern.failing (put_device (ChannelImpl.create id 3 2 ⟨false, false⟩ 1)
        ⟨42, ⟨1, ⟨true, 0⟩⟩, ⟨true, 0⟩⟩).state ⟨.Other 0, 7⟩ [0]).state 1).state.m_valid_handle ∧
    (get_value Extern.failing
      (get_value Extern.failing
        (apply_op Extern.failing (put_device (ChannelImpl.create id 3 2 ⟨false, false⟩ 1)
          ⟨42, ⟨1, ⟨true, 0⟩⟩, ⟨true, 0⟩⟩).state ⟨.Other 0, 7⟩ [0]).state 1).state 0).exception =
      some .waitee_not_null := by
  decide

/-- The extent of the missed reset: a blocking query (`get_value`, `get_shape`,
`get_dev_tensor`) that returns leaves `m_waitee == null`; a query whose wait raises the stored
worker exception leaves `m_waitee` pointing at its info, as `get_value` does when the exception
is already stored at the call; and while `m_waitee` is set, every blocking query on a valid
handle fails its assertion `m_waitee == null`. -/
theorem waitee_after_blocking_query (ext : Extern) (s : ChannelImpl) (handle : TensorInfoPtr) :
    ((get_value ext s handle).is_returned = true →
      (get_value ext s handle).state.m_waitee = none) ∧
    ((get_dev_tensor ext s handle).is_returned = true →
      (get_dev_tensor ext s handle).state.m_waitee = none) ∧
    ((get_shape ext s handle).is_returned = true → s.m_waitee = none →
      (get_shape ext s handle).state.m_waitee = none) ∧
    (∀ e, (wait_for_value ext s handle).exception = some e → (s.infos handle).invalid = false →
      (wait_for_value ext s handle).state.m_waitee = some handle) ∧
    (∀ e, (wait_for_ptr ext s handle).exception = some e →
      (wait_for_ptr ext s handle).state.m_waitee = some handle) ∧
    (∀ e, s.m_worker_exc = some e → handle ∈ s.m_valid_handle → s.m_waitee = none →
      (s.infos handle).value_fetched = false → (s.infos handle).invalid = false →
      (get_value ext s handle).exception = some e ∧
      (get_value ext s handle).state.m_waitee = some handle ∧
      (get_value ext s handle).state.m_worker_exc = none) ∧
    (∀ e, s.m_worker_exc = some e → handle ∈ s.m_valid_handle → s.m_waitee = none →
      (get_dev_tensor ext s handle).exception = some e ∧
      (get_dev_tensor ext s handle).state.m_waitee = some handle ∧
      (get_dev_tensor ext s handle).state.m_worker_exc = none) ∧
    (s.m_waitee.isSome = true → handle ∈ s.m_valid_handle →
      (get_value ext s handle).exception = some .waitee_not_null ∧
      (get_dev_tensor ext s handle).exception = some .waitee_not_null ∧
      ((s.infos handle).desc.layout.ndim = 0 →
        (get_shape ext s handle).exception = some .waitee_not_null)) := by
  refine ⟨?_, ?_, ?_, (waitee_wait_for_value ext s handle).2,
    (waitee_wait_for_ptr ext s handle).2, ?_, ?_, ?_⟩
  · unfold get_value
    split
    · intro h; cases h
    · rename_i hv
      split
      · intro h; cases h
      · rename_i hw
        dsimp only
        have hwait : ∀ o : Outcome Unit,
            o = (if ¬ (s.infos handle).value_fetched = true then wait_for_value ext s handle
              else { state := s, status := .returned () }) →
            o.is_returned = true → o.state.m_waitee = none := by
          intro o ho hr
          subst ho
          split at hr
          · rename_i hvf
            rw [if_pos hvf]
            exact (waitee_wait_for_value ext s handle).1 hr
          · rename_i hvf
            rw [if_neg hvf]
            simpa using hw
        generalize (if ¬ (s.infos handle).value_fetched = true then wait_for_value ext s handle
          else ({ state := s, status := .returned () } : Outcome Unit)) = o at hwait
        have ho := hwait o rfl
        obtain ⟨st, status⟩ := o
        cases status with
        | returned v =>
          dsimp only
          intro _
          have := ho rfl
          split
          · exact this
          · split <;> exact this
        | thrown e => intro h; cases h
        | blocked => intro h; cases h
  · unfold get_dev_tensor
    split
    · intro h; cases h
    · split
      · intro h; cases h
      · dsimp only
        have ho := (waitee_wait_for_ptr ext s handle).1
        generalize wait_for_ptr ext s handle = o at ho
        obtain ⟨st, status⟩ := o
        cases status with
        | returned v =>
          dsimp only
          intro _
          have := ho rfl
          split <;> exact this
        | thrown e => intro h; cases h
        | blocked => intro h; cases h
  · unfold get_shape
    split
    · intro h; cases h
    · split
      · intro _ h; exact h
      · split
        · intro h; cases h
        · dsimp only
          have ho := (waitee_wait_for_ptr ext s handle).1
          generalize wait_for_ptr ext s handle = o at ho
          obtain ⟨st, status⟩ := o
          cases status with
          | returned v =>
            dsimp only
            intro _ _
            have := ho rfl
            split
            · exact this
            · split <;> exact this
          | thrown e => intro h; cases h
          | blocked => intro h; cases h
  · intro e he hv hw hvf hinv
    have hwait : wait_for_value ext s handle =
        { state := { ({ s with m_waitee := some handle } : ChannelImpl).enqueue
            (.GetValue handle) with m_worker_exc := none }, status := .thrown e } := by
      unfold wait_for_value
      rw [if_neg (by rw [hinv]; simp)]
      dsimp only
      have hc : cv_wait ext (fun c => (c.infos handle).value_fetched)
          (({ s with m_waitee := some handle } : ChannelImpl).enqueue (.GetValue handle)).m_worker
          (({ s with m_waitee := some handle } : ChannelImpl).enqueue (.GetValue handle)) =
          { state := { ({ s with m_waitee := some handle } : ChannelImpl).enqueue
            (.GetValue handle) with m_worker_exc := none }, status := .thrown e } := by
        have hexc : (({ s with m_waitee := some handle } : ChannelImpl).enqueue
            (.GetValue handle)).m_worker_exc = some e := he
        generalize (({ s with m_waitee := some handle } : ChannelImpl).enqueue
          (.GetValue handle)) = x at hexc
        cases hx : x.m_worker with
        | nil =>
          unfold cv_wait check_worker_exc_unsafe
          simp only [hexc]
          cases x
          simp_all
        | cons t rest =>
          unfold cv_wait check_worker_exc_unsafe
          simp only [hexc]
          cases x
          simp_all
      rw [hc]
    unfold get_value
    rw [if_neg (by simpa using hv), if_neg (by rw [hw]; simp)]
    dsimp only
    rw [if_pos (by rw [hvf]; simp), hwait]
    exact ⟨rfl, rfl, rfl⟩
  · intro e he hv hw
    have hwait : wait_for_ptr ext s handle =
        { state := { ({ s with m_waitee := some handle } : ChannelImpl).enqueue
            (.Flush (some handle)) with m_worker_exc := none }, status := .thrown e } := by
      unfold wait_for_ptr
      dsimp only
      have hc : cv_wait ext (fun c => (c.infos handle).ptr.isSome)
          (({ s with m_waitee := some handle } : ChannelImpl).enqueue
            (.Flush (some handle))).m_worker
          (({ s with m_waitee := some handle } : ChannelImpl).enqueue (.Flush (some handle))) =
          { state := { ({ s with m_waitee := some handle } : ChannelImpl).enqueue
            (.Flush (some handle)) with m_worker_exc := none }, status := .thrown e } := by
        have hexc : (({ s with m_waitee := some handle } : ChannelImpl).enqueue
            (.Flush (some handle))).m_worker_exc = some e := he
        generalize (({ s with m_waitee := some handle } : ChannelImpl).enqueue
          (.Flush (some handle))) = x at hexc
        cases hx : x.m_worker with
        | nil =>
          unfold cv_wait check_worker_exc_unsafe
          simp only [hexc]
          cases x
          simp_all
        | cons t rest =>
          unfold cv_wait check_worker_exc_unsafe
          simp only [hexc]
          cases x
          simp_all
      rw [hc]
    unfold get_dev_tensor
    rw [if_neg (by simpa using hv), if_neg (by rw [hw]; simp)]
    dsimp only
    rw [hwait]
    exact ⟨rfl, rfl, rfl⟩
  · intro hw hv
    refine ⟨?_, ?_, fun hnd => ?_⟩
    · unfold get_value
      rw [if_neg (by simpa using hv), if_pos hw]
      rfl
    · unfold get_dev_tensor
      rw [if_neg (by simpa using hv), if_pos hw]
      rfl
    · unfold get_shape
      rw [if_neg (by simpa using hv), if_neg (by simpa using hnd), if_pos hw]
      rfl

/-- Example: `get_value` of a host tensor returns and leaves `m_waitee` null; after the
`get_value` that raised the worker exception of a failed operator, `get_dev_tensor` of the
valid handle 0 fails the assertion. -/
theorem waitee_after_blocking_query_witness :
    (get_value Extern.sum
      (put (ChannelImpl.create id 3 2 ⟨false, false⟩ 1) ⟨42, ⟨1, ⟨true, 0⟩⟩, ⟨true, 0⟩⟩
        false).state 0).state.m_waitee = none ∧
    (get_dev_tensor Extern.failing
      (get_value Extern.failing
        (apply_op Extern.failing (put_device (ChannelImpl.create id 3 2 ⟨false, false⟩ 1)
          ⟨42, ⟨1, ⟨true, 0⟩⟩, ⟨true, 0⟩⟩).state ⟨.Other 0, 7⟩ [0]).state 1).state 0).exception =
      some .waitee_not_null :=
  ⟨(waitee_after_blocking_query Extern.sum
      (put (ChannelImpl.create id 3 2 ⟨false, false⟩ 1) ⟨42, ⟨1, ⟨true, 0⟩⟩, ⟨true, 0⟩⟩
        false).state 0).1 (by decide),
   ((waitee_after_blocking_query Extern.failing
      (get_value Extern.failing
        (apply_op Extern.failing (put_device (ChannelImpl.create id 3 2 ⟨false, false⟩ 1)
          ⟨42, ⟨1, ⟨true, 0⟩⟩, ⟨true, 0⟩⟩).state ⟨.Other 0, 7⟩ [0]).state 1).state 0).2.2.2.2.2.2.2
      (by decide) (by decide)).2.1⟩

/-! ## The writes of the worker, record by record -/

theorem RegenStep.regen_mono {md : Bool} {a b : TensorInfo} (h : RegenStep md a b) :
    RegenStep true a b := by
  induction h with
  | same i => exact .same i
  | next _ _ ih1 ih2 => exact .next ih1 ih2
  | swap_in i hv h1 h2 h3 => exact .swap_in i hv h1 h2 h3
  | bump i => exact .bump i
  | republish i t h1 h2 => exact .republish i t h1 h2
  | sever i _ h2 => exact .sever i rfl h2

theorem RegenSteps.steps_refl (md : Bool) (s : ChannelImpl) : RegenSteps md s s :=
  fun q => .same (s.infos q)

theorem RegenSteps.steps_trans {md : Bool} {a b c : ChannelImpl} (h1 : RegenSteps md a b)
    (h2 : RegenSteps md b c) : RegenSteps md a c :=
  fun q => .next (h1 q) (h2 q)

theorem RegenSteps.steps_mono {md : Bool} {a b : ChannelImpl} (h : RegenSteps md a b) :
    RegenSteps true a b :=
  fun q => (h q).regen_mono

theorem RegenSteps.steps_set_info {md : Bool} (s : ChannelImpl) (p : TensorInfoPtr)
    (info : TensorInfo) (h : RegenStep md (s.infos p) info) :
    RegenSteps md s (s.set_info p info) := by
  intro q
  by_cases hq : q = p
  · subst hq
    simpa [ChannelImpl.set_info] using h
  · simp only [ChannelImpl.set_info, if_neg hq]
    exact .same _

theorem InfoSteps.info_refl (max : Nat) (s : ChannelImpl) : InfoSteps max s s :=
  fun q => .same (s.infos q)

theorem InfoSteps.info_trans {max : Nat} {a b c : ChannelImpl} (h1 : InfoSteps max a b)
    (h2 : InfoSteps max b c) : InfoSteps max a c :=
  fun q => .next (h1 q) (h2 q)

theorem InfoSteps.of_regen {md : Bool} (max : Nat) {a b : ChannelImpl} (h : RegenSteps md a b) :
    InfoSteps max a b :=
  fun q => .regen (h q)

theorem InfoSteps.info_set_info {max : Nat} (s : ChannelImpl) (p : TensorInfoPtr)
    (info : TensorInfo) (h : InfoStep max (s.infos p) info) :
    InfoSteps max s (s.set_info p info) := by
  intro q
  by_cases hq : q = p
  · subst hq
    simpa [ChannelImpl.set_info] using h
  · simp only [ChannelImpl.set_info, if_neg hq]
    exact .same _

theorem produce_tensor_infos (s : ChannelImpl) (dest : TensorInfoPtr) (t : Tensor)
    (notice : Bool) :
    (produce_tensor s dest t notice).infos =
      (s.set_info dest
        { s.infos dest with
          value_fetched := t.value_fetched
          desc := { (s.infos dest).desc with layout := t.layout, comp_node := t.comp_node }
          ptr := some t }).infos := by
  unfold produce_tensor
  dsimp only
  split <;> rfl

theorem steps_do_swap_in (md : Bool) (s : ChannelImpl) (dest : TensorInfoPtr)
    (hev : (s.infos dest).evict_type = .SWAP) : RegenSteps md s (do_swap_in s dest) := by
  cases hp : (s.infos dest).ptr with
  | some t =>
    have : do_swap_in s dest = s := by unfold do_swap_in; simp [hp]
    rw [this]
    exact RegenSteps.steps_refl md s
  | none =>
    cases hh : (s.infos dest).h_value with
    | none =>
      have : do_swap_in s dest = s := by unfold do_swap_in; simp [hp, hh]
      rw [this]
      exact RegenSteps.steps_refl md s
    | some hv =>
      intro q
      by_cases hq : q = dest
      · subst hq
        rw [do_swap_in_info s q hv hp hh]
        exact .swap_in _ hv hp hev hh
      · have : (do_swap_in s dest).infos q = s.infos q := by
          unfold do_swap_in
          simp only [hp, hh, Option.isSome_none, Bool.false_eq_true, if_false,
            ChannelImpl.set_info, if_neg hq, produce_tensor_infos]
        rw [this]
        exact .same _

theorem steps_sever (md : Bool) (s : ChannelImpl) (info : TensorInfoPtr) :
    RegenSteps md s (sever s info md) := by
  obtain ⟨⟨_, _, hother⟩, hat⟩ := sever_spec s info md
  intro q
  by_cases hq : q = info
  · subst hq
    rw [hat]
    split
    · rename_i hc
      exact .sever _ hc.1 hc.2
    · exact .same _
  · rw [hother q hq]
    exact .same _

theorem steps_publish_outputs (md : Bool) (path : ComputePath) (ts : List Tensor) (i : Nat)
    (s : ChannelImpl) : RegenSteps md s (publish_outputs path ts i s).1 := by
  induction ts generalizing i s with
  | nil => exact RegenSteps.steps_refl md s
  | cons t ts ih =>
    unfold publish_outputs
    split
    · exact RegenSteps.steps_refl md s
    · rename_i out_ptr _
      split
      · refine RegenSteps.steps_trans ?_ (ih _ _)
        have h1 : RegenSteps md s (s.set_info out_ptr
            { s.infos out_ptr with
              recompute_times := (s.infos out_ptr).recompute_times + 1 }) :=
          RegenSteps.steps_set_info s out_ptr _ (.bump _)
        dsimp only
        split
        · rename_i hc
          refine h1.steps_trans ?_
          intro q
          rw [produce_tensor_infos]
          exact RegenSteps.steps_set_info _ out_ptr _
            (.republish _ t (by simpa using hc.1) hc.2) q
        · exact h1
      · exact ih _ _

theorem steps_gather_history_inputs (md : Bool)
    (regen : ChannelImpl → TensorInfoPtr → ChannelImpl × Option Exc)
    (hregen : ∀ s i, RegenSteps md s (regen s i).1) (l : List TensorInfoPtr) (s : ChannelImpl)
    (inputs : List (Option Tensor)) :
    RegenSteps md s (gather_history_inputs regen l s inputs).1 := by
  induction l generalizing s inputs with
  | nil => exact RegenSteps.steps_refl md s
  | cons i rest ih =>
    unfold gather_history_inputs
    dsimp only
    have hr : RegenSteps md s
        (if (s.infos i).ptr.isNone = true then regen s i else (s, none)).1 := by
      split
      · exact hregen s i
      · exact RegenSteps.steps_refl md s
    split
    · rename_i heq
      rw [heq] at hr
      exact hr
    · rename_i heq
      rw [heq] at hr
      exact hr.steps_trans (ih _ _)

theorem steps_recompute (md : Bool) (ext : Extern)
    (regen : ChannelImpl → TensorInfoPtr → ChannelImpl × Option Exc)
    (hregen : ∀ s i, RegenSteps md s (regen s i).1) (s : ChannelImpl) (info : TensorInfoPtr) :
    RegenSteps md s (recompute ext regen s info).1 := by
  unfold recompute
  split
  · exact RegenSteps.steps_refl md s
  · dsimp only
    have hg := steps_gather_history_inputs md regen hregen (s.infos info).path.inputs s []
    split
    · rename_i heq
      rw [heq] at hg
      exact hg
    · rename_i heq
      rw [heq] at hg
      split
      · split
        · exact hg
        · exact hg.steps_trans (steps_publish_outputs md _ _ _ _)
      · exact hg

theorem steps_regenerate (ext : Extern) (fuel : Nat) (s : ChannelImpl) (info : TensorInfoPtr)
    (must_drop : Bool) : RegenSteps must_drop s (regenerate ext fuel s info must_drop).1 := by
  induction fuel generalizing s info with
  | zero => exact RegenSteps.steps_refl must_drop s
  | succ fuel ih =>
    unfold regenerate
    dsimp only
    have hr : RegenSteps must_drop s
        (if (s.infos info).ptr.isNone = true ∧ (s.infos info).evict_type ≠ .NONE then
          if (s.infos info).evict_type = .SWAP then (do_swap_in s info, none)
          else recompute ext (fun s1 i => regenerate ext fuel s1 i must_drop) s info
        else (s, none)).1 := by
      split
      · split
        · rename_i hsw
          exact steps_do_swap_in must_drop s info hsw
        · exact steps_recompute must_drop ext _ (fun s1 i => ih s1 i) s info
      · exact RegenSteps.steps_refl must_drop s
    split
    · rename_i heq
      rw [heq] at hr
      exact hr
    · rename_i heq
      rw [heq] at hr
      exact hr.steps_trans (steps_sever must_drop _ _)

theorem steps_remove_dep_loop (ext : Extern) (fuel : Nat) (l : List TensorInfoPtr)
    (s : ChannelImpl) : RegenSteps true s (remove_dep_loop ext fuel l s).1 := by
  induction l generalizing s with
  | nil => exact RegenSteps.steps_refl true s
  | cons i rest ih =>
    unfold remove_dep_loop
    dsimp only
    have hr : RegenSteps true s
        (if i ∈ s.m_st then regenerate ext fuel s i true else (s, none)).1 := by
      split
      · exact steps_regenerate ext fuel s i true
      · exact RegenSteps.steps_refl true s
    split
    · rename_i heq
      rw [heq] at hr
      exact hr
    · rename_i heq
      rw [heq] at hr
      exact hr.steps_trans (ih _)

theorem steps_free (ext : Extern) (fuel : Nat) (s : ChannelImpl) (ptr : TensorInfoPtr) :
    RegenSteps true s (free ext fuel s ptr).1 := by
  unfold free
  dsimp only
  have hr : RegenSteps true s
      (if (s.infos ptr).path.dep_outputs.length > 0 then remove_dep ext fuel s ptr
        else (s, none)).1 := by
    split
    · exact steps_remove_dep_loop ext fuel _ s
    · exact RegenSteps.steps_refl true s
  split
  · rename_i heq
    rw [heq] at hr
    exact hr
  · rename_i s1 heq
    rw [heq] at hr
    split <;> exact hr

theorem steps_gather_inputs (ext : Extern) (fuel : Nat) (l : List TensorInfoPtr)
    (s : ChannelImpl) (acc : List Tensor) :
    RegenSteps false s (gather_inputs ext fuel l s acc).1 := by
  induction l generalizing s acc with
  | nil => exact RegenSteps.steps_refl false s
  | cons i rest ih =>
    unfold gather_inputs
    dsimp only
    have hr : RegenSteps false s
        (if s.evict_enabled = true ∧ (s.infos i).evict_type ≠ .NONE then
          if (s.infos i).ptr.isNone = true then regenerate ext fuel s i false else (s, none)
        else (s, none)).1 := by
      split
      · split
        · exact steps_regenerate ext fuel s i false
        · exact RegenSteps.steps_refl false s
      · exact RegenSteps.steps_refl false s
    split
    · rename_i heq
      rw [heq] at hr
      exact hr
    · rename_i heq
      rw [heq] at hr
      split
      · exact hr
      · exact hr.steps_trans (ih _ _)

theorem steps_free_dels (ext : Extern) (fuel : Nat) (l : List TensorInfoPtr) (s : ChannelImpl) :
    RegenSteps true s (free_dels ext fuel l s).1 := by
  induction l generalizing s with
  | nil => exact RegenSteps.steps_refl true s
  | cons d rest ih =>
    unfold free_dels
    have hr := steps_free ext fuel s d
    split
    · rename_i heq
      rw [heq] at hr
      exact hr
    · rename_i heq
      rw [heq] at hr
      exact hr.steps_trans (ih _)

theorem steps_produce_tensor (max : Nat) (s : ChannelImpl) (dest : TensorInfoPtr) (t : Tensor)
    (notice : Bool) : InfoSteps max s (produce_tensor s dest t notice) := by
  intro q
  rw [produce_tensor_infos]
  exact InfoSteps.info_set_info s dest _ (.produce _ t) q

theorem steps_produce_outputs (max : Nat) (outs : List TensorInfoPtr) (ts : List Tensor)
    (s : ChannelImpl) : InfoSteps max s (produce_outputs outs ts s) := by
  induction outs generalizing ts s with
  | nil => unfold produce_outputs; exact InfoSteps.info_refl max s
  | cons o outs ih =>
    cases ts with
    | nil => unfold produce_outputs; exact InfoSteps.info_refl max s
    | cons t ts =>
      unfold produce_outputs
      exact (steps_produce_tensor max s o t true).info_trans (ih _ _)

theorem steps_do_swap_out (max : Nat) (s : ChannelImpl) (dest : TensorInfoPtr) :
    InfoSteps max s (do_swap_out s dest) := by
  unfold do_swap_out
  dsimp only
  split
  · exact InfoSteps.info_refl max s
  · rename_i hev
    split
    · exact InfoSteps.info_refl max s
    · rename_i t hp
      exact InfoSteps.info_set_info s dest _ (.swap_out _ t hev hp)

theorem steps_swap_in_command (max : Nat) (s : ChannelImpl) (dest : TensorInfoPtr) :
    InfoSteps max s (do_swap_in s dest) := by
  cases hp : (s.infos dest).ptr with
  | some t =>
    have : do_swap_in s dest = s := by unfold do_swap_in; simp [hp]
    rw [this]
    exact InfoSteps.info_refl max s
  | none =>
    cases hh : (s.infos dest).h_value with
    | none =>
      have : do_swap_in s dest = s := by unfold do_swap_in; simp [hp, hh]
      rw [this]
      exact InfoSteps.info_refl max s
    | some hv =>
      intro q
      by_cases hq : q = dest
      · subst hq
        rw [do_swap_in_info s q hv hp hh]
        exact .swap_in _ hv hp hh
      · have : (do_swap_in s dest).infos q = s.infos q := by
          unfold do_swap_in
          simp only [hp, hh, Option.isSome_none, Bool.false_eq_true, if_false,
            ChannelImpl.set_info, if_neg hq, produce_tensor_infos]
        rw [this]
        exact .same _

theorem steps_do_drop (s : ChannelImpl) (dest : TensorInfoPtr) :
    InfoSteps s.m_max_recompute_time s (do_drop s dest) := by
  unfold do_drop
  dsimp only
  split_ifs with h1 h2 h3 h4
  · exact InfoSteps.info_refl _ s
  · exact InfoSteps.info_refl _ s
  · exact InfoSteps.info_refl _ s
  · exact InfoSteps.info_refl _ s
  · refine InfoSteps.info_set_info s dest _ (.drop _ h1 ?_ (by omega) ?_)
    · cases h : (s.infos dest).path.op <;> simp_all
    · cases h : (s.infos dest).ptr <;> simp_all

theorem steps_run_command (ext : Extern) (fuel : Nat) (s : ChannelImpl) (cmd : Command) :
    InfoSteps s.m_max_recompute_time s (run_command ext fuel s cmd).1 := by
  cases cmd
  case Put dest value no_cache => exact steps_produce_tensor _ s dest _ true
  case ApplyOp op inputs outputs dels =>
    simp only [run_command]
    have h1 := InfoSteps.of_regen s.m_max_recompute_time
      (steps_gather_inputs ext fuel inputs s [])
    split
    · rename_i heq
      rw [heq] at h1
      exact h1
    · rename_i s1 ti heq
      rw [heq] at h1
      have h2 := InfoSteps.of_regen s.m_max_recompute_time (steps_free_dels ext fuel dels s1)
      split
      · rename_i heq2
        rw [heq2] at h2
        exact h1.info_trans h2
      · rename_i s2 heq2
        rw [heq2] at h2
        split
        · exact h1.info_trans h2
        · split
          · exact (h1.info_trans h2).info_trans (steps_produce_outputs _ _ _ _)
          · exact h1.info_trans h2
  case Del dest => exact InfoSteps.of_regen _ (steps_free ext fuel s dest)
  case GetValue dest =>
    simp only [run_command]
    have hr : InfoSteps s.m_max_recompute_time s
        (if s.evict_enabled = true ∧ (s.infos dest).evict_type ≠ .NONE then
          if (s.infos dest).ptr.isNone = true then regenerate ext fuel s dest false
          else (s, none)
        else (s, none)).1 := by
      split
      · split
        · exact InfoSteps.of_regen _ (steps_regenerate ext fuel s dest false)
        · exact InfoSteps.info_refl _ s
      · exact InfoSteps.info_refl _ s
    split
    · rename_i heq
      rw [heq] at hr
      exact hr
    · rename_i s1 heq
      rw [heq] at hr
      split
      · exact hr
      · rename_i t hp
        refine hr.info_trans ?_
        have h : InfoSteps s.m_max_recompute_time s1 (s1.set_info dest
            { s1.infos dest with ptr := some t.fetch_value, value_fetched := true }) :=
          InfoSteps.info_set_info s1 dest _ (.fetch _ t hp)
        dsimp only
        split
        · exact h
        · exact h
  case SwapIn dest => exact steps_swap_in_command _ s dest
  case SwapOut dest => exact steps_do_swap_out _ s dest
  case Drop dest => exact steps_do_drop s dest
  case Move dest src =>
    simp only [run_command]
    split
    · exact InfoSteps.info_refl _ s
    · exact (steps_produce_tensor _ s dest _ true).info_trans
        (InfoSteps.of_regen _ (steps_free ext fuel _ src))
  case Flush dest => exact InfoSteps.info_refl _ s
  case Nop => exact InfoSteps.info_refl _ s

/-! ## The writes of the public channel, record by record -/

theorem ApiSteps.api_refl (s : ChannelImpl) : ApiSteps s s :=
  ⟨rfl, fun q => .same (s.infos q)⟩

theorem ApiSteps.api_trans {a b c : ChannelImpl} (h1 : ApiSteps a b) (h2 : ApiSteps b c) :
    ApiSteps a c :=
  ⟨h2.1.trans h1.1, fun q => .next (h1.2 q) (h1.1 ▸ h2.2 q)⟩

theorem ApiSteps.of_infos {s s' : ChannelImpl} (h : s'.infos = s.infos)
    (hm : s'.m_max_recompute_time = s.m_max_recompute_time) : ApiSteps s s' :=
  ⟨hm, fun q => by rw [h]; exact .same _⟩

theorem ApiSteps.api_set_info (s : ChannelImpl) (p : TensorInfoPtr) (info : TensorInfo)
    (h : ApiStep s.m_max_recompute_time (s.infos p) info) : ApiSteps s (s.set_info p info) := by
  refine ⟨rfl, fun q => ?_⟩
  by_cases hq : q = p
  · subst hq
    simpa [ChannelImpl.set_info] using h
  · simp only [ChannelImpl.set_info, if_neg hq]
    exact .same _

theorem ApiSteps.of_worker {s s' : ChannelImpl} (hf : WorkerFrame s s')
    (h : InfoSteps s.m_max_recompute_time s s') : ApiSteps s s' :=
  ⟨hf.2.2.2.2.2.2.1, fun q => .worker (h q)⟩

theorem api_enqueue (s : ChannelImpl) (cmd : Command) : ApiSteps s (s.enqueue cmd) :=
  ApiSteps.of_infos rfl rfl

theorem api_alloc (s : ChannelImpl) : ApiSteps s (alloc s).1 := by
  refine ⟨rfl, fun q => ?_⟩
  show ApiStep _ (s.infos q)
    (if q = s.m_pool.addresses s.m_pool.allocated then TensorInfo.zeroed else s.infos q)
  split
  · exact .fresh _
  · exact .same _

theorem alloc_zeroed (s : ChannelImpl) : (alloc s).1.infos (alloc s).2 = TensorInfo.zeroed := by
  simp [alloc]

theorem api_put (s : ChannelImpl) (value : HostTensorND) (no_cache : Bool) :
    ApiSteps s (put s value no_cache).state := by
  unfold put
  dsimp only
  exact ((api_alloc s).api_trans (ApiSteps.api_set_info _ _ _ (.describe _ _))).api_trans
    (ApiSteps.of_infos rfl rfl)

theorem api_put_device (s : ChannelImpl) (data : DeviceTensorND) :
    ApiSteps s (put_device s data).state := by
  unfold put_device
  dsimp only
  refine ((api_alloc s).api_trans (ApiSteps.api_set_info _ _ _ ?_)).api_trans
    (ApiSteps.of_infos rfl rfl)
  rw [alloc_zeroed]
  exact .device _ _

theorem api_alloc_outputs (descs : List LogicalTensorDesc) (s : ChannelImpl)
    (outputs : List TensorInfoPtr) (v : Bool) :
    ApiSteps s (alloc_outputs descs s outputs v).1 := by
  induction descs generalizing s outputs v with
  | nil => exact ApiSteps.api_refl s
  | cons d rest ih =>
    unfold alloc_outputs
    dsimp only
    exact (((api_alloc s).api_trans (ApiSteps.api_set_info _ _ _ (.describe _ d))).api_trans
      (ApiSteps.of_infos rfl rfl)).api_trans (ih _ _ _)

theorem api_record_siblings (out : TensorInfoPtr) (l : List TensorInfoPtr) (s : ChannelImpl) :
    ApiSteps s (record_siblings out l s).1 := by
  induction l generalizing s with
  | nil => exact ApiSteps.api_refl s
  | cons o rest ih =>
    unfold record_siblings
    split
    · exact (ApiSteps.api_set_info _ _ _ (.record_output _ o)).api_trans (ih _)
    · exact ApiSteps.api_refl s

theorem api_record_inputs (out : TensorInfoPtr) (l : List TensorInfoPtr) (s : ChannelImpl) :
    ApiSteps s (record_inputs out l s).1 := by
  induction l generalizing s with
  | nil => exact ApiSteps.api_refl s
  | cons o rest ih =>
    unfold record_inputs
    dsimp only
    split
    · split
      · exact ((ApiSteps.api_set_info _ _ _ (.record_input _ o)).api_trans
          (ApiSteps.api_set_info _ _ _ (.record_dep _ out))).api_trans (ih _)
      · exact ApiSteps.api_set_info _ _ _ (.record_input _ o)
    · exact ApiSteps.api_refl s

theorem api_record_paths (op : OpDef) (inputs outputs l : List TensorInfoPtr)
    (s : ChannelImpl) : ApiSteps s (record_paths op inputs outputs l s).1 := by
  induction l generalizing s with
  | nil => exact ApiSteps.api_refl s
  | cons o rest ih =>
    unfold record_paths
    dsimp only
    have h0 : ApiSteps s (s.set_info o
        { s.infos o with path := { (s.infos o).path with op := some op } }) :=
      ApiSteps.api_set_info _ _ _ (.record_op _ op)
    have h1 := api_record_siblings o outputs (s.set_info o
      { s.infos o with path := { (s.infos o).path with op := some op } })
    split
    · rename_i heq
      rw [heq] at h1
      exact h0.api_trans h1
    · rename_i s2 heq
      rw [heq] at h1
      have h2 := api_record_inputs o inputs s2
      split
      · rename_i heq2
        rw [heq2] at h2
        exact (h0.api_trans h1).api_trans h2
      · rename_i heq2
        rw [heq2] at h2
        exact ((h0.api_trans h1).api_trans h2).api_trans (ih _)

theorem api_mark_invalid (s : ChannelImpl) (l : List TensorInfoPtr) :
    ApiSteps s (mark_invalid s l) := by
  induction l generalizing s with
  | nil => exact ApiSteps.api_refl s
  | cons o rest ih =>
    unfold mark_invalid
    exact (ApiSteps.api_set_info _ _ _ (.mark _)).api_trans (ih _)

theorem api_catch_block (s : ChannelImpl) (cmd : Command) (e : Exc) :
    ApiSteps s (catch_block s cmd e) := by
  have h : ∀ s1 : ChannelImpl, ApiSteps s s1 →
      ApiSteps s { s1 with m_worker_exc := some e, notify_count := s1.notify_count + 1 } :=
    fun s1 h1 => h1
  unfold catch_block
  apply h
  split
  · exact api_mark_invalid _ _
  · exact ApiSteps.api_set_info _ _ _ (.mark _)
  · exact ApiSteps.api_refl s

theorem api_process_one_task (ext : Extern) (fuel : Nat) (s : ChannelImpl) (cmd : Command) :
    ApiSteps s (process_one_task ext fuel s cmd) := by
  unfold process_one_task
  have h := ApiSteps.of_worker (frame_run_command ext fuel s cmd)
    (steps_run_command ext fuel s cmd)
  split
  · rename_i heq
    rw [heq] at h
    exact h
  · rename_i heq
    rw [heq] at h
    exact h.api_trans (api_catch_block _ _ _)

theorem api_process_tasks (ext : Extern) (fuel : Nat) (s : ChannelImpl) (l : List Command) :
    ApiSteps s (process_tasks ext fuel s l) := by
  induction l generalizing s with
  | nil => exact ApiSteps.api_refl s
  | cons c rest ih =>
    unfold process_tasks
    exact (api_process_one_task ext fuel s c).api_trans (ih _)

theorem api_check_worker_exc (s : ChannelImpl) :
    ApiSteps s ( check_worker_exc_unsafe s).1 := by
  unfold check_worker_exc_unsafe
  split
  · exact ApiSteps.of_infos rfl rfl
  · exact ApiSteps.api_refl s

theorem api_wait_all_task_finish (ext : Extern) (s : ChannelImpl) :
    ApiSteps s (wait_all_task_finish ext s) := by
  unfold wait_all_task_finish
  have h1 : ApiSteps s { s with m_worker := [] } := ApiSteps.of_infos rfl rfl
  have h2 := api_process_tasks ext s.fuel { s with m_worker := [] } s.m_worker
  exact (h1.api_trans h2).api_trans (ApiSteps.of_infos rfl rfl)

theorem api_cv_wait (ext : Extern) (flag : ChannelImpl → Bool) (tasks : List Command)
    (s : ChannelImpl) : ApiSteps s (cv_wait ext flag tasks s).state := by
  induction tasks generalizing s with
  | nil =>
    unfold cv_wait
    have h0 : ApiSteps s { s with m_worker := [] } := ApiSteps.of_infos rfl rfl
    have h := h0.api_trans (api_check_worker_exc { s with m_worker := [] })
    split
    · rename_i heq
      rw [heq] at h
      exact h
    · rename_i heq
      rw [heq] at h
      split <;> exact h
  | cons t rest ih =>
    unfold cv_wait
    have h0 : ApiSteps s { s with m_worker := t :: rest } := ApiSteps.of_infos rfl rfl
    have h := h0.api_trans (api_check_worker_exc { s with m_worker := t :: rest })
    split
    · rename_i heq
      rw [heq] at h
      exact h
    · rename_i s1 heq
      rw [heq] at h
      split
      · exact h
      · exact (h.api_trans (api_process_one_task ext s1.fuel s1 t)).api_trans (ih _)

theorem api_sync (ext : Extern) (s : ChannelImpl) : ApiSteps s (sync ext s).state := by
  unfold sync
  dsimp only
  have h1 : ApiSteps s (wait_all_task_finish ext
      (if s.m_buffer.m_commands.isEmpty = true then s else s.enqueue (.Flush none))) := by
    refine ApiSteps.api_trans ?_ (api_wait_all_task_finish ext _)
    split
    · exact ApiSteps.api_refl s
    · exact api_enqueue s _
  have h2 := h1.api_trans (api_check_worker_exc (wait_all_task_finish ext
      (if s.m_buffer.m_commands.isEmpty = true then s else s.enqueue (.Flush none))))
  split
  · rename_i heq
    rw [heq] at h2
    exact h2
  · rename_i heq
    rw [heq] at h2
    exact h2

theorem api_apply_op_sync (ext : Extern) (s : ChannelImpl) (outputs : List TensorInfoPtr)
    (v : Bool) : ApiSteps s (apply_op_sync ext s outputs v).state := by
  unfold apply_op_sync
  have h := api_sync ext s
  split
  · split <;> exact h
  · split
    · split
      · split <;> exact h
      · exact h
      · exact h
    · exact ApiSteps.api_refl s

theorem api_apply_op (ext : Extern) (s : ChannelImpl) (op : OpDef)
    (inputs : List TensorInfoPtr) : ApiSteps s (apply_op ext s op inputs).state := by
  unfold apply_op
  split
  · exact ApiSteps.api_refl s
  · split
    · exact ApiSteps.api_refl s
    · dsimp only
      have ha := api_alloc_outputs
        (ext.infer_output_attrs_fallible op (inputs.map (fun i => (s.infos i).desc))).1 s [] true
      generalize alloc_outputs
        (ext.infer_output_attrs_fallible op (inputs.map (fun i => (s.infos i).desc))).1 s []
        true = A at ha ⊢
      have hrec : ApiSteps A.1
          (if A.1.m_enable_evict.drop = true then record_paths op inputs A.2.1 A.2.1 A.1
            else (A.1, none)).1 := by
        split
        · exact api_record_paths _ _ _ _ _
        · exact ApiSteps.api_refl _
      generalize (if A.1.m_enable_evict.drop = true then record_paths op inputs A.2.1 A.2.1 A.1
        else (A.1, none)) = r at hrec ⊢
      obtain ⟨s2, e⟩ := r
      cases e with
      | some e => exact ha.api_trans hrec
      | none =>
        exact ((ha.api_trans hrec).api_trans (api_enqueue s2 _)).api_trans
          (api_apply_op_sync ext _ _ _)

theorem api_wait_for_value (ext : Extern) (s : ChannelImpl) (handle : TensorInfoPtr) :
    ApiSteps s (wait_for_value ext s handle).state := by
  unfold wait_for_value
  split
  · exact ApiSteps.api_refl s
  · dsimp only
    have h0 : ApiSteps s (({ s with m_waitee := some handle } : ChannelImpl).enqueue
        (.GetValue handle)) := ApiSteps.of_infos rfl rfl
    have := h0.api_trans (api_cv_wait ext (fun c => (c.infos handle).value_fetched)
      (({ s with m_waitee := some handle } : ChannelImpl).enqueue (.GetValue handle)).m_worker
      (({ s with m_waitee := some handle } : ChannelImpl).enqueue (.GetValue handle)))
    split
    · exact this.api_trans (ApiSteps.of_infos rfl rfl)
    · exact this
    · exact this

theorem api_wait_for_ptr (ext : Extern) (s : ChannelImpl) (handle : TensorInfoPtr) :
    ApiSteps s (wait_for_ptr ext s handle).state := by
  unfold wait_for_ptr
  dsimp only
  have h0 : ApiSteps s (({ s with m_waitee := some handle } : ChannelImpl).enqueue
      (.Flush (some handle))) := ApiSteps.of_infos rfl rfl
  have := h0.api_trans (api_cv_wait ext (fun c => (c.infos handle).ptr.isSome)
    (({ s with m_waitee := some handle } : ChannelImpl).enqueue
      (.Flush (some handle))).m_worker
    (({ s with m_waitee := some handle } : ChannelImpl).enqueue (.Flush (some handle))))
  split
  · exact this.api_trans (ApiSteps.of_infos rfl rfl)
  · exact this
  · exact this

theorem api_get_value (ext : Extern) (s : ChannelImpl) (handle : TensorInfoPtr) :
    ApiSteps s (get_value ext s handle).state := by
  unfold get_value
  split
  · exact ApiSteps.api_refl s
  · split
    · exact ApiSteps.api_refl s
    · dsimp only
      have hw : ApiSteps s
          (if ¬ (s.infos handle).value_fetched = true then wait_for_value ext s handle
          else ({ state := s, status := .returned () } : Outcome Unit)).state := by
        split
        · exact api_wait_for_value ext s handle
        · exact ApiSteps.api_refl s
      split
      · exact hw
      · exact hw
      · split
        · exact hw
        · split <;> exact hw

theorem api_get_shape (ext : Extern) (s : ChannelImpl) (handle : TensorInfoPtr) :
    ApiSteps s (get_shape ext s handle).state := by
  unfold get_shape
  have hw := api_wait_for_ptr ext s handle
  split_ifs
  all_goals first
    | exact ApiSteps.api_refl s
    | (dsimp only
       split
       · exact hw
       · exact hw
       · split
         · exact hw
         · split <;> exact hw)

theorem api_get_dev_tensor (ext : Extern) (s : ChannelImpl) (handle : TensorInfoPtr) :
    ApiSteps s (get_dev_tensor ext s handle).state := by
  unfold get_dev_tensor
  have hw := api_wait_for_ptr ext s handle
  split_ifs
  all_goals first
    | exact ApiSteps.api_refl s
    | (dsimp only
       split
       · exact hw
       · exact hw
       · split <;> exact hw)

theorem api_run (ext : Extern) (s : ChannelImpl) (call : ApiCall) :
    ApiSteps s (call.run ext s).state := by
  cases call
  case put value no_cache => exact api_put s value no_cache
  case put_device data => exact api_put_device s data
  case del handle =>
    simp only [ApiCall.run, del]
    split
    · exact ApiSteps.of_infos rfl rfl
    · exact ApiSteps.api_refl s
  case swap_in handle =>
    simp only [ApiCall.run, swap_in]
    split_ifs
    · exact api_enqueue s _
    · exact ApiSteps.api_refl s
    · exact ApiSteps.api_refl s
  case swap_out handle =>
    simp only [ApiCall.run, swap_out]
    split_ifs
    · exact api_enqueue s _
    · exact ApiSteps.api_refl s
    · exact ApiSteps.api_refl s
  case drop handle =>
    simp only [ApiCall.run, drop]
    split_ifs
    · exact api_enqueue s _
    · exact ApiSteps.api_refl s
    · exact ApiSteps.api_refl s
  case apply_op op inputs => exact api_apply_op ext s op inputs
  case get_value handle => exact api_get_value ext s handle
  case get_shape handle => exact api_get_shape ext s handle
  case get_dtype handle =>
    simp only [ApiCall.run, get_dtype, Outcome.erase]
    split_ifs <;> exact ApiSteps.api_refl s
  case get_device handle =>
    simp only [ApiCall.run, get_device, Outcome.erase]
    split_ifs <;> exact ApiSteps.api_refl s
  case get_dev_tensor handle => exact api_get_dev_tensor ext s handle
  case sync => exact api_sync ext s
  case close => exact api_sync ext s
  case config_async_level level =>
    simp only [ApiCall.run, config_async_level]
    split_ifs
    · exact ApiSteps.of_infos rfl rfl
    · exact ApiSteps.api_refl s
  case get_async_level => exact ApiSteps.api_refl s
  case set_swap_flag flag => exact ApiSteps.of_infos rfl rfl
  case set_drop_flag flag => exact ApiSteps.of_infos rfl rfl
  case set_buffer_length length => exact ApiSteps.of_infos rfl rfl

theorem api_run_api (ext : Extern) (s : ChannelImpl) (calls : List ApiCall) :
    ApiSteps s (run_api ext s calls) := by
  induction calls generalizing s with
  | nil => exact ApiSteps.api_refl s
  | cons c cs ih =>
    unfold run_api
    exact (api_run ext s c).api_trans (ih _)

/-! ## A failure on the worker -/

theorem RegenStep.backed {md : Bool} {a b : TensorInfo} (h : RegenStep md a b)
    (ha : EvictBacked a) : EvictBacked b := by
  induction h with
  | same i => exact ha
  | next _ _ ih1 ih2 => exact ih2 (ih1 ha)
  | swap_in i hv h1 h2 h3 => exact ⟨(fun h => by cases h), (fun h => by cases h)⟩
  | bump i => exact ha
  | republish i t h1 h2 => exact ha
  | sever i _ h2 =>
    refine ⟨fun h => ?_, fun h => ?_⟩
    · dsimp only at h ⊢
      split at h
      · cases h
      · exact ha.1 h
    · dsimp only at h
      split at h
      · cases h
      · rename_i hd
        exact absurd h hd

theorem InfoStep.info_backed {max : Nat} {a b : TensorInfo} (h : InfoStep max a b)
    (ha : EvictBacked a) : EvictBacked b := by
  induction h with
  | same i => exact ha
  | next _ _ ih1 ih2 => exact ih2 (ih1 ha)
  | regen h => exact h.backed ha
  | produce i t => exact ha
  | swap_out i t _ _ => exact ⟨fun _ => rfl, (fun h => by cases h)⟩
  | swap_in i hv _ _ => exact ⟨(fun h => by cases h), (fun h => by cases h)⟩
  | drop i _ hop _ _ => exact ⟨(fun h => by cases h), fun _ => hop⟩
  | fetch i t _ => exact ha

theorem ApiStep.api_backed {max : Nat} {a b : TensorInfo} (h : ApiStep max a b)
    (ha : EvictBacked a) : EvictBacked b := by
  induction h with
  | same i => exact ha
  | next _ _ ih1 ih2 => exact ih2 (ih1 ha)
  | worker h => exact h.info_backed ha
  | mark i => exact ha
  | fresh i => exact ⟨(fun h => by cases h), (fun h => by cases h)⟩
  | describe i d => exact ha
  | device d t => exact ⟨(fun h => by cases h), (fun h => by cases h)⟩
  | record_op i op => exact ⟨ha.1, fun _ => rfl⟩
  | record_output i o => exact ha
  | record_input i x => exact ha
  | record_dep i o => exact ha

/-- C15: on a channel right after construction every record is backed (a SWAP-evicted record
has a non-empty `h_value`, a DROP-evicted record a non-null `path.op`); `do_swap_out`,
`do_swap_in`, `do_drop`, `regenerate` in both modes, `free` and the worker executing any
command keep every record backed; hence every record is backed after any stream of worker
commands, and in every state that a history of public calls reaches from a fresh channel. -/
theorem eviction_backed_invariant (ext : Extern) (fuel : Nat) :
    (∀ pool capacity level flags max q,
      EvictBacked ((ChannelImpl.create pool capacity level flags max).infos q)) ∧
    (∀ s : ChannelImpl, (∀ q, EvictBacked (s.infos q)) →
      ∀ dest must_drop cmd q,
        EvictBacked ((do_swap_out s dest).infos q) ∧
        EvictBacked ((do_swap_in s dest).infos q) ∧
        EvictBacked ((do_drop s dest).infos q) ∧
        EvictBacked ((regenerate ext fuel s dest must_drop).1.infos q) ∧
        EvictBacked ((free ext fuel s dest).1.infos q) ∧
        EvictBacked ((process_one_task ext fuel s cmd).infos q)) ∧
    (∀ (s : ChannelImpl) cmds, (∀ q, EvictBacked (s.infos q)) →
      ∀ q, EvictBacked ((process_tasks ext fuel s cmds).infos q)) ∧
    (∀ pool capacity level flags max calls q,
      EvictBacked
        ((run_api ext (ChannelImpl.create pool capacity level flags max) calls).infos q)) := by
  have hfresh : ∀ pool capacity level flags max q,
      EvictBacked ((ChannelImpl.create pool capacity level flags max).infos q) :=
    fun _ _ _ _ _ _ => ⟨(fun h => by cases h), (fun h => by cases h)⟩
  refine ⟨hfresh, fun s hs dest must_drop cmd q => ⟨?_, ?_, ?_, ?_, ?_, ?_⟩,
    fun s cmds hs q => ?_, fun pool capacity level flags max calls q => ?_⟩
  · exact (steps_do_swap_out 0 s dest q).info_backed (hs q)
  · exact (steps_swap_in_command 0 s dest q).info_backed (hs q)
  · exact (steps_do_drop s dest q).info_backed (hs q)
  · exact (steps_regenerate ext fuel s dest must_drop q).backed (hs q)
  · exact (steps_free ext fuel s dest q).backed (hs q)
  · exact ((api_process_one_task ext fuel s cmd).2 q).api_backed (hs q)
  · exact ((api_process_tasks ext fuel s cmds).2 q).api_backed (hs q)
  · exact ((api_run_api ext _ calls).2 q).api_backed (hfresh pool capacity level flags max q)

/-- Witness of C15: after `put`, `apply_op` with DROP enabled, `drop` of the output and `sync`,
the output is DROP-evicted and its `path.op` is recorded. -/
theorem eviction_backed_invariant_witness :
    ((run_api Extern.sum (ChannelImpl.create id 3 2 ⟨true, true⟩ 1)
      [.put ⟨42, ⟨1, ⟨true, 0⟩⟩, ⟨true, 0⟩⟩ false, .apply_op ⟨.Other 0, 7⟩ [0], .drop 1,
        .sync]).infos 1).evict_type = .DROP ∧
    EvictBacked ((run_api Extern.sum (ChannelImpl.create id 3 2 ⟨true, true⟩ 1)
      [.put ⟨42, ⟨1, ⟨true, 0⟩⟩, ⟨true, 0⟩⟩ false, .apply_op ⟨.Other 0, 7⟩ [0], .drop 1,
        .sync]).infos 1) ∧
    EvictBacked ((do_swap_out (put_device (ChannelImpl.create id 3 2 ⟨true, true⟩ 1)
      ⟨42, ⟨1, ⟨true, 0⟩⟩, ⟨true, 0⟩⟩).state 0).infos 0) :=
  ⟨by decide,
   (eviction_backed_invariant Extern.sum 3).2.2.2 id 3 2 ⟨true, true⟩ 1 _ 1,
   ((eviction_backed_invariant Extern.sum 3).2.1
      (put_device (ChannelImpl.create id 3 2 ⟨true, true⟩ 1)
        ⟨42, ⟨1, ⟨true, 0⟩⟩, ⟨true, 0⟩⟩).state
      (fun q => ((api_put_device (ChannelImpl.create id 3 2 ⟨true, true⟩ 1)
        ⟨42, ⟨1, ⟨true, 0⟩⟩, ⟨true, 0⟩⟩).2 q).api_backed
          ⟨(fun h => by cases h), (fun h => by cases h)⟩)
      0 false .Nop 0).1⟩

/-! ## Eviction and `ptr` -/

theorem RegenStep.swap_without_ptr {md : Bool} {a b : TensorInfo} (h : RegenStep md a b)
    (ha : a.evict_type = .SWAP → a.ptr = none) : b.evict_type = .SWAP → b.ptr = none := by
  induction h with
  | same i => exact ha
  | next _ _ ih1 ih2 => exact ih2 (ih1 ha)
  | swap_in i hv h1 h2 h3 => intro h; cases h
  | bump i => exact ha
  | republish i t h1 h2 =>
    intro h
    dsimp only at h
    rw [h2] at h
    cases h
  | sever i _ h2 =>
    intro h
    dsimp only at h ⊢
    split at h
    · cases h
    · exact ha h

theorem RegenStep.drop_stays {a b : TensorInfo} (h : RegenStep false a b)
    (ha : a.evict_type = .DROP) : b.evict_type = .DROP := by
  induction h with
  | same i => exact ha
  | next _ _ ih1 ih2 => exact ih2 (ih1 ha)
  | swap_in i hv h1 h2 h3 => rw [h2] at ha; cases ha
  | bump i => exact ha
  | republish i t h1 h2 => exact ha
  | sever i h1 h2 => cases h1

theorem do_swap_out_acts (s : ChannelImpl) (dest : TensorInfoPtr) :
    do_swap_out s dest = s ∨
      (((do_swap_out s dest).infos dest).ptr = none ∧
        ((do_swap_out s dest).infos dest).evict_type = .SWAP ∧
        ∀ q, q ≠ dest → (do_swap_out s dest).infos q = s.infos q) := by
  unfold do_swap_out
  dsimp only
  split
  · exact Or.inl rfl
  · split
    · exact Or.inl rfl
    · refine Or.inr ⟨by simp [ChannelImpl.set_info], by simp [ChannelImpl.set_info],
        fun q hq => by simp [ChannelImpl.set_info, hq]⟩

theorem do_drop_acts (s : ChannelImpl) (dest : TensorInfoPtr) :
    do_drop s dest = s ∨
      (((do_drop s dest).infos dest).ptr = none ∧
        ((do_drop s dest).infos dest).evict_type = .DROP ∧
        ∀ q, q ≠ dest → (do_drop s dest).infos q = s.infos q) := by
  unfold do_drop
  dsimp only
  split_ifs
  · exact Or.inl rfl
  · exact Or.inl rfl
  · exact Or.inl rfl
  · exact Or.inl rfl
  · refine Or.inr ⟨by simp [ChannelImpl.set_info], by simp [ChannelImpl.set_info],
      fun q hq => by simp [ChannelImpl.set_info, hq]⟩

theorem do_swap_in_acts (s : ChannelImpl) (dest : TensorInfoPtr) :
    do_swap_in s dest = s ∨
      (((do_swap_in s dest).infos dest).ptr.isSome = true ∧
        ((do_swap_in s dest).infos dest).evict_type = .NONE ∧
        ∀ q, q ≠ dest → (do_swap_in s dest).infos q = s.infos q) := by
  cases hp : (s.infos dest).ptr with
  | some t => exact Or.inl (by unfold do_swap_in; simp [hp])
  | none =>
    cases hh : (s.infos dest).h_value with
    | none => exact Or.inl (by unfold do_swap_in; simp [hp, hh])
    | some hv =>
      refine Or.inr ⟨by rw [do_swap_in_info s dest hv hp hh]; rfl,
        by rw [do_swap_in_info s dest hv hp hh], fun q hq => ?_⟩
      unfold do_swap_in
      simp only [hp, hh, Option.isSome_none, Bool.false_eq_true, if_false,
        ChannelImpl.set_info, if_neg hq, produce_tensor_infos]

/-- C14, counterexample: after `put`, `apply_op` with DROP enabled, `drop` of the output and
`sync`, the output is DROP-evicted without `ptr`; `regenerate` with `must_drop` false returns
normally and leaves the output with `ptr` present and `evict_type == DROP`, and so does a
`get_value` of the output on the channel. -/
theorem regenerate_leaves_drop_set :
    ((run_api Extern.sum (ChannelImpl.create id 3 2 ⟨true, true⟩ 1)
      [.put ⟨42, ⟨1, ⟨true, 0⟩⟩, ⟨true, 0⟩⟩ false, .apply_op ⟨.Other 0, 7⟩ [0], .drop 1,
        .sync]).infos 1).evict_type = .DROP ∧
    ((run_api Extern.sum (ChannelImpl.create id 3 2 ⟨true, true⟩ 1)
      [.put ⟨42, ⟨1, ⟨true, 0⟩⟩, ⟨true, 0⟩⟩ false, .apply_op ⟨.Other 0, 7⟩ [0], .drop 1,
        .sync]).infos 1).ptr = none ∧
    (regenerate Extern.sum 3 (run_api Extern.sum (ChannelImpl.create id 3 2 ⟨true, true⟩ 1)
      [.put ⟨42, ⟨1, ⟨true, 0⟩⟩, ⟨true, 0⟩⟩ false, .apply_op ⟨.Other 0, 7⟩ [0], .drop 1,
        .sync]) 1 false).2 = none ∧
    ((regenerate Extern.sum 3 (run_api Extern.sum (ChannelImpl.create id 3 2 ⟨true, true⟩ 1)
      [.put ⟨42, ⟨1, ⟨true, 0⟩⟩, ⟨true, 0⟩⟩ false, .apply_op ⟨.Other 0, 7⟩ [0], .drop 1,
        .sync]) 1 false).1.infos 1).ptr.isSome = true ∧
    ((regenerate Extern.sum 3 (run_api Extern.sum (ChannelImpl.create id 3 2 ⟨true, true⟩ 1)
      [.put ⟨42, ⟨1, ⟨true, 0⟩⟩, ⟨true, 0⟩⟩ false, .apply_op ⟨.Other 0, 7⟩ [0], .drop 1,
        .sync]) 1 false).1.infos 1).evict_type = .DROP ∧
    ((run_api Extern.sum (ChannelImpl.create id 3 2 ⟨true, true⟩ 1)
      [.put ⟨42, ⟨1, ⟨true, 0⟩⟩, ⟨true, 0⟩⟩ false, .apply_op ⟨.Other 0, 7⟩ [0], .drop 1, .sync,
        .get_value 1]).infos 1).ptr.isSome = true ∧
    ((run_api Extern.sum (ChannelImpl.create id 3 2 ⟨true, true⟩ 1)
      [.put ⟨42, ⟨1, ⟨true, 0⟩⟩, ⟨true, 0⟩⟩ false, .apply_op ⟨.Other 0, 7⟩ [0], .drop 1, .sync,
        .get_value 1]).infos 1).evict_type = .DROP := by
  decide

/-- C14, amended: `do_swap_out` and `do_drop` either leave the channel as it was or leave the
info without `ptr` and SWAP- resp. DROP-evicted, and `do_swap_in` either leaves the channel as
it was or leaves the info with `ptr` and `evict_type == NONE`. The property "a SWAP-evicted
record has no `ptr`" is kept by `do_swap_out`, `do_swap_in`, `do_drop`, `regenerate` in both
modes and `free`. After `regenerate(info)` with `must_drop` false on a SWAP-evicted info with a
host copy, `ptr` is present and `evict_type == NONE`; on a DROP-evicted info `evict_type` is
still DROP, also when `ptr` has been restored. Only in must-drop mode does a `regenerate` that
returns leave a backed info not DROP-evicted. -/
theorem eviction_and_ptr (ext : Extern) (fuel : Nat) (s : ChannelImpl) (info : TensorInfoPtr) :
    (do_swap_out s info = s ∨
      (((do_swap_out s info).infos info).ptr = none ∧
        ((do_swap_out s info).infos info).evict_type = .SWAP)) ∧
    (do_drop s info = s ∨
      (((do_drop s info).infos info).ptr = none ∧
        ((do_drop s info).infos info).evict_type = .DROP)) ∧
    (do_swap_in s info = s ∨
      (((do_swap_in s info).infos info).ptr.isSome = true ∧
        ((do_swap_in s info).infos info).evict_type = .NONE)) ∧
    ((∀ q, (s.infos q).evict_type = .SWAP → (s.infos q).ptr = none) →
      ∀ must_drop q,
        (((do_swap_out s info).infos q).evict_type = .SWAP →
          ((do_swap_out s info).infos q).ptr = none) ∧
        (((do_swap_in s info).infos q).evict_type = .SWAP →
          ((do_swap_in s info).infos q).ptr = none) ∧
        (((do_drop s info).infos q).evict_type = .SWAP →
          ((do_drop s info).infos q).ptr = none) ∧
        (((regenerate ext fuel s info must_drop).1.infos q).evict_type = .SWAP →
          ((regenerate ext fuel s info must_drop).1.infos q).ptr = none) ∧
        (((free ext fuel s info).1.infos q).evict_type = .SWAP →
          ((free ext fuel s info).1.infos q).ptr = none)) ∧
    ((s.infos info).evict_type = .SWAP → (s.infos info).ptr = none →
      (s.infos info).h_value.isSome = true →
      (regenerate ext (fuel + 1) s info false).2 = none ∧
      ((regenerate ext (fuel + 1) s info false).1.infos info).ptr.isSome = true ∧
      ((regenerate ext (fuel + 1) s info false).1.infos info).evict_type = .NONE) ∧
    ((s.infos info).evict_type = .DROP →
      ((regenerate ext fuel s info false).1.infos info).evict_type = .DROP) ∧
    (EvictBacked (s.infos info) → (regenerate ext (fuel + 1) s info true).2 = none →
      ((regenerate ext (fuel + 1) s info true).1.infos info).evict_type ≠ .DROP) := by
  refine ⟨?_, ?_, ?_, fun hK must_drop q => ⟨?_, ?_, ?_, ?_, ?_⟩, fun hsw hp hh => ?_,
    fun hd => ?_, fun hb hret => ?_⟩
  · rcases do_swap_out_acts s info with h | h
    · exact Or.inl h
    · exact Or.inr ⟨h.1, h.2.1⟩
  · rcases do_drop_acts s info with h | h
    · exact Or.inl h
    · exact Or.inr ⟨h.1, h.2.1⟩
  · rcases do_swap_in_acts s info with h | h
    · exact Or.inl h
    · exact Or.inr ⟨h.1, h.2.1⟩
  · rcases do_swap_out_acts s info with h | h
    · rw [h]; exact hK q
    · by_cases hq : q = info
      · subst hq; exact fun _ => h.1
      · rw [h.2.2 q hq]; exact hK q
  · rcases do_swap_in_acts s info with h | h
    · rw [h]; exact hK q
    · by_cases hq : q = info
      · subst hq
        intro hsw
        rw [h.2.1] at hsw
        cases hsw
      · rw [h.2.2 q hq]; exact hK q
  · rcases do_drop_acts s info with h | h
    · rw [h]; exact hK q
    · by_cases hq : q = info
      · subst hq; exact fun _ => h.1
      · rw [h.2.2 q hq]; exact hK q
  · exact (steps_regenerate ext fuel s info must_drop q).swap_without_ptr (hK q)
  · exact (steps_free ext fuel s info q).swap_without_ptr (hK q)
  · obtain ⟨hv, hhv⟩ := Option.isSome_iff_exists.1 hh
    have hin := do_swap_in_info s info hv hp hhv
    have hreg : regenerate ext (fuel + 1) s info false =
        (sever (do_swap_in s info) info false, none) := by
      unfold regenerate
      simp [hp, hsw]
    rw [hreg]
    have hs : sever (do_swap_in s info) info false = do_swap_in s info := by
      unfold sever
      simp
    rw [hs, hin]
    exact ⟨rfl, rfl, rfl⟩
  · exact (steps_regenerate ext fuel s info false info).drop_stays hd
  · unfold regenerate at hret ⊢
    dsimp only at hret ⊢
    have hr : RegenSteps true s
        (if (s.infos info).ptr.isNone = true ∧ (s.infos info).evict_type ≠ .NONE then
          if (s.infos info).evict_type = .SWAP then (do_swap_in s info, none)
          else recompute ext (fun s1 i => regenerate ext fuel s1 i true) s info
        else (s, none)).1 := by
      split
      · split
        · rename_i hsw
          exact steps_do_swap_in true s info hsw
        · exact steps_recompute true ext _ (fun s1 i => steps_regenerate ext fuel s1 i true)
            s info
      · exact RegenSteps.steps_refl true s
    generalize (if (s.infos info).ptr.isNone = true ∧ (s.infos info).evict_type ≠ .NONE then
        if (s.infos info).evict_type = .SWAP then (do_swap_in s info, none)
        else recompute ext (fun s1 i => regenerate ext fuel s1 i true) s info
      else (s, none)) = r at hr hret ⊢
    obtain ⟨s1, e⟩ := r
    cases e with
    | some e => simp at hret
    | none =>
      dsimp only
      have hb1 : EvictBacked (s1.infos info) := (hr info).backed hb
      rw [(sever_spec s1 info true).2]
      split
      · dsimp only
        split
        · intro h; cases h
        · rename_i hne
          exact hne
      · rename_i hc
        intro hd
        exact hc ⟨rfl, hb1.2 hd⟩

/-- Witness of C14: a swapped-out device tensor comes back with `evict_type == NONE`; the
dropped output of an operator is still DROP-evicted after `regenerate`. -/
theorem eviction_and_ptr_witness :
    ((regenerate Extern.sum 3
      (do_swap_out (put_device (ChannelImpl.create id 3 2 ⟨true, true⟩ 1)
        ⟨42, ⟨1, ⟨true, 0⟩⟩, ⟨true, 0⟩⟩).state 0) 0 false).1.infos 0).evict_type = .NONE ∧
    ((regenerate Extern.sum 3 (run_api Extern.sum (ChannelImpl.create id 3 2 ⟨true, true⟩ 1)
      [.put ⟨42, ⟨1, ⟨true, 0⟩⟩, ⟨true, 0⟩⟩ false, .apply_op ⟨.Other 0, 7⟩ [0], .drop 1,
        .sync]) 1 false).1.infos 1).evict_type = .DROP :=
  ⟨((eviction_and_ptr Extern.sum 2
      (do_swap_out (put_device (ChannelImpl.create id 3 2 ⟨true, true⟩ 1)
        ⟨42, ⟨1, ⟨true, 0⟩⟩, ⟨true, 0⟩⟩).state 0) 0).2.2.2.2.1
      (by decide) (by decide) (by decide)).2.2,
   (eviction_and_ptr Extern.sum 3 (run_api Extern.sum (ChannelImpl.create id 3 2 ⟨true, true⟩ 1)
      [.put ⟨42, ⟨1, ⟨true, 0⟩⟩, ⟨true, 0⟩⟩ false, .apply_op ⟨.Other 0, 7⟩ [0], .drop 1,
        .sync]) 1).2.2.2.2.2.1 (by decide)⟩

/-! ## What `regenerate` keeps -/

theorem RegenStep.ptr_kept {md : Bool} {a b : TensorInfo} (h : RegenStep md a b)
    (ha : a.ptr.isSome = true) : b.ptr = a.ptr := by
  induction h with
  | same i => rfl
  | next _ _ ih1 ih2 =>
    have h1 := ih1 ha
    rw [ih2 (by rw [h1]; exact ha), h1]
  | swap_in i hv h1 h2 h3 => rw [h1] at ha; cases ha
  | bump i => rfl
  | republish i t h1 h2 => rw [h1] at ha; cases ha
  | sever i _ h2 => rfl

theorem RegenStep.path_kept {md : Bool} {a b : TensorInfo} (h : RegenStep md a b) :
    b.path.outputs = a.path.outputs ∧ b.path.dep_outputs = a.path.dep_outputs ∧
    (b.path = a.path ∨
      (md = true ∧ b.path.op = none ∧ b.path.inputs = [] ∧ b.evict_type ≠ .DROP)) ∧
    (a.evict_type ≠ .DROP → b.evict_type ≠ .DROP) := by
  induction h with
  | same i => exact ⟨rfl, rfl, Or.inl rfl, fun h => h⟩
  | next _ _ ih1 ih2 =>
    obtain ⟨a1, a2, a3, a4⟩ := ih1
    obtain ⟨b1, b2, b3, b4⟩ := ih2
    refine ⟨b1.trans a1, b2.trans a2, ?_, fun h => b4 (a4 h)⟩
    rcases b3 with b3 | b3
    · rcases a3 with a3 | a3
      · exact Or.inl (b3.trans a3)
      · exact Or.inr ⟨a3.1, by rw [b3]; exact a3.2.1, by rw [b3]; exact a3.2.2.1,
          b4 a3.2.2.2⟩
    · exact Or.inr b3
  | swap_in i hv h1 h2 h3 =>
    exact ⟨rfl, rfl, Or.inl rfl, fun _ h => by cases h⟩
  | bump i => exact ⟨rfl, rfl, Or.inl rfl, fun h => h⟩
  | republish i t h1 h2 => exact ⟨rfl, rfl, Or.inl rfl, fun h => h⟩
  | sever i h1 h2 =>
    refine ⟨rfl, rfl, Or.inr ⟨h1, rfl, rfl, ?_⟩, ?_⟩
    · dsimp only
      split
      · intro h; cases h
      · rename_i hne; exact hne
    · intro hne
      dsimp only
      rw [if_neg hne]
      exact hne

theorem RegenStep.restorable_kept {a b : TensorInfo} (h : RegenStep false a b)
    (ha : a.ptr.isSome = true ∨ (a.evict_type = .DROP ∧ a.path.op.isSome = true)) :
    b.ptr.isSome = true ∨ (b.evict_type = .DROP ∧ b.path.op.isSome = true) := by
  induction h with
  | same i => exact ha
  | next _ _ ih1 ih2 => exact ih2 (ih1 ha)
  | swap_in i hv h1 h2 h3 => exact Or.inl rfl
  | bump i => exact ha
  | republish i t h1 h2 => exact Or.inl rfl
  | sever i h1 h2 => cases h1

theorem st_publish_outputs (path : ComputePath) (ts : List Tensor) (i : Nat) (s : ChannelImpl) :
    (publish_outputs path ts i s).1.m_st = s.m_st := by
  induction ts generalizing i s with
  | nil => rfl
  | cons t ts ih =>
    unfold publish_outputs
    split
    · rfl
    · split
      · rw [ih]
        dsimp only
        split
        · unfold produce_tensor
          dsimp only
          split <;> rfl
        · rfl
      · exact ih _ _

theorem st_gather_history_inputs
    (regen : ChannelImpl → TensorInfoPtr → ChannelImpl × Option Exc)
    (hregen : ∀ s i, (regen s i).1.m_st = s.m_st) (l : List TensorInfoPtr) (s : ChannelImpl)
    (inputs : List (Option Tensor)) :
    (gather_history_inputs regen l s inputs).1.m_st = s.m_st := by
  induction l generalizing s inputs with
  | nil => rfl
  | cons i rest ih =>
    unfold gather_history_inputs
    dsimp only
    have hr : (if (s.infos i).ptr.isNone = true then regen s i else (s, none)).1.m_st =
        s.m_st := by
      split
      · exact hregen s i
      · rfl
    split
    · rename_i heq
      rw [heq] at hr
      exact hr
    · rename_i heq
      rw [heq] at hr
      exact (ih _ _).trans hr

theorem st_recompute (ext : Extern)
    (regen : ChannelImpl → TensorInfoPtr → ChannelImpl × Option Exc)
    (hregen : ∀ s i, (regen s i).1.m_st = s.m_st) (s : ChannelImpl) (info : TensorInfoPtr) :
    (recompute ext regen s info).1.m_st = s.m_st := by
  unfold recompute
  split
  · rfl
  · dsimp only
    have hg := st_gather_history_inputs regen hregen (s.infos info).path.inputs s []
    split
    · rename_i heq
      rw [heq] at hg
      exact hg
    · rename_i heq
      rw [heq] at hg
      split
      · split
        · exact hg
        · exact (st_publish_outputs _ _ _ _).trans hg
      · exact hg

theorem st_sever (s : ChannelImpl) (info : TensorInfoPtr) (md : Bool) :
    (sever s info md).m_st = s.m_st :=
  (sever_spec s info md).1.1

theorem st_do_swap_in (s : ChannelImpl) (dest : TensorInfoPtr) :
    (do_swap_in s dest).m_st = s.m_st := by
  unfold do_swap_in
  dsimp only
  split
  · rfl
  · split
    · rfl
    · unfold produce_tensor
      dsimp only [ChannelImpl.set_info]
      split <;> rfl

theorem st_regenerate (ext : Extern) (fuel : Nat) (s : ChannelImpl) (info : TensorInfoPtr)
    (must_drop : Bool) : (regenerate ext fuel s info must_drop).1.m_st = s.m_st := by
  induction fuel generalizing s info with
  | zero => rfl
  | succ fuel ih =>
    unfold regenerate
    dsimp only
    have hr : (if (s.infos info).ptr.isNone = true ∧ (s.infos info).evict_type ≠ .NONE then
          if (s.infos info).evict_type = .SWAP then (do_swap_in s info, none)
          else recompute ext (fun s1 i => regenerate ext fuel s1 i must_drop) s info
        else (s, none)).1.m_st = s.m_st := by
      split
      · split
        · exact st_do_swap_in s info
        · exact st_recompute ext _ (fun s1 i => ih s1 i) s info
      · rfl
    split
    · rename_i heq
      rw [heq] at hr
      exact hr
    · rename_i heq
      rw [heq] at hr
      exact (st_sever _ _ _).trans hr

theorem st_remove_dep_loop (ext : Extern) (fuel : Nat) (l : List TensorInfoPtr)
    (s : ChannelImpl) : (remove_dep_loop ext fuel l s).1.m_st = s.m_st := by
  induction l generalizing s with
  | nil => rfl
  | cons i rest ih =>
    unfold remove_dep_loop
    dsimp only
    have hr : (if i ∈ s.m_st then regenerate ext fuel s i true else (s, none)).1.m_st =
        s.m_st := by
      split
      · exact st_regenerate ext fuel s i true
      · rfl
    split
    · rename_i heq
      rw [heq] at hr
      exact hr
    · rename_i heq
      rw [heq] at hr
      exact (ih _).trans hr

/-- One visit of the loop over the outputs, as a record update. -/
theorem publish_outputs_cons (path : ComputePath) (t : Tensor) (ts : List Tensor) (i : Nat)
    (s : ChannelImpl) (o : TensorInfoPtr) (ho : path.outputs.get? i = some o) :
    publish_outputs path (t :: ts) i s =
      if o ∈ s.m_st then
        publish_outputs path ts (i + 1) (s.set_info o (publish_one (s.infos o) t))
      else publish_outputs path ts (i + 1) s := by
  rw [publish_outputs]
  simp only [ho]
  split
  · congr 1
    unfold publish_one produce_tensor
    simp only [ChannelImpl.set_info, if_true, Bool.false_eq_true, false_and, if_false]
    split
    · cases s
      simp only [ChannelImpl.mk.injEq, and_true, true_and]
      funext q
      split <;> simp_all
    · cases s
      simp only [ChannelImpl.mk.injEq, and_true, true_and]
  · rfl

theorem nodup_get?_inj {l : List TensorInfoPtr} (hnd : l.Nodup) {i k : Nat} {q : TensorInfoPtr}
    (h1 : l.get? i = some q) (h2 : l.get? k = some q) : i = k := by
  rw [List.get?_eq_getElem?] at h1 h2
  obtain ⟨hi, h1⟩ := List.getElem?_eq_some.1 h1
  obtain ⟨hk, h2⟩ := List.getElem?_eq_some.1 h2
  exact (hnd.getElem_inj_iff).1 (h1.trans h2.symm)

/-- The loop over the outputs in `regenerate`, for recorded outputs that are distinct: a record
outside the visited positions, or not live, is untouched; the live record at a visited position
is visited once; and the loop throws only when there are more tensors than positions. -/
theorem publish_outputs_spec (path : ComputePath) (hnd : path.outputs.Nodup) (ts : List Tensor)
    (i : Nat) (s : ChannelImpl) :
    (∀ q, (∀ k, i ≤ k → k < i + ts.length → path.outputs.get? k ≠ some q) →
      (publish_outputs path ts i s).1.infos q = s.infos q) ∧
    (∀ q, q ∉ s.m_st → (publish_outputs path ts i s).1.infos q = s.infos q) ∧
    (∀ q k t, i ≤ k → ts.get? (k - i) = some t → path.outputs.get? k = some q → q ∈ s.m_st →
      (publish_outputs path ts i s).1.infos q = publish_one (s.infos q) t) ∧
    (i + ts.length ≤ path.outputs.length → (publish_outputs path ts i s).2 = none) := by
  induction ts generalizing i s with
  | nil =>
    refine ⟨fun q _ => rfl, fun q _ => rfl, fun q k t _ ht => ?_, fun _ => rfl⟩
    simp at ht
  | cons t ts ih =>
    cases ho : path.outputs.get? i with
    | none =>
      have hlen : path.outputs.length ≤ i := by
        rw [List.get?_eq_getElem?] at ho
        exact List.getElem?_eq_none_iff.1 ho
      have hr : publish_outputs path (t :: ts) i s = (s, some .out_of_range) := by
        rw [publish_outputs]
        simp only [ho]
      rw [hr]
      refine ⟨fun q _ => rfl, fun q _ => rfl, fun q k t' hk _ hq => ?_, fun h => ?_⟩
      · have : path.outputs.get? k = none := by
          rw [List.get?_eq_getElem?]
          exact List.getElem?_eq_none_iff.2 (Nat.le_trans hlen hk)
        rw [this] at hq
        cases hq
      · simp only [List.length_cons] at h
        omega
    | some o =>
      rw [publish_outputs_cons path t ts i s o ho]
      by_cases hlive : o ∈ s.m_st
      · rw [if_pos hlive]
        obtain ⟨ih1, ih2, ih3, ih4⟩ := ih (i + 1) (s.set_info o (publish_one (s.infos o) t))
        have hother : ∀ q, q ≠ o →
            (s.set_info o (publish_one (s.infos o) t)).infos q = s.infos q :=
          fun q hq => by simp [ChannelImpl.set_info, hq]
        have hlater : ∀ k, i + 1 ≤ k → k < i + 1 + ts.length →
            path.outputs.get? k ≠ some o := by
          intro k hk _ hko
          have := nodup_get?_inj hnd ho hko
          omega
        refine ⟨fun q hq => ?_, fun q hq => ?_, fun q k t' hk ht hq hql => ?_, fun h => ?_⟩
        · have hqo : q ≠ o := by
            rintro rfl
            exact hq i (Nat.le_refl i) (by simp) ho
          rw [ih1 q (fun k hk1 hk2 => hq k (by omega) (by simp only [List.length_cons]; omega)),
            hother q hqo]
        · have hqo : q ≠ o := by
            rintro rfl
            exact hq hlive
          rw [ih2 q hq, hother q hqo]
        · rcases Nat.eq_or_lt_of_le hk with hik | hik
          · subst hik
            have hqo : q = o := by
              rw [ho] at hq
              exact (Option.some.inj hq).symm
            subst hqo
            simp only [Nat.sub_self, List.get?_cons_zero, Option.some.injEq] at ht
            subst ht
            rw [ih1 q hlater]
            simp [ChannelImpl.set_info]
          · have hqo : q ≠ o := by
              rintro rfl
              have := nodup_get?_inj hnd ho hq
              omega
            have ht' : ts.get? (k - (i + 1)) = some t' := by
              have hki : k - i = (k - (i + 1)) + 1 := by omega
              rw [hki, List.get?_cons_succ] at ht
              exact ht
            rw [ih3 q k t' hik ht' hq hql, hother q hqo]
        · exact ih4 (by simp only [List.length_cons] at h; omega)
      · rw [if_neg hlive]
        obtain ⟨ih1, ih2, ih3, ih4⟩ := ih (i + 1) s
        refine ⟨fun q hq => ?_, fun q hq => ih2 q hq, fun q k t' hk ht hq hql => ?_,
          fun h => ?_⟩
        · exact ih1 q (fun k hk1 hk2 => hq k (by omega)
            (by simp only [List.length_cons]; omega))
        · rcases Nat.eq_or_lt_of_le hk with hik | hik
          · subst hik
            rw [ho] at hq
            cases hq
            exact absurd hql hlive
          · have ht' : ts.get? (k - (i + 1)) = some t' := by
              have hki : k - i = (k - (i + 1)) + 1 := by omega
              rw [hki, List.get?_cons_succ] at ht
              exact ht
            exact ih3 q k t' hik ht' hq hql
        · exact ih4 (by simp only [List.length_cons] at h; omega)

/-- The loop over the outputs fills a live record that sits at a visited position and is
there already or DROP-evicted. -/
theorem publish_outputs_fills (path : ComputePath) (ts : List Tensor) (i : Nat)
    (s : ChannelImpl) (c : TensorInfoPtr) (k : Nat) (hik : i ≤ k) (hk : k < i + ts.length)
    (hc : path.outputs.get? k = some c) (hlive : c ∈ s.m_st)
    (hpre : (s.infos c).ptr.isSome = true ∨ (s.infos c).evict_type = .DROP) :
    ((publish_outputs path ts i s).1.infos c).ptr.isSome = true := by
  induction ts generalizing i s with
  | nil => simp at hk; omega
  | cons t ts ih =>
    have hlen : k < path.outputs.length := by
      rw [List.get?_eq_getElem?] at hc
      exact (List.getElem?_eq_some.1 hc).1
    have hi : i < path.outputs.length := by omega
    obtain ⟨o, ho⟩ : ∃ o, path.outputs.get? i = some o :=
      ⟨path.outputs[i], by rw [List.get?_eq_getElem?]; exact List.getElem?_eq_getElem hi⟩
    rw [publish_outputs_cons path t ts i s o ho]
    have hone : ∀ info : TensorInfo,
        (info.ptr.isSome = true ∨ info.evict_type = .DROP) →
        (publish_one info t).ptr.isSome = true ∧
          (info.ptr.isSome = true → (publish_one info t).ptr = info.ptr) := by
      intro info hp
      unfold publish_one
      split
      · rename_i hcnd
        refine ⟨rfl, fun h => ?_⟩
        rw [Option.isNone_iff_eq_none.1 hcnd.1] at h
        cases h
      · rename_i hcnd
        refine ⟨?_, fun _ => rfl⟩
        rcases hp with hp | hp
        · exact hp
        · cases hptr : info.ptr with
          | some t' => rfl
          | none => exact absurd ⟨by rw [hptr]; rfl, hp⟩ hcnd
    rcases Nat.eq_or_lt_of_le hik with heq | hlt
    · subst heq
      rw [ho] at hc
      cases hc
      rw [if_pos hlive]
      have hnow : ((s.set_info c (publish_one (s.infos c) t)).infos c).ptr.isSome = true := by
        rw [set_info_at]
        exact (hone _ hpre).1
      rw [(steps_publish_outputs false path ts (i + 1) _ c).ptr_kept hnow]
      exact hnow
    · have hk' : k < i + 1 + ts.length := by
        simp only [List.length_cons] at hk
        omega
      by_cases hol : o ∈ s.m_st
      · rw [if_pos hol]
        refine ih (i + 1) _ hlt hk' hlive ?_
        by_cases hco : c = o
        · subst hco
          rw [set_info_at]
          exact Or.inl (hone _ hpre).1
        · simpa [ChannelImpl.set_info, hco] using hpre
      · rw [if_neg hol]
        exact ih (i + 1) s hlt hk' hlive hpre

/-! ## Freeing an input severs its dependents -/

theorem RegenStep.severed_kept {md : Bool} {a b : TensorInfo} (h : RegenStep md a b)
    (ha : a.path.op = none → Severed a) : b.path.op = none → Severed b := by
  obtain ⟨_, _, h3, h4⟩ := h.path_kept
  intro hb
  rcases h3 with h3 | h3
  · rw [h3] at hb
    obtain ⟨a1, a2, a3⟩ := ha hb
    exact ⟨by rw [h3]; exact a1, by rw [h3]; exact a2, h4 a3⟩
  · exact ⟨h3.2.1, h3.2.2.1, h3.2.2.2⟩

theorem RegenStep.severed_stays {md : Bool} {a b : TensorInfo} (h : RegenStep md a b)
    (ha : Severed a) : Severed b := by
  obtain ⟨_, _, h3, h4⟩ := h.path_kept
  rcases h3 with h3 | h3
  · exact ⟨by rw [h3]; exact ha.1, by rw [h3]; exact ha.2.1, h4 ha.2.2⟩
  · exact ⟨h3.2.1, h3.2.2.1, h3.2.2.2⟩

theorem free_returns (ext : Extern) (fuel : Nat) (s : ChannelImpl) (a : TensorInfoPtr)
    (hfree : (free ext fuel s a).2 = none)
    (hlen : (s.infos a).path.dep_outputs.length > 0) :
    (remove_dep ext fuel s a).2 = none ∧
    (free ext fuel s a).1 =
      { (remove_dep ext fuel s a).1 with
        m_st := (remove_dep ext fuel s a).1.m_st.filter (fun q => q ≠ a) } := by
  unfold free at hfree ⊢
  dsimp only at hfree ⊢
  rw [if_pos hlen] at hfree ⊢
  generalize remove_dep ext fuel s a = r at hfree ⊢
  obtain ⟨s1, e⟩ := r
  cases e with
  | some e => simp at hfree
  | none =>
    dsimp only at hfree ⊢
    refine ⟨rfl, ?_⟩
    split <;> rfl

theorem Restorable.of_steps {ext : Extern} {c : TensorInfoPtr} {s s' : ChannelImpl}
    (h : Restorable ext c s) (hsteps : RegenSteps false s s') (hst : s'.m_st = s.m_st) :
    Restorable ext c s' := by
  obtain ⟨h1, h2, h3⟩ := h
  refine ⟨hst ▸ h1, ?_, (hsteps c).restorable_kept h3⟩
  rcases (hsteps c).path_kept.2.2.1 with hp | hp
  · rw [hp]; exact h2
  · cases hp.1

theorem gather_history_inputs_restorable (ext : Extern) (c : TensorInfoPtr)
    (regen : ChannelImpl → TensorInfoPtr → ChannelImpl × Option Exc)
    (hregen : ∀ s i, (regen s i).2 = none → Restorable ext c s → Restorable ext c (regen s i).1)
    (l : List TensorInfoPtr) (s : ChannelImpl) (inputs : List (Option Tensor))
    (hret : (gather_history_inputs regen l s inputs).2.2 = none) (hs : Restorable ext c s) :
    Restorable ext c (gather_history_inputs regen l s inputs).1 := by
  induction l generalizing s inputs with
  | nil => exact hs
  | cons i rest ih =>
    unfold gather_history_inputs at hret ⊢
    dsimp only at hret ⊢
    have hr : (if (s.infos i).ptr.isNone = true then regen s i else (s, none)).2 = none →
        Restorable ext c (if (s.infos i).ptr.isNone = true then regen s i else (s, none)).1 := by
      split
      · exact fun h => hregen s i h hs
      · exact fun _ => hs
    generalize (if (s.infos i).ptr.isNone = true then regen s i else (s, none)) = r
      at hr hret ⊢
    obtain ⟨s1, e⟩ := r
    cases e with
    | some e => simp at hret
    | none => exact ih _ _ hret (hr rfl)

theorem regenerate_restorable (ext : Extern) (c : TensorInfoPtr) (fuel : Nat) (s : ChannelImpl)
    (x : TensorInfoPtr) (md : Bool) (hret : (regenerate ext fuel s x md).2 = none)
    (hs : Restorable ext c s) :
    Restorable ext c (regenerate ext fuel s x md).1 ∧
    (x = c → ((regenerate ext fuel s x md).1.infos c).ptr.isSome = true) := by
  induction fuel generalizing s x with
  | zero => simp [regenerate] at hret
  | succ fuel ih =>
    unfold regenerate at hret ⊢
    dsimp only at hret ⊢
    have hr : (if (s.infos x).ptr.isNone = true ∧ (s.infos x).evict_type ≠ .NONE then
          if (s.infos x).evict_type = .SWAP then (do_swap_in s x, none)
          else recompute ext (fun s1 i => regenerate ext fuel s1 i md) s x
        else (s, none)).2 = none →
        Restorable ext c
          (if (s.infos x).ptr.isNone = true ∧ (s.infos x).evict_type ≠ .NONE then
            if (s.infos x).evict_type = .SWAP then (do_swap_in s x, none)
            else recompute ext (fun s1 i => regenerate ext fuel s1 i md) s x
          else (s, none)).1 ∧
        (x = c →
          ((if (s.infos x).ptr.isNone = true ∧ (s.infos x).evict_type ≠ .NONE then
            if (s.infos x).evict_type = .SWAP then (do_swap_in s x, none)
            else recompute ext (fun s1 i => regenerate ext fuel s1 i md) s x
          else (s, none)).1.infos c).ptr.isSome = true) := by
      split
      · rename_i hcnd
        split
        · rename_i hsw
          intro _
          refine ⟨hs.of_steps (steps_do_swap_in false s x hsw) (st_do_swap_in s x), ?_⟩
          rintro rfl
          rcases hs.2.2 with h | h
          · rw [Option.isNone_iff_eq_none.1 hcnd.1] at h
            cases h
          · rw [hsw] at h
            cases h.1
        · rename_i hnsw
          intro hrec
          unfold recompute at hrec ⊢
          cases hop : (s.infos x).path.op with
          | none => simp [hop] at hrec
          | some op =>
            simp only [hop] at hrec ⊢
            have hg := gather_history_inputs_restorable ext c
              (fun s1 i => regenerate ext fuel s1 i md)
              (fun s1 i h1 h2 => (ih s1 i h1 h2).1) (s.infos x).path.inputs s []
            have hgst := st_gather_history_inputs (fun s1 i => regenerate ext fuel s1 i md)
              (fun s1 i => st_regenerate ext fuel s1 i md) (s.infos x).path.inputs s []
            generalize gather_history_inputs (fun s1 i => regenerate ext fuel s1 i md)
              (s.infos x).path.inputs s [] = g at hg hgst hrec ⊢
            obtain ⟨sg, inputs, e⟩ := g
            cases e with
            | some e => simp at hrec
            | none =>
              dsimp only at hrec ⊢
              have hsg := hg rfl hs
              by_cases hall : inputs.all Option.isSome = true
              · rw [if_pos hall] at hrec ⊢
                cases happ : ext.apply_on_physical_tensor op (inputs.filterMap id) with
                | none => simp [happ] at hrec
                | some os =>
                  simp only [happ] at hrec ⊢
                  refine ⟨hsg.of_steps (steps_publish_outputs false _ _ _ _)
                    (st_publish_outputs _ _ _ _), ?_⟩
                  rintro rfl
                  obtain ⟨k, hk1, hk2⟩ := hs.2.1 op hop
                  refine publish_outputs_fills (s.infos x).path os 0 sg x k (Nat.zero_le k)
                    (by simpa using hk2 _ _ happ) hk1 hsg.1 ?_
                  rcases hsg.2.2 with h | h
                  · exact Or.inl h
                  · exact Or.inr h.1
              · rw [if_neg hall] at hrec
                simp at hrec
      · rename_i hcnd
        intro _
        refine ⟨hs, ?_⟩
        rintro rfl
        rcases hs.2.2 with h | h
        · exact h
        · cases hptr : (s.infos x).ptr with
          | some t => rfl
          | none =>
            exact absurd ⟨by rw [hptr]; rfl, by rw [h.1]; exact fun h => by cases h⟩ hcnd
    generalize (if (s.infos x).ptr.isNone = true ∧ (s.infos x).evict_type ≠ .NONE then
        if (s.infos x).evict_type = .SWAP then (do_swap_in s x, none)
        else recompute ext (fun s1 i => regenerate ext fuel s1 i md) s x
      else (s, none)) = r at hr hret ⊢
    obtain ⟨s1, e⟩ := r
    cases e with
    | some e => simp at hret
    | none =>
      obtain ⟨hs1, hx1⟩ := hr rfl
      dsimp only at hs1 hx1 ⊢
      obtain ⟨⟨hst, _, hother⟩, hat⟩ := sever_spec s1 x md
      by_cases hxc : x = c
      · subst hxc
        have hp := (sever_keeps_ptr s1 x md).1
        have hsome : ((sever s1 x md).infos x).ptr.isSome = true := by
          rw [hp]; exact hx1 rfl
        refine ⟨⟨hst ▸ hs1.1, ?_, Or.inl hsome⟩, fun _ => hsome⟩
        rw [hat]
        split
        · intro op hop
          cases hop
        · exact hs1.2.1
      · have hc : (sever s1 x md).infos c = s1.infos c := hother c (fun h => hxc h.symm)
        refine ⟨⟨hst ▸ hs1.1, by rw [hc]; exact hs1.2.1, by rw [hc]; exact hs1.2.2⟩, ?_⟩
        intro h
        exact absurd h hxc

theorem regenerate_severs (ext : Extern) (fuel : Nat) (s : ChannelImpl) (x : TensorInfoPtr)
    (hret : (regenerate ext fuel s x true).2 = none)
    (hsafe : (s.infos x).path.op = none → Severed (s.infos x)) :
    Severed ((regenerate ext fuel s x true).1.infos x) := by
  cases fuel with
  | zero => simp [regenerate] at hret
  | succ fuel =>
    unfold regenerate at hret ⊢
    dsimp only at hret ⊢
    have hr : RegenSteps true s
        (if (s.infos x).ptr.isNone = true ∧ (s.infos x).evict_type ≠ .NONE then
          if (s.infos x).evict_type = .SWAP then (do_swap_in s x, none)
          else recompute ext (fun s1 i => regenerate ext fuel s1 i true) s x
        else (s, none)).1 := by
      split
      · split
        · rename_i hsw
          exact steps_do_swap_in true s x hsw
        · exact steps_recompute true ext _ (fun s1 i => steps_regenerate ext fuel s1 i true) s x
      · exact RegenSteps.steps_refl true s
    generalize (if (s.infos x).ptr.isNone = true ∧ (s.infos x).evict_type ≠ .NONE then
        if (s.infos x).evict_type = .SWAP then (do_swap_in s x, none)
        else recompute ext (fun s1 i => regenerate ext fuel s1 i true) s x
      else (s, none)) = r at hr hret ⊢
    obtain ⟨s1, e⟩ := r
    cases e with
    | some e => simp at hret
    | none =>
      dsimp only at hr ⊢
      have hsafe1 := (hr x).severed_kept hsafe
      rw [(sever_spec s1 x true).2]
      split
      · refine ⟨rfl, rfl, ?_⟩
        dsimp only
        split
        · intro h; cases h
        · rename_i hne; exact hne
      · rename_i hc
        refine hsafe1 ?_
        cases hop : (s1.infos x).path.op with
        | none => rfl
        | some op => exact absurd ⟨rfl, by rw [hop]; rfl⟩ hc

theorem remove_dep_loop_severs (ext : Extern) (fuel : Nat) (l : List TensorInfoPtr)
    (s : ChannelImpl) (c : TensorInfoPtr)
    (hret : (remove_dep_loop ext fuel l s).2 = none) (hc : c ∈ l) (hlive : c ∈ s.m_st)
    (hsafe : (s.infos c).path.op = none → Severed (s.infos c)) :
    Severed ((remove_dep_loop ext fuel l s).1.infos c) := by
  induction l generalizing s with
  | nil => cases hc
  | cons i rest ih =>
    unfold remove_dep_loop at hret ⊢
    dsimp only at hret ⊢
    by_cases hi : i ∈ s.m_st
    · rw [if_pos hi] at hret ⊢
      have hsteps := steps_regenerate ext fuel s i true
      have hst := st_regenerate ext fuel s i true
      have hsev := regenerate_severs ext fuel s i
      generalize regenerate ext fuel s i true = r at hret hsteps hst hsev ⊢
      obtain ⟨s1, e⟩ := r
      cases e with
      | some e => simp at hret
      | none =>
        dsimp only at hret hsteps hst hsev ⊢
        by_cases hci : c = i
        · subst hci
          have h1 := hsev rfl hsafe
          exact (steps_remove_dep_loop ext fuel rest s1 c).severed_stays h1
        · rcases List.mem_cons.1 hc with h | h
          · exact absurd h hci
          · exact ih s1 hret h (hst ▸ hlive) ((hsteps c).severed_kept hsafe)
    · rw [if_neg hi] at hret ⊢
      dsimp only at hret ⊢
      rcases List.mem_cons.1 hc with h | h
      · subst h
        exact absurd hlive hi
      · exact ih s hret h hlive hsafe

theorem remove_dep_loop_restores (ext : Extern) (fuel : Nat) (l : List TensorInfoPtr)
    (s : ChannelImpl) (c : TensorInfoPtr)
    (hret : (remove_dep_loop ext fuel l s).2 = none) (hs : Restorable ext c s) :
    Restorable ext c (remove_dep_loop ext fuel l s).1 ∧
    (c ∈ l → ((remove_dep_loop ext fuel l s).1.infos c).ptr.isSome = true) := by
  induction l generalizing s with
  | nil => exact ⟨hs, fun h => by cases h⟩
  | cons i rest ih =>
    unfold remove_dep_loop at hret ⊢
    dsimp only at hret ⊢
    by_cases hi : i ∈ s.m_st
    · rw [if_pos hi] at hret ⊢
      have hreg := regenerate_restorable ext c fuel s i true
      generalize regenerate ext fuel s i true = r at hret hreg ⊢
      obtain ⟨s1, e⟩ := r
      cases e with
      | some e => simp at hret
      | none =>
        dsimp only at hret hreg ⊢
        obtain ⟨hs1, hx1⟩ := hreg rfl hs
        obtain ⟨ih1, ih2⟩ := ih s1 hret hs1
        refine ⟨ih1, fun hc => ?_⟩
        rcases List.mem_cons.1 hc with h | h
        · have hnow := hx1 h.symm
          rw [(steps_remove_dep_loop ext fuel rest s1 c).ptr_kept hnow]
          exact hnow
        · exact ih2 h
    · rw [if_neg hi] at hret ⊢
      dsimp only at hret ⊢
      obtain ⟨ih1, ih2⟩ := ih s hret hs
      refine ⟨ih1, fun hc => ?_⟩
      rcases List.mem_cons.1 hc with h | h
      · subst h
        exact absurd hs.1 hi
      · exact ih2 h

/-- C12: let `free(a)` return, let `c` be recorded in `a.dep_outputs` and still live after it,
and let the record of `c` be sound before (a null `path.op` comes with empty `path.inputs` and
no DROP eviction). Then after `free(a)` the record of `c` has `path.op` null, `path.inputs`
empty and `evict_type != DROP`, and a later `do_drop(c)` leaves the channel as it was. The
records that `free(a)` leaves are those that `remove_dep(a)` leaves, with `a` still registered;
if `c` was DROP-evicted without `ptr`, with its operator recorded and `c` among the outputs
that the operator fills, then `ptr` of `c` is present there, before `a` is removed. -/
theorem cascading_sever (ext : Extern) (fuel : Nat) (s : ChannelImpl) (a c : TensorInfoPtr)
    (hfree : (free ext fuel s a).2 = none)
    (hc : c ∈ (s.infos a).path.dep_outputs)
    (hlive : c ∈ (free ext fuel s a).1.m_st)
    (hsafe : (s.infos c).path.op = none →
      (s.infos c).path.inputs = [] ∧ (s.infos c).evict_type ≠ .DROP) :
    ((free ext fuel s a).1.infos c).path.op = none ∧
    ((free ext fuel s a).1.infos c).path.inputs = [] ∧
    ((free ext fuel s a).1.infos c).evict_type ≠ .DROP ∧
    do_drop (free ext fuel s a).1 c = (free ext fuel s a).1 ∧
    (remove_dep ext fuel s a).2 = none ∧
    (free ext fuel s a).1.infos = (remove_dep ext fuel s a).1.infos ∧
    (remove_dep ext fuel s a).1.m_st = s.m_st ∧
    ((s.infos c).evict_type = .DROP → (s.infos c).ptr = none →
      (s.infos c).path.op.isSome = true → OwnOutput ext (s.infos c).path c →
      ((remove_dep ext fuel s a).1.infos c).ptr.isSome = true ∧
      ((free ext fuel s a).1.infos c).ptr.isSome = true) := by
  have hlen : (s.infos a).path.dep_outputs.length > 0 := List.length_pos_of_mem hc
  obtain ⟨hrd, hfs⟩ := free_returns ext fuel s a hfree hlen
  have hst := st_remove_dep_loop ext fuel (s.infos a).path.dep_outputs s
  have hsev := remove_dep_loop_severs ext fuel (s.infos a).path.dep_outputs s c hrd hc
  have hres := remove_dep_loop_restores ext fuel (s.infos a).path.dep_outputs s c hrd
  rw [hfs] at hlive ⊢
  have hcs : c ∈ s.m_st := by
    have := (List.mem_filter.1 hlive).1
    rw [remove_dep, hst] at this
    exact this
  obtain ⟨h1, h2, h3⟩ := hsev hcs (fun h => ⟨h, (hsafe h).1, (hsafe h).2⟩)
  refine ⟨h1, h2, h3, ?_, hrd, rfl, hst, fun hd hp hop hown => ?_⟩
  · unfold do_drop
    dsimp only
    have h1' : ((remove_dep ext fuel s a).1.infos c).path.op = none := h1
    rw [h1']
    simp
  · have := (hres ⟨hcs, hown, Or.inr ⟨hd, hop⟩⟩).2 hc
    exact ⟨this, this⟩

/-- Witness of C12: the output 1 of an operator on the host tensor 0 is dropped, then the input
0 is freed: the output is recomputed and severed. -/
theorem cascading_sever_witness :
    ((free Extern.sum 3 (run_api Extern.sum (ChannelImpl.create id 3 2 ⟨true, true⟩ 1)
      [.put ⟨42, ⟨1, ⟨true, 0⟩⟩, ⟨true, 0⟩⟩ false, .apply_op ⟨.Other 0, 7⟩ [0], .drop 1,
        .sync]) 0).1.infos 1).path.op = none ∧
    ((free Extern.sum 3 (run_api Extern.sum (ChannelImpl.create id 3 2 ⟨true, true⟩ 1)
      [.put ⟨42, ⟨1, ⟨true, 0⟩⟩, ⟨true, 0⟩⟩ false, .apply_op ⟨.Other 0, 7⟩ [0], .drop 1,
        .sync]) 0).1.infos 1).ptr.isSome = true :=
  ⟨(cascading_sever Extern.sum 3 (run_api Extern.sum (ChannelImpl.create id 3 2 ⟨true, true⟩ 1)
      [.put ⟨42, ⟨1, ⟨true, 0⟩⟩, ⟨true, 0⟩⟩ false, .apply_op ⟨.Other 0, 7⟩ [0], .drop 1,
        .sync]) 0 1 (by decide) (by decide) (by decide) (by decide)).1,
   ((cascading_sever Extern.sum 3 (run_api Extern.sum (ChannelImpl.create id 3 2 ⟨true, true⟩ 1)
      [.put ⟨42, ⟨1, ⟨true, 0⟩⟩, ⟨true, 0⟩⟩ false, .apply_op ⟨.Other 0, 7⟩ [0], .drop 1,
        .sync]) 0 1 (by decide) (by decide) (by decide) (by decide)).2.2.2.2.2.2.2
      (by decide) (by decide) (by decide)
      (fun op _ => ⟨0, by decide, fun ts os h => by
        have : os.length = 1 := by
          simp only [Extern.sum, Option.some.injEq] at h
          rw [← h]
          rfl
        omega⟩)).2⟩

/-! ## The drop round trip -/

theorem gather_history_inputs_present
    (regen : ChannelImpl → TensorInfoPtr → ChannelImpl × Option Exc) (l : List TensorInfoPtr)
    (s : ChannelImpl) (acc : List (Option Tensor))
    (hl : ∀ i ∈ l, (s.infos i).ptr.isSome = true) :
    gather_history_inputs regen l s acc =
      (s, acc ++ l.map (fun i => (s.infos i).ptr), none) := by
  induction l generalizing acc with
  | nil => simp [gather_history_inputs]
  | cons i rest ih =>
    have hi := hl i (List.mem_cons_self i rest)
    unfold gather_history_inputs
    have hnone : (s.infos i).ptr.isNone = false := by
      cases h : (s.infos i).ptr with
      | none => rw [h] at hi; cases hi
      | some t => rfl
    simp only [hnone, Bool.false_eq_true, if_false]
    rw [ih _ (fun j hj => hl j (List.mem_cons_of_mem i hj))]
    simp

theorem do_drop_info (s : ChannelImpl) (c : TensorInfoPtr) (t : Tensor)
    (hop : (s.infos c).path.op.isSome = true) (hptr : (s.infos c).ptr = some t)
    (hev : (s.infos c).evict_type ≠ .SWAP)
    (hrt : (s.infos c).recompute_times < s.m_max_recompute_time) :
    do_drop s c =
      s.set_info c { s.infos c with evict_type := .DROP, value_fetched := false, ptr := none } := by
  unfold do_drop
  dsimp only
  rw [if_neg hev, if_neg (by rw [Option.isNone_iff_eq_none]; intro h; rw [h] at hop; cases hop),
    if_neg (by omega), if_neg (by rw [hptr]; simp)]

/-- C11: let `c` be a live record with an operator recorded, itself at one position of its
recorded outputs, with `ptr` present, `evict_type == NONE`, `recompute_times` below the limit
and every recorded input materialized. Then `do_drop(c)` leaves `ptr` absent,
`evict_type == DROP` and `value_fetched == false`; a following `regenerate(c)` returns, sets
`ptr` to the output at the position of `c` of the recorded operator applied to the current
tensors of the inputs, and raises `recompute_times` by exactly one. For a deterministic
operator that tensor has the bytes, layout and node of any tensor the operator yielded at that
position from inputs with the same bytes, layout and node. -/
theorem drop_round_trip (ext : Extern) (fuel : Nat) (s : ChannelImpl) (c : TensorInfoPtr)
    (op : OpDef) (t o : Tensor) (k : Nat) (ins outs : List Tensor)
    (hop : (s.infos c).path.op = some op)
    (hk : (s.infos c).path.outputs.get? k = some c)
    (hnd : (s.infos c).path.outputs.Nodup)
    (hlive : c ∈ s.m_st)
    (hptr : (s.infos c).ptr = some t)
    (hev : (s.infos c).evict_type = .NONE)
    (hrt : (s.infos c).recompute_times < s.m_max_recompute_time)
    (hin : (s.infos c).path.inputs.map (fun i => (s.infos i).ptr) = ins.map some)
    (hself : c ∉ (s.infos c).path.inputs)
    (happ : ext.apply_on_physical_tensor op ins = some outs)
    (hlen : outs.length ≤ (s.infos c).path.outputs.length)
    (ho : outs.get? k = some o) :
    ((do_drop s c).infos c).ptr = none ∧
    ((do_drop s c).infos c).evict_type = .DROP ∧
    ((do_drop s c).infos c).value_fetched = false ∧
    (regenerate ext (fuel + 1) (do_drop s c) c false).2 = none ∧
    ((regenerate ext (fuel + 1) (do_drop s c) c false).1.infos c).ptr = some o ∧
    ((regenerate ext (fuel + 1) (do_drop s c) c false).1.infos c).recompute_times =
      (s.infos c).recompute_times + 1 ∧
    ((s.infos c).recompute_times = 0 →
      ((regenerate ext (fuel + 1) (do_drop s c) c false).1.infos c).recompute_times = 1) ∧
    (Deterministic ext → ∀ ins0 outs0 t0, List.Forall₂ same_value ins0 ins →
      ext.apply_on_physical_tensor op ins0 = some outs0 → outs0.get? k = some t0 →
      same_value t0 o) := by
  have hdrop := do_drop_info s c t (by rw [hop]; rfl) hptr (by rw [hev]; exact fun h => by cases h)
    hrt
  have hat : (do_drop s c).infos c =
      { s.infos c with evict_type := .DROP, value_fetched := false, ptr := none } := by
    rw [hdrop, set_info_at]
  have hother : ∀ q, q ≠ c → (do_drop s c).infos q = s.infos q := by
    intro q hq
    rw [hdrop]
    simp [ChannelImpl.set_info, hq]
  have hst : (do_drop s c).m_st = s.m_st := by rw [hdrop]; rfl
  have hpath : ((do_drop s c).infos c).path = (s.infos c).path := by rw [hat]
  -- the inputs are materialized after the drop as before
  have hinputs : ∀ i ∈ (s.infos c).path.inputs, ((do_drop s c).infos i).ptr = (s.infos i).ptr := by
    intro i hi
    rw [hother i (by rintro rfl; exact hself hi)]
  have hsome : ∀ i ∈ (s.infos c).path.inputs, ((do_drop s c).infos i).ptr.isSome = true := by
    intro i hi
    rw [hinputs i hi]
    have : (s.infos i).ptr ∈ ins.map some := by
      rw [← hin]
      exact List.mem_map_of_mem (fun i => (s.infos i).ptr) hi
    obtain ⟨x, _, hx⟩ := List.mem_map.1 this
    rw [← hx]
    rfl
  have hmap : (s.infos c).path.inputs.map (fun i => ((do_drop s c).infos i).ptr) =
      ins.map some := by
    rw [← hin]
    exact List.map_congr_left hinputs
  have hspec := publish_outputs_spec (s.infos c).path hnd outs 0 (do_drop s c)
  have hreg : regenerate ext (fuel + 1) (do_drop s c) c false =
      publish_outputs (s.infos c).path outs 0 (do_drop s c) := by
    have hnoexc := hspec.2.2.2 (by omega)
    unfold regenerate
    have hc1 : ((do_drop s c).infos c).ptr.isNone = true ∧
        ((do_drop s c).infos c).evict_type ≠ .NONE := by
      rw [hat]
      exact ⟨rfl, fun h => by cases h⟩
    have hc2 : ¬ ((do_drop s c).infos c).evict_type = .SWAP := by
      rw [hat]
      exact fun h => by cases h
    simp only [hc1, hc2, and_self, if_true, if_false, ne_eq, not_false_eq_true]
    unfold recompute
    rw [hpath]
    simp only [hop]
    rw [gather_history_inputs_present _ _ _ _ hsome, List.nil_append, hmap]
    simp only [all_isSome_map_some, if_true, filterMap_id_map_some, happ]
    generalize publish_outputs (s.infos c).path outs 0 (do_drop s c) = r at hnoexc ⊢
    obtain ⟨s1, e⟩ := r
    cases hnoexc
    simp [sever]
  have hc := hspec.2.2.1 c k o (Nat.zero_le k) (by simpa using ho) hk (hst ▸ hlive)
  rw [hreg]
  have hone : publish_one ((do_drop s c).infos c) o =
      { s.infos c with
        evict_type := .DROP
        recompute_times := (s.infos c).recompute_times + 1
        value_fetched := o.value_fetched
        desc := { (s.infos c).desc with layout := o.layout, comp_node := o.comp_node }
        ptr := some o } := by
    rw [hat]
    unfold publish_one
    simp
  refine ⟨by rw [hat], by rw [hat], by rw [hat], hspec.2.2.2 (by omega),
    by rw [hc, hone], by rw [hc, hone], fun h0 => by rw [hc, hone, h0], ?_⟩
  intro hdet ins0 outs0 t0 hsame happ0 ht0
  rcases hdet op ins0 ins hsame with ⟨h1, _⟩ | ⟨os, os', h1, h2, h3⟩
  · rw [h1] at happ0
    cases happ0
  · rw [happ0] at h1
    rw [happ] at h2
    cases h1
    cases h2
    have hk0 : k < outs0.length := by
      rw [List.get?_eq_getElem?] at ht0
      exact (List.getElem?_eq_some.1 ht0).1
    have hk1 : k < outs.length := by
      rw [List.get?_eq_getElem?] at ho
      exact (List.getElem?_eq_some.1 ho).1
    have := List.Forall₂.get h3 hk0 hk1
    rw [List.get?_eq_getElem?] at ht0 ho
    obtain ⟨_, e0⟩ := List.getElem?_eq_some.1 ht0
    obtain ⟨_, e1⟩ := List.getElem?_eq_some.1 ho
    simp only [List.get_eq_getElem] at this
    rw [e0, e1] at this
    exact this

/-- Witness of C11: the output 1 of an operator on the host tensor 0, recorded with DROP
enabled, is dropped and regenerated: its `recompute_times` is 1. -/
theorem drop_round_trip_witness :
    ((regenerate Extern.sum 1 (do_drop (run_api Extern.sum
      (ChannelImpl.create id 3 2 ⟨true, true⟩ 1)
      [.put ⟨42, ⟨1, ⟨true, 0⟩⟩, ⟨true, 0⟩⟩ false, .apply_op ⟨.Other 0, 7⟩ [0], .sync]) 1)
      1 false).1.infos 1).ptr = some ⟨49, ⟨1, ⟨true, 0⟩⟩, ⟨true, 0⟩, false⟩ ∧
    ((regenerate Extern.sum 1 (do_drop (run_api Extern.sum
      (ChannelImpl.create id 3 2 ⟨true, true⟩ 1)
      [.put ⟨42, ⟨1, ⟨true, 0⟩⟩, ⟨true, 0⟩⟩ false, .apply_op ⟨.Other 0, 7⟩ [0], .sync]) 1)
      1 false).1.infos 1).recompute_times = 1 :=
  ⟨(drop_round_trip Extern.sum 0 (run_api Extern.sum (ChannelImpl.create id 3 2 ⟨true, true⟩ 1)
      [.put ⟨42, ⟨1, ⟨true, 0⟩⟩, ⟨true, 0⟩⟩ false, .apply_op ⟨.Other 0, 7⟩ [0], .sync]) 1
      ⟨.Other 0, 7⟩ ⟨49, ⟨1, ⟨true, 0⟩⟩, ⟨true, 0⟩, false⟩
      ⟨49, ⟨1, ⟨true, 0⟩⟩, ⟨true, 0⟩, false⟩ 0 [⟨42, ⟨1, ⟨true, 0⟩⟩, ⟨true, 0⟩, true⟩]
      [⟨49, ⟨1, ⟨true, 0⟩⟩, ⟨true, 0⟩, false⟩]
      (by decide) (by decide) (by decide) (by decide) (by decide) (by decide) (by decide)
      (by decide) (by decide) (by decide) (by decide) (by decide)).2.2.2.2.1,
   (drop_round_trip Extern.sum 0 (run_api Extern.sum (ChannelImpl.create id 3 2 ⟨true, true⟩ 1)
      [.put ⟨42, ⟨1, ⟨true, 0⟩⟩, ⟨true, 0⟩⟩ false, .apply_op ⟨.Other 0, 7⟩ [0], .sync]) 1
      ⟨.Other 0, 7⟩ ⟨49, ⟨1, ⟨true, 0⟩⟩, ⟨true, 0⟩, false⟩
      ⟨49, ⟨1, ⟨true, 0⟩⟩, ⟨true, 0⟩, false⟩ 0 [⟨42, ⟨1, ⟨true, 0⟩⟩, ⟨true, 0⟩, true⟩]
      [⟨49, ⟨1, ⟨true, 0⟩⟩, ⟨true, 0⟩, false⟩]
      (by decide) (by decide) (by decide) (by decide) (by decide) (by decide) (by decide)
      (by decide) (by decide) (by decide) (by decide) (by decide)).2.2.2.2.2.2.1 (by decide)⟩

/-! ## The output loop of `regenerate` -/

theorem regenerate_present (ext : Extern) (fuel : Nat) (s : ChannelImpl) (info : TensorInfoPtr)
    (hptr : (s.infos info).ptr.isSome = true) :
    regenerate ext (fuel + 1) s info false = (s, none) := by
  unfold regenerate
  have hc : ¬ ((s.infos info).ptr.isNone = true ∧ (s.infos info).evict_type ≠ .NONE) := by
    rintro ⟨h, _⟩
    rw [Option.isNone_iff_eq_none] at h
    rw [h] at hptr
    cases hptr
  simp only [hc, if_false]
  simp [sever]

theorem regenerate_drop_state (ext : Extern) (fuel : Nat) (s : ChannelImpl)
    (info : TensorInfoPtr) (op : OpDef) (s1 : ChannelImpl) (inputs : List (Option Tensor))
    (outs : List Tensor) (hptr : (s.infos info).ptr = none)
    (hev : (s.infos info).evict_type = .DROP) (hop : (s.infos info).path.op = some op)
    (hgather : gather_history_inputs (fun s1 i => regenerate ext fuel s1 i false)
      (s.infos info).path.inputs s [] = (s1, inputs, none))
    (hall : inputs.all Option.isSome = true)
    (happ : ext.apply_on_physical_tensor op (inputs.filterMap id) = some outs) :
    regenerate ext (fuel + 1) s info false = publish_outputs (s.infos info).path outs 0 s1 := by
  unfold regenerate
  have hc1 : (s.infos info).ptr.isNone = true ∧ (s.infos info).evict_type ≠ .NONE := by
    rw [hptr, hev]
    exact ⟨rfl, fun h => by cases h⟩
  have hc2 : ¬ (s.infos info).evict_type = .SWAP := by
    rw [hev]
    exact fun h => by cases h
  simp only [hc1, hc2, and_self, if_true, if_false, ne_eq, not_false_eq_true]
  unfold recompute
  simp only [hop, hgather, hall, if_true, happ]
  generalize publish_outputs (s.infos info).path outs 0 s1 = r
  obtain ⟨s2, e⟩ := r
  cases e with
  | none => simp [sever]
  | some e => rfl

/-- C22, amended: let `regenerate(info)` re-execute the recorded operator of a DROP-evicted info
without `ptr`: `s1` is the channel after the inputs were regenerated and `outs` are the tensors
the operator returned. For each position below the number of returned tensors whose weak
reference resolves to a live info, `recompute_times` of that info goes up by one, whatever its
eviction state; the new tensor is published into exactly those that are DROP-evicted without
`ptr`; a live sibling that is not DROP-evicted, or has its `ptr`, keeps `ptr` and every other
field, and only its `recompute_times` goes up by one. Every other info is unchanged. -/
theorem regenerate_counts_live_outputs (ext : Extern) (fuel : Nat) (s : ChannelImpl)
    (info : TensorInfoPtr) (op : OpDef) (s1 : ChannelImpl) (inputs : List (Option Tensor))
    (outs : List Tensor) (hptr : (s.infos info).ptr = none)
    (hev : (s.infos info).evict_type = .DROP) (hop : (s.infos info).path.op = some op)
    (hnd : (s.infos info).path.outputs.Nodup)
    (hgather : gather_history_inputs (fun s1 i => regenerate ext fuel s1 i false)
      (s.infos info).path.inputs s [] = (s1, inputs, none))
    (hall : inputs.all Option.isSome = true)
    (happ : ext.apply_on_physical_tensor op (inputs.filterMap id) = some outs) :
    (∀ q k t, (s.infos info).path.outputs.get? k = some q → outs.get? k = some t →
      q ∈ s1.m_st →
      ((regenerate ext (fuel + 1) s info false).1.infos q).recompute_times =
        (s1.infos q).recompute_times + 1 ∧
      ((s1.infos q).ptr = none ∧ (s1.infos q).evict_type = .DROP →
        (regenerate ext (fuel + 1) s info false).1.infos q =
          { s1.infos q with
            recompute_times := (s1.infos q).recompute_times + 1
            value_fetched := t.value_fetched
            desc := { (s1.infos q).desc with layout := t.layout, comp_node := t.comp_node }
            ptr := some t }) ∧
      (¬ ((s1.infos q).ptr = none ∧ (s1.infos q).evict_type = .DROP) →
        (regenerate ext (fuel + 1) s info false).1.infos q =
          { s1.infos q with recompute_times := (s1.infos q).recompute_times + 1 })) ∧
    (∀ q, (∀ k, k < outs.length → (s.infos info).path.outputs.get? k ≠ some q) →
      (regenerate ext (fuel + 1) s info false).1.infos q = s1.infos q) ∧
    (∀ q, q ∉ s1.m_st → (regenerate ext (fuel + 1) s info false).1.infos q = s1.infos q) := by
  rw [regenerate_drop_state ext fuel s info op s1 inputs outs hptr hev hop hgather hall happ]
  obtain ⟨h1, h2, h3, _⟩ := publish_outputs_spec (s.infos info).path hnd outs 0 s1
  refine ⟨fun q k t hq ht hlive => ?_, fun q hq => ?_, h2⟩
  · have hone := h3 q k t (Nat.zero_le k) (by simpa using ht) hq hlive
    rw [hone]
    unfold publish_one
    refine ⟨?_, fun hc => ?_, fun hc => ?_⟩
    · split <;> rfl
    · rw [if_pos ⟨by rw [hc.1]; rfl, hc.2⟩]
    · rw [if_neg (fun h => hc ⟨Option.isNone_iff_eq_none.1 h.1, h.2⟩)]
  · exact h1 q (fun k _ hk => hq k (by simpa using hk))

/-- Witness of C22, amended: after `pair_calls`, `regenerate(2)` re-executes the operator on the
materialized inputs 0 and 1; the sibling 3 at position 1 is live and not evicted, and its
`recompute_times` goes from 0 to 1. -/
theorem regenerate_counts_live_outputs_witness :
    ((regenerate Extern.pair 1
      (run_api Extern.pair (ChannelImpl.create id 3 2 ⟨true, true⟩ 1) pair_calls) 2
      false).1.infos 3).recompute_times =
    ((run_api Extern.pair (ChannelImpl.create id 3 2 ⟨true, true⟩ 1) pair_calls).infos
      3).recompute_times + 1 :=
  ((regenerate_counts_live_outputs Extern.pair 0
    (run_api Extern.pair (ChannelImpl.create id 3 2 ⟨true, true⟩ 1) pair_calls) 2
    ⟨.Other 0, 10⟩
    (run_api Extern.pair (ChannelImpl.create id 3 2 ⟨true, true⟩ 1) pair_calls)
    _ [⟨13, ⟨1, ⟨true, 0⟩⟩, ⟨true, 0⟩, false⟩, ⟨14, ⟨1, ⟨true, 0⟩⟩, ⟨true, 0⟩, false⟩]
    (by decide) (by decide) (by decide) (by decide)
    (gather_history_inputs_present _ _ _ _ (by decide)) (by decide) (by decide)).1
    3 1 ⟨14, ⟨1, ⟨true, 0⟩⟩, ⟨true, 0⟩, false⟩ (by decide) (by decide) (by decide)).1

/-- C22, counterexample: after `pair_calls` the info 2 is DROP-evicted without `ptr` and its
sibling 3 is live, not evicted, with `ptr` present and `recompute_times == 0`;
`regenerate(2)` returns and leaves the sibling 3 with the same `ptr` and
`recompute_times == 1`, and so does a `get_value` of 2 on the channel. -/
theorem regenerate_counts_resident_sibling :
    3 ∈ (run_api Extern.pair (ChannelImpl.create id 3 2 ⟨true, true⟩ 1) pair_calls).m_st ∧
    ((run_api Extern.pair (ChannelImpl.create id 3 2 ⟨true, true⟩ 1) pair_calls).infos
      3).evict_type = .NONE ∧
    ((run_api Extern.pair (ChannelImpl.create id 3 2 ⟨true, true⟩ 1) pair_calls).infos
      3).ptr = some ⟨14, ⟨1, ⟨true, 0⟩⟩, ⟨true, 0⟩, false⟩ ∧
    ((run_api Extern.pair (ChannelImpl.create id 3 2 ⟨true, true⟩ 1) pair_calls).infos
      3).recompute_times = 0 ∧
    ((run_api Extern.pair (ChannelImpl.create id 3 2 ⟨true, true⟩ 1) pair_calls).infos
      2).evict_type = .DROP ∧
    ((run_api Extern.pair (ChannelImpl.create id 3 2 ⟨true, true⟩ 1) pair_calls).infos
      2).ptr = none ∧
    (regenerate Extern.pair 3
      (run_api Extern.pair (ChannelImpl.create id 3 2 ⟨true, true⟩ 1) pair_calls) 2 false).2
      = none ∧
    ((regenerate Extern.pair 3
      (run_api Extern.pair (ChannelImpl.create id 3 2 ⟨true, true⟩ 1) pair_calls) 2
      false).1.infos 3).ptr = some ⟨14, ⟨1, ⟨true, 0⟩⟩, ⟨true, 0⟩, false⟩ ∧
    ((regenerate Extern.pair 3
      (run_api Extern.pair (ChannelImpl.create id 3 2 ⟨true, true⟩ 1) pair_calls) 2
      false).1.infos 3).recompute_times = 1 ∧
    ((run_api Extern.pair (ChannelImpl.create id 3 2 ⟨true, true⟩ 1)
      (pair_calls ++ [.get_value 2])).infos 3).recompute_times = 1 := by
  refine ⟨by decide, by decide, by decide, by decide, by decide, by decide, by decide,
    by decide, by decide, by decide⟩

/-! ## Calling `regenerate` twice -/

theorem publish_outputs_returns (path : ComputePath) (ts : List Tensor) (i : Nat)
    (s : ChannelImpl) (hlen : i + ts.length ≤ path.outputs.length) :
    (publish_outputs path ts i s).2 = none := by
  induction ts generalizing i s with
  | nil => rfl
  | cons t ts ih =>
    have hi : i < path.outputs.length := by
      simp only [List.length_cons] at hlen
      omega
    obtain ⟨o, ho⟩ : ∃ o, path.outputs.get? i = some o :=
      ⟨path.outputs[i], by rw [List.get?_eq_getElem?]; exact List.getElem?_eq_getElem hi⟩
    rw [publish_outputs_cons path t ts i s o ho]
    have hlen' : i + 1 + ts.length ≤ path.outputs.length := by
      simp only [List.length_cons] at hlen
      omega
    split
    · exact ih _ _ hlen'
    · exact ih _ _ hlen'

/-- C21, counterexample: after `short_calls` with the registry `Extern.fickle` the live info 3
is DROP-evicted without `ptr`; `regenerate(3)` returns normally twice in a row, the inputs 0 and
1 keep their tensors, and the info 2 has `recompute_times == 1` after the first call and
`recompute_times == 2` after the second, and 3 is still without `ptr`. -/
theorem regenerate_twice_differs :
    3 ∈ (run_api Extern.fickle (ChannelImpl.create id 3 2 ⟨true, true⟩ 1) short_calls).m_st ∧
    ((run_api Extern.fickle (ChannelImpl.create id 3 2 ⟨true, true⟩ 1) short_calls).infos
      3).evict_type = .DROP ∧
    ((run_api Extern.fickle (ChannelImpl.create id 3 2 ⟨true, true⟩ 1) short_calls).infos
      3).ptr = none ∧
    (regenerate Extern.fickle 3
      (run_api Extern.fickle (ChannelImpl.create id 3 2 ⟨true, true⟩ 1) short_calls) 3
      false).2 = none ∧
    ((regenerate Extern.fickle 3
      (run_api Extern.fickle (ChannelImpl.create id 3 2 ⟨true, true⟩ 1) short_calls) 3
      false).1.infos 0).ptr =
      ((run_api Extern.fickle (ChannelImpl.create id 3 2 ⟨true, true⟩ 1) short_calls).infos
        0).ptr ∧
    ((regenerate Extern.fickle 3
      (run_api Extern.fickle (ChannelImpl.create id 3 2 ⟨true, true⟩ 1) short_calls) 3
      false).1.infos 1).ptr =
      ((run_api Extern.fickle (ChannelImpl.create id 3 2 ⟨true, true⟩ 1) short_calls).infos
        1).ptr ∧
    ((regenerate Extern.fickle 3
      (run_api Extern.fickle (ChannelImpl.create id 3 2 ⟨true, true⟩ 1) short_calls) 3
      false).1.infos 2).recompute_times = 1 ∧
    (regenerate Extern.fickle 3 (regenerate Extern.fickle 3
      (run_api Extern.fickle (ChannelImpl.create id 3 2 ⟨true, true⟩ 1) short_calls) 3
      false).1 3 false).2 = none ∧
    ((regenerate Extern.fickle 3 (regenerate Extern.fickle 3
      (run_api Extern.fickle (ChannelImpl.create id 3 2 ⟨true, true⟩ 1) short_calls) 3
      false).1 3 false).1.infos 2).recompute_times = 2 ∧
    ((regenerate Extern.fickle 3 (regenerate Extern.fickle 3
      (run_api Extern.fickle (ChannelImpl.create id 3 2 ⟨true, true⟩ 1) short_calls) 3
      false).1 3 false).1.infos 3).ptr = none := by
  refine ⟨by decide, by decide, by decide, by decide, by decide, by decide, by decide,
    by decide, by decide, by decide⟩

/-- C21, amended: let `info` be a live DROP-evicted record that is itself at one position of its
recorded outputs, a position for which the recorded operator returns a tensor whenever it
returns. If `regenerate(info)` (must_drop false) returns normally, then `info` has its `ptr`,
and a second call in a row returns normally and leaves the whole channel, hence every field of
every `TensorInfo`, as the first call left it: the operator is not re-executed. The first call
does return normally when `ptr` is absent, every recorded input is materialized and the
operator returns no more tensors than outputs are recorded. -/
theorem regenerate_idempotent (ext : Extern) (fuel : Nat) (s : ChannelImpl)
    (info : TensorInfoPtr) (hlive : info ∈ s.m_st)
    (hown : OwnOutput ext (s.infos info).path info)
    (hev : (s.infos info).evict_type = .DROP) :
    ((regenerate ext (fuel + 1) s info false).2 = none →
      ((regenerate ext (fuel + 1) s info false).1.infos info).ptr.isSome = true ∧
      regenerate ext (fuel + 1) (regenerate ext (fuel + 1) s info false).1 info false =
        ((regenerate ext (fuel + 1) s info false).1, none)) ∧
    (∀ op ins outs, (s.infos info).ptr = none → (s.infos info).path.op = some op →
      (s.infos info).path.inputs.map (fun i => (s.infos i).ptr) = ins.map some →
      ext.apply_on_physical_tensor op ins = some outs →
      outs.length ≤ (s.infos info).path.outputs.length →
      (regenerate ext (fuel + 1) s info false).2 = none) := by
  refine ⟨fun hret => ?_, fun op ins outs hptr hop hin happ hlen => ?_⟩
  · have hres : Restorable ext info s := by
      refine ⟨hlive, hown, ?_⟩
      cases hp : (s.infos info).ptr with
      | some t => exact Or.inl rfl
      | none =>
        refine Or.inr ⟨hev, ?_⟩
        cases ho : (s.infos info).path.op with
        | some op => rfl
        | none =>
          exfalso
          unfold regenerate at hret
          simp [hp, hev, recompute, ho] at hret
    have hptr := (regenerate_restorable ext info (fuel + 1) s info false hret hres).2 rfl
    exact ⟨hptr, regenerate_present ext fuel _ info hptr⟩
  · have hsome : ∀ i ∈ (s.infos info).path.inputs, (s.infos i).ptr.isSome = true := by
      intro i hi
      have : (s.infos i).ptr ∈ ins.map some := by
        rw [← hin]
        exact List.mem_map_of_mem (fun i => (s.infos i).ptr) hi
      obtain ⟨x, _, hx⟩ := List.mem_map.1 this
      rw [← hx]
      rfl
    rw [regenerate_drop_state ext fuel s info op s (ins.map some) outs hptr hev hop
      (by rw [gather_history_inputs_present _ _ _ _ hsome, List.nil_append, hin])
      (all_isSome_map_some ins) (by rw [filterMap_id_map_some]; exact happ)]
    exact publish_outputs_returns _ _ _ _ (by omega)

/-- Witness of C21, amended: after `pair_calls` the info 2 is DROP-evicted; `regenerate(2)`
returns with `ptr` present, and the second call changes nothing. -/
theorem regenerate_idempotent_witness :
    regenerate Extern.pair 1 (regenerate Extern.pair 1
      (run_api Extern.pair (ChannelImpl.create id 3 2 ⟨true, true⟩ 1) pair_calls) 2 false).1
      2 false =
    ((regenerate Extern.pair 1
      (run_api Extern.pair (ChannelImpl.create id 3 2 ⟨true, true⟩ 1) pair_calls) 2 false).1,
      none) :=
  ((regenerate_idempotent Extern.pair 0
    (run_api Extern.pair (ChannelImpl.create id 3 2 ⟨true, true⟩ 1) pair_calls) 2
    (by decide)
    (fun op _ => ⟨0, by decide, fun ts os h => by
      have : os.length = 2 := by
        simp only [Extern.pair, Option.some.injEq] at h
        rw [← h]
        rfl
      omega⟩)
    (by decide)).1 (by decide)).2

/-! ## The recompute graph under the worker -/

end Interpreter
